import Mathlib

/-! libabw: list resolver, styles collector, literal parsers and dispatcher

A shallow embedding of the parts of `src/lib/ABWParser.cpp` and
`src/lib/ABWStylesCollector.cpp` that the specification talks about:

* `findInt`, `findBool`, `parsePropString` (the small literal parsers),
* `ABWStylesCollector` with `openTable`, `openCell`, `closeCell`, `closeTable`,
  `collectData`, `collectList`,
* `_findAndUpdateListElementId` and `updateListElementIds` (the list resolver),
* `ABWParser` with `parse`, `processXmlDocument`, `processXmlNode` and the
  `read...` functions (the dispatcher), over a reader that is a stream of events
  and collectors that are reached through the collector interface.

C++ strings are lists of characters, `std::map` is an association list that is
read through `mapFind` (the list-definition map is also iterated, in the order
of its entries), a possibly null `const char *` or pointer is an `Option`, and
`int` is `Int` with the 32-bit wrap-around written out (`wrapInt`) wherever the
source does arithmetic.
-/

namespace Abw

/-! ## Strings and finite maps -/

/-- A C++ string: the list of its characters. -/
abbrev Str := List Char

/-- The white space of the classic C locale (`std::isspace`): space, `\t`, `\n`, `\v`, `\f`, `\r`. -/
def isSpace (c : Char) : Bool :=
  c = Char.ofNat 32 || c = Char.ofNat 9 || c = Char.ofNat 10 || c = Char.ofNat 11 ||
    c = Char.ofNat 12 || c = Char.ofNat 13

/-- Remove leading white space (`boost::trim_left`). -/
def trimLeft (s : Str) : Str := s.dropWhile isSpace

/-- Remove trailing white space (`boost::trim_right`). -/
def trimRight (s : Str) : Str := (s.reverse.dropWhile isSpace).reverse

/-- Remove white space on both ends (`boost::trim`, `boost::trim_copy`). -/
def trim (s : Str) : Str := trimRight (trimLeft s)

/-- Put a character in front of the first token of a token list. -/
def consHead (c : Char) : List Str → List Str
  | [] => [[c]]
  | t :: ts => (c :: t) :: ts

/-- Tokens of `boost::algorithm::split(_, s, is_any_of(..), token_compress_on)`:
the string is cut at every maximal run of delimiter characters, so adjacent
delimiters count as one; a delimiter at either end gives an empty token there. -/
def splitCompress (p : Char → Bool) : Str → List Str
  | [] => [[]]
  | c :: cs =>
    if p c then
      match cs with
      | [] => [[], []]
      | d :: _ => if p d then splitCompress p cs else [] :: splitCompress p cs
    else consHead c (splitCompress p cs)

/-- Lookup in a `std::map` (`find`): the value bound to `k`, if any. -/
def mapFind {K V : Type} [DecidableEq K] : List (K × V) → K → Option V
  | [], _ => none
  | (k', v) :: rest, k => if k' = k then some v else mapFind rest k

/-- Assignment `m[k] = v` of a `std::map`: rebinds `k` when present, adds it otherwise. -/
def mapSet {K V : Type} [DecidableEq K] : List (K × V) → K → V → List (K × V)
  | [], k, v => [(k, v)]
  | (k', v') :: rest, k, v => if k' = k then (k, v) :: rest else (k', v') :: mapSet rest k v

/-- Reduction of an `int` result to 32 bits (two's complement). -/
def wrapInt (x : Int) : Int := (x + 2147483648) % 4294967296 - 2147483648

/-! ## `findInt` (ABWStylesCollector.cpp) -/

/-- Decimal digit test of `int_p`. -/
def isDigit (c : Char) : Bool := decide (48 ≤ c.toNat) && decide (c.toNat ≤ 57)

/-- Value of a run of decimal digits. -/
def digitsValue (ds : Str) : Int := ds.foldl (fun a c => 10 * a + ((c.toNat : Int) - 48)) 0

/-- The source's `findInt(str, res)`: `int_p >> end_p` under the `space_p` skipper.
White space is skipped before the number and before the end; the number is an
optional sign and at least one digit, and a value outside `int` is no match.
`none` is the `false` return; every caller overwrites `res` in that case. -/
def findInt (str : Str) : Option Int :=
  if str = [] then none
  else
    let s := str.dropWhile isSpace
    let neg := s.head? = some '-'
    let s1 := if s.head? = some '-' ∨ s.head? = some '+' then s.tail else s
    let digs := s1.takeWhile isDigit
    let rest := s1.dropWhile isDigit
    if digs = [] then none
    else
      let v : Int := if neg then - digitsValue digs else digitsValue digs
      if v < -2147483648 ∨ 2147483647 < v then none
      else if rest.dropWhile isSpace = [] then some v
      else none

/-! ## `parsePropString` (ABWStylesCollector.cpp) -/

/-- A property map `std::map<std::string, std::string>`. -/
abbrev PropMap := List (Str × Str)

/-- Body of the loop of `parsePropString`: trim the item, split it at `:` and bind
the first token to the second when there are exactly two tokens. -/
def addProp (props : PropMap) (item : Str) : PropMap :=
  match splitCompress (fun c => c = ':') (trim item) with
  | [k, v] => mapSet props k v
  | _ => props

/-- The source's `parsePropString(str, props)`. -/
def parsePropString (str : Str) (props : PropMap) : PropMap :=
  if str = [] then props
  else (splitCompress (fun c => c = ';') (trim str)).foldl addProp props

/-! ## `findBool` (ABWParser.cpp) -/

/-- Match the lower-case symbol `sym` at the start of `s` without regard to case
(`no_case`); the result is what follows the match. -/
def matchNoCase : Str → Str → Option Str
  | [], s => some s
  | _ :: _, [] => none
  | a :: sym, c :: s => if c.toLower = a then matchNoCase sym s else none

/-- The symbol table `bools` of `findBool`, in the order of its `add` calls. -/
def bools : List (Str × Bool) :=
  [("true".toList, true), ("false".toList, false), ("yes".toList, true), ("no".toList, false)]

/-- Lookup of the symbol table at the start of `s`. -/
def matchBools : List (Str × Bool) → Str → Option (Bool × Str)
  | [], _ => none
  | (sym, b) :: more, s =>
    match matchNoCase sym s with
    | some rest => some (b, rest)
    | none => matchBools more s

/-- The source's `findBool(str, res)`: the pair of the returned flag and the value
of `res` afterwards. `phrase_parse` skips white space before and after the
symbol, stores the symbol's value in `res` as soon as the symbol matched, and the
function succeeds only when the whole string was consumed. -/
def findBool (str : Str) (res : Bool) : Bool × Bool :=
  if str = [] then (false, res)
  else
    match matchBools bools (str.dropWhile isSpace) with
    | none => (false, res)
    | some (b, rest) => (decide (rest.dropWhile isSpace = []), b)

/-! ## List elements (declared in ABWCollector.h) -/

/-- Modelled from the spec: the variant part of a list element; the declarations
of `ABWOrderedListElement` and `ABWUnorderedListElement` (ABWCollector.h) are not
in the sources. Ordered: numbering format, prefix, suffix, start value.
Unordered: bullet glyph. -/
inductive ABWListKind where
  | ordered (m_numFormat m_numPrefix m_numSuffix : Str) (m_startValue : Int)
  | unordered (m_bulletChar : Str)
  deriving DecidableEq, Repr

/-- Modelled from the spec: a list element (`ABWListElement`, ABWCollector.h, not in
the sources) carries its variant, `m_parentId` (0 = none) and `m_listId`
(0 = unresolved). -/
structure ABWListElement where
  kind : ABWListKind
  m_parentId : Int
  m_listId : Int
  deriving DecidableEq, Repr

/-- The list-definition map: identifier to a possibly null element pointer, in
iteration order. ABWStylesCollector.cpp keys it by the id string, ABWParser.cpp by
an `int`, so the key type is a parameter. Every key has an element of its own
(`collectList` allocates one per id), so an element is stored by value. -/
abbrev ListElements (K : Type) := List (K × Option ABWListElement)

/-- Mutation of the element stored under `id` through its pointer; keys and null
pointers are left alone. -/
def modifyElem (f : ABWListElement → ABWListElement) :
    ListElements Int → Int → ListElements Int
  | [], _ => []
  | (k, v) :: rest, id =>
    if k = id then (k, v.map f) :: rest else (k, v) :: modifyElem f rest id

/-! ## The list resolver (ABWParser.cpp) -/

/-- What one call of `_findAndUpdateListElementId` does before it either returns
or calls itself: `done m seen ret` is a return of `ret`, `recurse m seen parent`
is the recursive call on `parent`. -/
inductive FindStep where
  | done (listElements : ListElements Int) (seen : List Int) (ret : Int)
  | recurse (listElements : ListElements Int) (seen : List Int) (parent : Int)
  deriving DecidableEq, Repr

/-- Body of `_findAndUpdateListElementId` up to the recursive call. -/
def findStep (listElements : ListElements Int) (id : Int) (seen : List Int) : FindStep :=
  match mapFind listElements id with
  | none => .done listElements seen 0
  | some none => .done listElements seen 0
  | some (some tmpElement) =>
    if tmpElement.m_listId ≠ 0 then .done listElements seen tmpElement.m_listId
    else
      -- `if (seen.find(id)!=seen.end()) m_parentId=0; else seen.insert(id);`
      let m1 := if id ∈ seen then
          modifyElem (fun e => { e with m_parentId := 0 }) listElements id
        else listElements
      let seen1 := if id ∈ seen then seen else id :: seen
      let parentId := if id ∈ seen then 0 else tmpElement.m_parentId
      if parentId = 0 then
        .done (modifyElem (fun e => { e with m_listId := id }) m1 id) seen1 id
      else .recurse m1 seen1 parentId

/-- The source's `_findAndUpdateListElementId(listElements, id, seen)` with a bound
`fuel` on the depth of the recursion; the result is the map, the seen set and
the returned id, and `none` means the bound was too small. -/
def _findAndUpdateListElementId :
    Nat → ListElements Int → Int → List Int → Option (ListElements Int × List Int × Int)
  | 0, _, _, _ => none
  | fuel + 1, listElements, id, seen =>
    match findStep listElements id seen with
    | .done m s r => some (m, s, r)
    | .recurse m s parentId =>
      match _findAndUpdateListElementId fuel m parentId s with
      | none => none
      | some (m2, s2, r) => some (modifyElem (fun e => { e with m_listId := r }) m2 id, s2, r)

/-- The loop of `updateListElementIds` over the entries still to visit. -/
def updateLoop (fuel : Nat) :
    List (Int × Option ABWListElement) → ListElements Int → List Int →
      Option (ListElements Int × List Int)
  | [], m, seens => some (m, seens)
  | (_, none) :: rest, m, seens => updateLoop fuel rest m seens
  | (k, some _) :: rest, m, seens =>
    match _findAndUpdateListElementId fuel m k seens with
    | none => none
    | some (m1, seens1, _) => updateLoop fuel rest m1 seens1

/-- The source's `updateListElementIds(listElements)`: one seen set `seens` for the
whole loop; each call may nest as deep as the number of entries plus one. -/
def updateListElementIds (listElements : ListElements Int) : Option (ListElements Int) :=
  (updateLoop (listElements.length + 1) listElements listElements []).map (fun r => r.1)

/-! ## The styles collector (ABWStylesCollector.cpp) -/

/-- The source's `ABWStylesTableState`. -/
structure ABWStylesTableState where
  m_currentCellProperties : PropMap
  m_currentTableWidth : Int
  m_currentTableRow : Int
  m_currentTableId : Int
  deriving DecidableEq, Repr

/-- Modelled from the spec: an embedded object `ABWData` (declared in
ABWCollector.h, not in the sources) is a mime type and a binary payload. -/
structure ABWData where
  m_mimeType : Option Str
  m_binaryData : List Nat
  deriving DecidableEq, Repr

/-- The source's `ABWStylesCollector`: the stack `m_ps->m_tableStates` (top first),
the shared maps and the table counter. -/
structure ABWStylesCollector where
  m_tableStates : List ABWStylesTableState
  m_tableSizes : List (Int × Int)
  m_data : List (Str × ABWData)
  m_tableCounter : Int
  m_listElements : ListElements Str
  deriving DecidableEq, Repr

/-- The table state `openTable` pushes: a default `ABWStylesTableState()` whose id,
row and width are then set to `id`, -1 and 0. -/
def newTableState (id : Int) : ABWStylesTableState :=
  { m_currentCellProperties := [], m_currentTableWidth := 0, m_currentTableRow := -1,
    m_currentTableId := id }

/-- The source's `openTable`. -/
def openTable (c : ABWStylesCollector) : ABWStylesCollector :=
  { c with
    m_tableStates := newTableState c.m_tableCounter :: c.m_tableStates
    m_tableCounter := wrapInt (c.m_tableCounter + 1) }

/-- The source's `closeTable`; `none` stands for `top()` of an empty stack. -/
def closeTable (c : ABWStylesCollector) : Option ABWStylesCollector :=
  match c.m_tableStates with
  | [] => none
  | top :: rest =>
    some { c with
      m_tableSizes := mapSet c.m_tableSizes top.m_currentTableId top.m_currentTableWidth
      m_tableStates := rest }

/-- The source's `_findCellProperty`: the value, or the empty string. -/
def _findCellProperty (props : PropMap) (name : Str) : Str :=
  match mapFind props name with
  | some v => v
  | none => []

/-- The loop `while (m_currentTableRow < currentRow) m_currentTableRow++;` with a
bound on its iterations; under the loop test the increment cannot overflow. -/
def advanceRow : Nat → Int → Int → Int
  | 0, row, _ => row
  | n + 1, row, currentRow => if row < currentRow then advanceRow n (row + 1) currentRow else row

/-- The source's `openCell` on the table state on top of the stack. -/
def openCellState (props : Option Str) (ts : ABWStylesTableState) : ABWStylesTableState :=
  let cellProps := match props with
    | some p => parsePropString p ts.m_currentCellProperties
    | none => ts.m_currentCellProperties
  let currentRow := match findInt (_findCellProperty cellProps "top-attach".toList) with
    | some v => v
    | none => wrapInt (ts.m_currentTableRow + 1)
  let row := advanceRow (currentRow - ts.m_currentTableRow).toNat ts.m_currentTableRow currentRow
  let width :=
    if row = 0 then
      match findInt (_findCellProperty cellProps "left-attach".toList),
        findInt (_findCellProperty cellProps "right-attach".toList) with
      | some leftAttach, some rightAttach =>
        wrapInt (ts.m_currentTableWidth + wrapInt (rightAttach - leftAttach))
      | _, _ => wrapInt (ts.m_currentTableWidth + 1)
    else ts.m_currentTableWidth
  { ts with m_currentCellProperties := cellProps, m_currentTableRow := row,
            m_currentTableWidth := width }

/-- The source's `openCell`; `none` stands for `top()` of an empty stack. -/
def openCell (props : Option Str) (c : ABWStylesCollector) : Option ABWStylesCollector :=
  match c.m_tableStates with
  | [] => none
  | top :: rest => some { c with m_tableStates := openCellState props top :: rest }

/-- The source's `closeCell`; `none` stands for `top()` of an empty stack. -/
def closeCell (c : ABWStylesCollector) : Option ABWStylesCollector :=
  match c.m_tableStates with
  | [] => none
  | top :: rest =>
    some { c with m_tableStates := { top with m_currentCellProperties := [] } :: rest }

/-- The source's `collectData`. -/
def collectData (name : Option Str) (mimeType : Option Str) (data : List Nat)
    (c : ABWStylesCollector) : ABWStylesCollector :=
  match name with
  | none => c
  | some n => { c with m_data := mapSet c.m_data n { m_mimeType := mimeType, m_binaryData := data } }

/-- Segments of the split iterator with `first_finder("%L", is_iequal())`: the
string is cut at every occurrence of `%L` or `%l`, found from left to right. -/
def splitDelim : Str → List Str
  | [] => [[]]
  | [c] => [[c]]
  | c :: d :: rest =>
    if c = '%' ∧ (d = 'L' ∨ d = 'l') then [] :: splitDelim rest
    else consHead c (splitDelim (d :: rest))

/-- The `switch` of `collectList` that picks the numbering format. -/
def numFormatOf (intType : Int) : Str :=
  if intType = 0 then "1".toList
  else if intType = 1 then "a".toList
  else if intType = 2 then "A".toList
  else if intType = 3 then "i".toList
  else if intType = 4 then "I".toList
  else "1".toList

/-- The source's `collectList(id, _, listDelim, _, startValue, type)`; the second
and the fourth argument have no name in the source. A new element has the
default `m_parentId` and `m_listId` of 0 and, when ordered, empty prefix and
suffix unless the delimiter gives them. -/
def collectList (id : Option Str) (_listDecimal : Option Str) (listDelim : Option Str)
    (_parentid : Option Str) (startValue : Option Str) (type : Option Str)
    (c : ABWStylesCollector) : ABWStylesCollector :=
  match id with
  | none => c
  | some id =>
    let intType : Int := match type with
      | none => 5
      | some t => match findInt t with
        | some v => v
        | none => 5
    if 5 ≤ intType ∧ intType < 17 then
      let tmpElement : ABWListElement :=
        { kind := .unordered "*".toList, m_parentId := 0, m_listId := 0 }
      { c with m_listElements := mapSet c.m_listElements id (some tmpElement) }
    else
      let start : Int := match startValue with
        | none => 0
        | some s => match findInt s with
          | some v => v
          | none => 0
      let fixes : Str × Str := match listDelim with
        | none => ([], [])
        | some delim => match splitDelim delim with
          | a :: b :: _ => (a, b)
          | _ => ([], [])
      let tmpElement : ABWListElement :=
        { kind := .ordered (numFormatOf intType) fixes.1 fixes.2 start,
          m_parentId := 0, m_listId := 0 }
      { c with m_listElements := mapSet c.m_listElements id (some tmpElement) }

/-- The attributes of an XML element, as `xmlTextReaderGetAttribute` reads them. -/
abbrev Attrs := List (Str × Str)

/-- The source's `readL` with the styles collector installed. -/
def readL (attrs : Attrs) (c : ABWStylesCollector) : ABWStylesCollector :=
  let listDecimal := match mapFind attrs "list-decimal".toList with
    | some v => some v
    | none => some "NULL".toList
  collectList (mapFind attrs "id".toList) listDecimal (mapFind attrs "list-delim".toList)
    (mapFind attrs "parentid".toList) (mapFind attrs "start-value".toList)
    (mapFind attrs "type".toList) c

/-- Open and close each cell of a list of cell property strings. -/
def runCells : List (Option Str) → ABWStylesCollector → Option ABWStylesCollector
  | [], c => some c
  | p :: ps, c => (openCell p c).bind fun c1 => (closeCell c1).bind fun c2 => runCells ps c2

/-- A whole table: `openTable`, the cells, `closeTable`. -/
def runTable (cells : List (Option Str)) (c : ABWStylesCollector) : Option ABWStylesCollector :=
  (runCells cells (openTable c)).bind closeTable

/-- The property map of a cell that is opened with property string `p` when the
cell before it was closed. -/
def cellProps (p : Option Str) : PropMap :=
  match p with
  | some s => parsePropString s []
  | none => []

/-- What `openCell` reads of such a cell: its `top-attach`, `left-attach` and
`right-attach` values as `findInt` returns them. -/
def attachOf (p : Option Str) : Option Int × Option Int × Option Int :=
  (findInt (_findCellProperty (cellProps p) "top-attach".toList),
   findInt (_findCellProperty (cellProps p) "left-attach".toList),
   findInt (_findCellProperty (cellProps p) "right-attach".toList))

/-- The cell's property string has none of the keys `top-attach`, `left-attach`,
`right-attach`. -/
def noAttach (p : Option Str) : Prop :=
  mapFind (cellProps p) "top-attach".toList = none ∧
  mapFind (cellProps p) "left-attach".toList = none ∧
  mapFind (cellProps p) "right-attach".toList = none

instance (p : Option Str) : Decidable (noAttach p) := by
  unfold noAttach; infer_instance

/-- One cell on a table state: `openCell` followed by `closeCell`. -/
def cellStep (ts : ABWStylesTableState) (p : Option Str) : ABWStylesTableState :=
  { openCellState p ts with m_currentCellProperties := [] }

/-- A collector right after its construction. -/
def emptyCollector : ABWStylesCollector :=
  { m_tableStates := [], m_tableSizes := [], m_data := [], m_tableCounter := 0,
    m_listElements := [] }

/-- The number of maximal runs of colons in a string. -/
def colonRuns : Str → Nat
  | [] => 0
  | c :: cs => (if c = ':' ∧ cs.head? ≠ some ':' then 1 else 0) + colonRuns cs

/-- An item `k:v` of a property string, after `n` spaces. -/
def renderItem (x : Nat × Str × Str) : Str :=
  List.replicate x.1 (Char.ofNat 32) ++ (x.2.1 ++ ':' :: x.2.2)

/-- The items joined by `;`. -/
def renderProps : List (Nat × Str × Str) → Str
  | [] => []
  | [x] => renderItem x
  | x :: y :: rest => renderItem x ++ ';' :: renderProps (y :: rest)

/-- Key and value are non-empty and free of `;`, `:` and white space. -/
def goodPair (x : Nat × Str × Str) : Prop :=
  x.2.1 ≠ [] ∧ x.2.2 ≠ [] ∧ ∀ c ∈ x.2.1 ++ x.2.2, c ≠ ';' ∧ c ≠ ':' ∧ isSpace c = false

instance (x : Nat × Str × Str) : Decidable (goodPair x) := by
  unfold goodPair; infer_instance

/-! ## Relations between list-definition maps, used to state the resolver claims -/

/-- What a call that returns `r` may do to the element `e` under key `k`: nothing,
or, when `e` was unresolved, set its `m_listId` to `r`, keeping its parent or
(when `r` is `k` itself) clearing it. The variant part is never touched. -/
def Upd (r k : Int) (e e2 : ABWListElement) : Prop :=
  e2.kind = e.kind ∧
    (e2 = e ∨ (e.m_listId = 0 ∧ e2.m_listId = r ∧
      (e2.m_parentId = e.m_parentId ∨ (e2.m_parentId = 0 ∧ r = k))))

/-- The map `m2` comes from `m` by such changes: same keys, same null pointers. -/
def Rel (r : Int) (m m2 : ListElements Int) : Prop :=
  ∀ k, match mapFind m k with
    | none => mapFind m2 k = none
    | some none => mapFind m2 k = some none
    | some (some e) => ∃ e2, mapFind m2 k = some (some e2) ∧ Upd r k e e2

/-- The map `m2` comes from `m` by resolver calls: same keys, same null pointers,
same variants, and resolved elements (non-zero `m_listId`) are as they were. -/
def Evolves (m m2 : ListElements Int) : Prop :=
  ∀ k, match mapFind m k with
    | none => mapFind m2 k = none
    | some none => mapFind m2 k = some none
    | some (some e) => ∃ e2, mapFind m2 k = some (some e2) ∧ e2.kind = e.kind ∧
        (e.m_listId ≠ 0 → e2 = e)

/-- Resolution along the parent chain, `ResolvesTo m k r`: the element under `k`
has `m_listId` `r`, and so has every element on its parent chain, which ends at
the root `r` (an element without parent whose `m_listId` is its own key). -/
inductive ResolvesTo (m : ListElements Int) : Int → Int → Prop where
  | root {k : Int} {e : ABWListElement} : mapFind m k = some (some e) → e.m_parentId = 0 →
      e.m_listId = k → ResolvesTo m k k
  | step {k r : Int} {e : ABWListElement} : mapFind m k = some (some e) → e.m_parentId ≠ 0 →
      e.m_listId = r → ResolvesTo m e.m_parentId r → ResolvesTo m k r

/-- Dangling chain, `Dangles m k`: following the parents from `k` in `m` leads to
an id that is not in the map or whose pointer is null. -/
inductive Dangles (m : ListElements Int) : Int → Prop where
  | absent {k : Int} : mapFind m k = none → Dangles m k
  | null {k : Int} : mapFind m k = some none → Dangles m k
  | step {k : Int} {e : ABWListElement} : mapFind m k = some (some e) → e.m_parentId ≠ 0 →
      Dangles m e.m_parentId → Dangles m k

/-- Every resolved element of `m` resolves to a root along its parent chain. -/
def Inv (m : ListElements Int) : Prop :=
  ∀ k e, mapFind m k = some (some e) → e.m_listId ≠ 0 → ResolvesTo m k e.m_listId

/-- The map `m` has the keys and null pointers of `m0`, and its unresolved
elements (other than one under key 0) still have the parent they have in `m0`. -/
def Orig (m0 m : ListElements Int) : Prop :=
  ∀ k, match mapFind m k with
    | none => mapFind m0 k = none
    | some none => mapFind m0 k = some none
    | some (some e) => ∃ e0, mapFind m0 k = some (some e0) ∧
        (e.m_listId = 0 → k = 0 ∨ e.m_parentId = e0.m_parentId)

/-- The number of entries whose key is not in the seen set. -/
def unseen (m : ListElements Int) (seen : List Int) : Nat :=
  (m.filter fun x => decide (x.1 ∉ seen)).length

/-- Presence of the marker `%L` or `%l` somewhere in a string. -/
def hasMarker : Str → Bool
  | [] => false
  | [_] => false
  | c :: d :: rest => (c = '%' && (d = 'L' || d = 'l')) || hasMarker (d :: rest)

/-- End of the parent chain, `ChainEnds m k r`: following `m_parentId` from the
element under `k` through elements of `m` ends at the element under `r`, which
has no parent. -/
inductive ChainEnds (m : ListElements Int) : Int → Int → Prop where
  | stop {k : Int} {e : ABWListElement} : mapFind m k = some (some e) → e.m_parentId = 0 →
      ChainEnds m k k
  | step {k r : Int} {e : ABWListElement} : mapFind m k = some (some e) → e.m_parentId ≠ 0 →
      ChainEnds m e.m_parentId r → ChainEnds m k r

/-- The reference procedure of the specification for the loop of
`updateListElementIds`: every top-level call gets a fresh, empty seen set. -/
def updateLoopFreshSeen (fuel : Nat) :
    List (Int × Option ABWListElement) → ListElements Int → Option (ListElements Int)
  | [], m => some m
  | (_, none) :: rest, m => updateLoopFreshSeen fuel rest m
  | (k, some _) :: rest, m =>
    match _findAndUpdateListElementId fuel m k [] with
    | none => none
    | some (m1, _, _) => updateLoopFreshSeen fuel rest m1

/-- The reference procedure of the specification: the entries are visited in key
order and each top-level call of `_findAndUpdateListElementId` starts with an
empty seen set, shared only by its own recursive calls. -/
def updateListElementIdsFreshSeen (listElements : ListElements Int) :
    Option (ListElements Int) :=
  updateLoopFreshSeen (listElements.length + 1) listElements listElements

/-- Every id of the seen set that has an element in `m` is resolved there. -/
def SeenResolved (m : ListElements Int) (seen : List Int) : Prop :=
  ∀ j ∈ seen, ∀ e, mapFind m j = some (some e) → e.m_listId ≠ 0

/-- The step of a call with more ids in the seen set. -/
def FindStep.appendSeen (seen : List Int) : FindStep → FindStep
  | .done m s r => .done m (s ++ seen) r
  | .recurse m s p => .recurse m (s ++ seen) p

/-- Test that an element (not a null pointer) is stored under `k`. -/
def hasElement (m : ListElements Int) (k : Int) : Bool :=
  match mapFind m k with
  | some (some _) => true
  | _ => false

/-- An example map: a cycle 1 -> 2 -> 3 -> 1, a tail 4 -> 3, a root 5 and a
self-reference 6 -> 6, all unresolved. -/
def cycleLists : ListElements Int :=
  [(1, some ⟨.unordered [], 2, 0⟩), (2, some ⟨.unordered [], 3, 0⟩),
   (3, some ⟨.unordered [], 1, 0⟩), (4, some ⟨.unordered [], 3, 0⟩),
   (5, some ⟨.unordered [], 0, 0⟩), (6, some ⟨.unordered [], 6, 0⟩)]

/-! ## The XML reader (libxml2 `xmlTextReader`, an external collaborator) -/

/-- Token ids of `ABWXMLTokenMap` (tokens.h is not in the sources): the tokens that
have a case in `processXmlNode`, the invalid token of unknown names, and
`otherToken` for every token without a case. -/
inductive Token where
  | XML_ABIWORD | XML_METADATA | XML_M | XML_HISTORY | XML_REVISIONS | XML_IGNOREDWORDS
  | XML_S | XML_L | XML_PAGESIZE | XML_SECTION | XML_D | XML_P | XML_C | XML_CBR | XML_PBR
  | XML_BR | XML_A | XML_FOOT | XML_ENDNOTE | XML_FIELD | XML_TABLE | XML_CELL | XML_IMAGE
  | XML_FRAME | XML_TOKEN_INVALID | otherToken
  deriving DecidableEq, Repr

/-- Node types of `xmlTextReaderNodeType` that the source tests for, `otherType`
for the rest. -/
inductive NodeType where
  | XML_READER_TYPE_NONE | XML_READER_TYPE_ELEMENT | XML_READER_TYPE_TEXT
  | XML_READER_TYPE_CDATA | XML_READER_TYPE_SIGNIFICANT_WHITESPACE
  | XML_READER_TYPE_END_ELEMENT | otherType
  deriving DecidableEq, Repr

/-- What the reader tells about the node it stands on: `getElementToken`,
`xmlTextReaderNodeType`, `xmlTextReaderIsEmptyElement(reader) > 0`,
`xmlTextReaderConstValue` and the attributes. -/
structure XmlNode where
  token : Token
  nodeType : NodeType
  isEmptyElement : Bool
  value : Option Str
  attrs : Attrs
  deriving DecidableEq, Repr

/-- One successful `xmlTextReaderRead`: the node the reader moves to, and what
`watcher.isStuck()` says after it. -/
structure ReadEvent where
  node : XmlNode
  stuck : Bool
  deriving DecidableEq, Repr

/-- The reader: the current node, the progress watcher's verdict, the reads
still to come, and whether the read after the last one fails (-1) or ends the
document (0). -/
structure Reader where
  node : XmlNode
  stuck : Bool
  pending : List ReadEvent
  failed : Bool
  deriving DecidableEq, Repr

/-- The reader's position before the first and after the last node. -/
def noNode : XmlNode :=
  { token := .XML_TOKEN_INVALID, nodeType := .XML_READER_TYPE_NONE, isEmptyElement := false,
    value := none, attrs := [] }

/-- The reader function `xmlTextReaderRead`: 1 and the next node, or 0 at the end
of the document, or -1 after an error. -/
def xmlTextReaderRead (reader : Reader) : Int × Reader :=
  match reader.pending with
  | [] => (if reader.failed then -1 else 0, { reader with node := noNode })
  | ev :: rest => (1, { reader with node := ev.node, stuck := ev.stuck, pending := rest })

/-- The reader function `xmlTextReaderGetAttribute(reader, name)`. -/
def getAttribute (reader : Reader) (name : String) : Option Str :=
  mapFind reader.node.attrs name.toList

/-- The input stream as the parser sees it: whether `xmlReaderForStream` gives a
reader for it, and what that reader delivers. -/
structure Input where
  readable : Bool
  events : List ReadEvent
  failed : Bool
  deriving DecidableEq, Repr

/-! ## Collectors (ABWCollector.h, ABWContentCollector.cpp: not in the sources) -/

/-- Modelled from the spec: the output elements a frame hands to its parent
(`ABWOutputElements`, not in the sources), as an uninterpreted list. -/
abbrev ABWOutputElements := List Str

/-- The calls of the collector interface that the parser makes, with their
arguments. -/
inductive Call where
  | insertText (text : Option Str)
  | addMetadataEntry (key : Str) (text : Option Str)
  | collectDocumentProperties (props : Option Str)
  | collectPageSize (width height units pageScale : Option Str)
  | collectSectionProperties (footer footerLeft footerFirst footerLast header headerLeft
      headerFirst headerLast props : Option Str)
  | collectHeaderFooter (id type : Option Str)
  | endSection
  | collectData (name mimeType : Option Str) (data : List Nat)
  | collectParagraphProperties (level listid parentid style props : Option Str)
  | closeParagraphOrListElement
  | collectCharacterProperties (style props : Option Str)
  | closeSpan
  | insertColumnBreak
  | insertPageBreak
  | insertLineBreak
  | openLink (href : Option Str)
  | closeLink
  | openFoot (id : Option Str)
  | closeFoot
  | openEndnote (id : Option Str)
  | closeEndnote
  | openField (type id : Option Str)
  | closeField
  | openTable (props : Option Str)
  | closeTable
  | openCell (props : Option Str)
  | closeCell
  | insertImage (dataid props : Option Str)
  | openFrame (props imageId title alt : Option Str)
  | closeFrame
  | addFrameElements (elements : ABWOutputElements) (pageFrame : Bool)
  | collectTextStyle (name basedon followedby props : Option Str)
  | collectList (id listDecimal listDelim parentid startValue type : Option Str)
  | endDocument
  deriving DecidableEq, Repr

/-- Modelled from the spec: the content collector (ABWContentCollector.cpp is not in
the sources) is an external collaborator behind the collector interface; it is
represented by the calls it has received, oldest first. -/
structure ABWContentCollector where
  calls : List Call
  deriving DecidableEq, Repr

/-- The object behind `m_collector`: the styles collector or a content collector. -/
inductive ABWCollector where
  | styles (c : ABWStylesCollector)
  | content (c : ABWContentCollector)
  deriving DecidableEq, Repr

/-- Ways in which code does not return a value. -/
inductive Fault where
  | exception
  | undefinedBehaviour
  | outOfFuel
  deriving DecidableEq, Repr

/-- Result of code that may throw a C++ exception, run into undefined behaviour
(a null `m_collector` used without test, `top()` of an empty stack) or, in
this model, exhaust the bound on a loop. -/
inductive Res (α : Type) where
  | ok (a : α)
  | fail (f : Fault)
  deriving DecidableEq, Repr

/-- Sequencing of results. -/
def Res.bind {α β : Type} (r : Res α) (f : α → Res β) : Res β :=
  match r with
  | .ok a => f a
  | .fail e => .fail e

/-- What the sources do not contain: when a call of the content collector throws
and what its `closeFrame` hands back (both as functions of the calls it has
received), base64 decoding (`RVNGBinaryData::appendBase64Data`), and how the
list-definition map of the parser state (keyed by `int` in ABWParser.cpp) and
the one of the styles collector (keyed by string in ABWStylesCollector.cpp)
correspond. -/
structure Env where
  throws : List Call → Call → Bool
  closeFrameOut : List Call → Option ABWOutputElements × Bool
  appendBase64Data : Str → List Nat
  listsToCollector : ListElements Int → ListElements Str
  listsToParser : ListElements Str → ListElements Int

/-- An environment in which no call throws, `closeFrame` hands back the elements
"frame" when the collector has received an `insertText`, and the two list
maps are not connected. -/
def quietEnv : Env :=
  { throws := fun _ _ => false
    closeFrameOut := fun calls =>
      (if calls.any (fun c => match c with
          | .insertText _ => true
          | _ => false) then some ["frame".toList] else none, false)
    appendBase64Data := fun _ => []
    listsToCollector := fun _ => []
    listsToParser := fun _ => [] }

/-- Modelled from the spec: a call on the styles collector. The table, cell, data
and list operations are those of ABWStylesCollector.cpp; every other operation
of the interface (ABWStylesCollector.h is not in the sources) does nothing. -/
def stylesCall (call : Call) (c : ABWStylesCollector) : Res ABWStylesCollector :=
  match call with
  | .openTable _ => .ok (openTable c)
  | .closeTable =>
    match closeTable c with
    | some c1 => .ok c1
    | none => .fail .undefinedBehaviour
  | .openCell props =>
    match openCell props c with
    | some c1 => .ok c1
    | none => .fail .undefinedBehaviour
  | .closeCell =>
    match closeCell c with
    | some c1 => .ok c1
    | none => .fail .undefinedBehaviour
  | .collectData name mimeType data => .ok (collectData name mimeType data c)
  | .collectList id listDecimal listDelim parentid startValue type =>
    .ok (collectList id listDecimal listDelim parentid startValue type c)
  | _ => .ok c

/-- A call on a collector. -/
def collectorCall (env : Env) (call : Call) (c : ABWCollector) : Res ABWCollector :=
  match c with
  | .styles sc => (stylesCall call sc).bind fun sc1 => .ok (.styles sc1)
  | .content cc =>
    if env.throws cc.calls call then .fail .exception
    else .ok (.content { calls := cc.calls ++ [call] })

/-- The out-parameters `elements` and `pageFrame` of `closeFrame`: the styles
collector leaves them at the caller's null and false. -/
def closeFrameOut (env : Env) (c : ABWCollector) : Option ABWOutputElements × Bool :=
  match c with
  | .styles _ => (none, false)
  | .content cc => env.closeFrameOut cc.calls

/-! ## The parser (ABWParser.cpp) -/

/-- The source's `ABWParserState`; the collector stack has its top first. -/
structure ABWParserState where
  m_tableSizes : List (Int × Int)
  m_data : List (Str × ABWData)
  m_listElements : ListElements Int
  m_inMetadata : Bool
  m_currentMetadataKey : Str
  m_inStyleParsing : Bool
  m_collectorStack : List ABWCollector
  deriving DecidableEq, Repr

/-- The source's `ABWParser`: the input (possibly null), the collector (possibly
null) and the state. While the styles collector is installed the shared maps
live in it; `syncShared` copies them back into the state. -/
structure ABWParser where
  m_input : Option Input
  m_collector : Option ABWCollector
  m_state : ABWParserState
  deriving DecidableEq, Repr

namespace ABWParser

/-- A call `m_collector->f(..)` without a test of `m_collector`. -/
def callCollector (env : Env) (call : Call) (p : ABWParser) : Res ABWParser :=
  match p.m_collector with
  | none => .fail .undefinedBehaviour
  | some c => (collectorCall env call c).bind fun c1 => .ok { p with m_collector := some c1 }

/-- A call `if (m_collector) m_collector->f(..)`. -/
def callCollectorIf (env : Env) (call : Call) (p : ABWParser) : Res ABWParser :=
  match p.m_collector with
  | none => .ok p
  | some _ => callCollector env call p

/-- The source's `readAbiword`. -/
def readAbiword (env : Env) (reader : Reader) (p : ABWParser) : Res ABWParser :=
  callCollectorIf env (.collectDocumentProperties (getAttribute reader "props")) p

/-- The source's `readM`. -/
def readM (reader : Reader) (p : ABWParser) : ABWParser :=
  match getAttribute reader "key" with
  | some key => { p with m_state := { p.m_state with m_currentMetadataKey := key } }
  | none => p

/-- The loop of `readHistory`, `readRevisions` and `readIgnoredWords` for the
region token `tok`, by recursion on the reads still to come (`pending` is
`reader.pending`): `do { ret = xmlTextReaderRead(reader); .. }
while ((tok != tokenId || XML_READER_TYPE_END_ELEMENT != tokenType) && 1 == ret)`. -/
def skipLoop (tok : Token) (reader : Reader) : List ReadEvent → Int × Reader
  | [] => xmlTextReaderRead { reader with pending := [] }
  | ev :: rest =>
    let r := xmlTextReaderRead { reader with pending := ev :: rest }
    if (tok ≠ r.2.node.token ∨ NodeType.XML_READER_TYPE_END_ELEMENT ≠ r.2.node.nodeType)
        ∧ 1 = r.1 then
      skipLoop tok r.2 rest
    else r

/-- The source's `readHistory`. -/
def readHistory (reader : Reader) : Int × Reader :=
  skipLoop .XML_HISTORY reader reader.pending

/-- The source's `readRevisions`. -/
def readRevisions (reader : Reader) : Int × Reader :=
  skipLoop .XML_REVISIONS reader reader.pending

/-- The source's `readIgnoredWords`. -/
def readIgnoredWords (reader : Reader) : Int × Reader :=
  skipLoop .XML_IGNOREDWORDS reader reader.pending

/-- The source's `readPageSize`. -/
def readPageSize (env : Env) (reader : Reader) (p : ABWParser) : Res ABWParser :=
  callCollectorIf env
    (.collectPageSize (getAttribute reader "width") (getAttribute reader "height")
      (getAttribute reader "units") (getAttribute reader "page-scale")) p

/-- The source's `readSection`: a type that starts with "header" or "footer"
(`xmlStrncmp` over 6 characters) makes a header or footer. -/
def readSection (env : Env) (reader : Reader) (p : ABWParser) : Res ABWParser :=
  let isHeaderFooter : Bool :=
    match getAttribute reader "type" with
    | none => false
    | some t => decide (t.take 6 = "header".toList) || decide (t.take 6 = "footer".toList)
  if isHeaderFooter then
    callCollectorIf env
      (.collectHeaderFooter (getAttribute reader "id") (getAttribute reader "type")) p
  else
    callCollectorIf env
      (.collectSectionProperties (getAttribute reader "footer")
        (getAttribute reader "footer-even") (getAttribute reader "footer-first")
        (getAttribute reader "footer-last") (getAttribute reader "header")
        (getAttribute reader "header-even") (getAttribute reader "header-first")
        (getAttribute reader "header-last") (getAttribute reader "props")) p

/-- The payload `readD` makes of a text: decoded when `base64` is set, else the
bytes of the text. -/
def binaryData (env : Env) (base64 : Bool) (data : Str) : List Nat :=
  if base64 then env.appendBase64Data data
  else data.flatMap fun ch => (String.utf8EncodeChar ch).map UInt8.toNat

/-- The loop of `readD`, by recursion on the reads still to come (`pending` is
`reader.pending`): every text or CDATA node with a value is handed to
`collectData` with the `name` and `mime-type` of the data element. -/
def readDLoop (env : Env) (name mimeType : Option Str) (base64 : Bool) (reader : Reader) :
    List ReadEvent → ABWParser → Res (Int × Reader × ABWParser)
  | [], p => .ok ((xmlTextReaderRead { reader with pending := [] }).1,
      (xmlTextReaderRead { reader with pending := [] }).2, p)
  | ev :: rest, p =>
    let r := xmlTextReaderRead { reader with pending := ev :: rest }
    let collected : Res ABWParser :=
      if r.2.node.nodeType = .XML_READER_TYPE_TEXT ∨
          r.2.node.nodeType = .XML_READER_TYPE_CDATA then
        match r.2.node.value with
        | some data =>
          callCollectorIf env (.collectData name mimeType (binaryData env base64 data)) p
        | none => .ok p
      else .ok p
    match collected with
    | .fail f => .fail f
    | .ok p1 =>
      if (Token.XML_D ≠ r.2.node.token ∨
            NodeType.XML_READER_TYPE_END_ELEMENT ≠ r.2.node.nodeType) ∧ 1 = r.1 then
        readDLoop env name mimeType base64 r.2 rest p1
      else .ok (r.1, r.2, p1)

/-- The flag `base64` of `readD`: false, or what `findBool` makes of it when the
attribute `base64` is there. -/
def base64Flag (reader : Reader) : Bool :=
  match getAttribute reader "base64" with
  | some tmpBase64 => (findBool tmpBase64 false).2
  | none => false

/-- The source's `readD`. -/
def readD (env : Env) (reader : Reader) (p : ABWParser) : Res (Int × Reader × ABWParser) :=
  readDLoop env (getAttribute reader "name") (getAttribute reader "mime-type")
    (base64Flag reader) reader reader.pending p

/-- The source's `readS`. -/
def readS (env : Env) (reader : Reader) (p : ABWParser) : Res ABWParser :=
  match getAttribute reader "type" with
  | none => .ok p
  | some type =>
    if type.head? = some 'P' ∨ type.head? = some 'C' then
      callCollectorIf env
        (.collectTextStyle (getAttribute reader "name") (getAttribute reader "basedon")
          (getAttribute reader "followedby") (getAttribute reader "props")) p
    else .ok p

/-- The source's `readA`. -/
def readA (env : Env) (reader : Reader) (p : ABWParser) : Res ABWParser :=
  callCollectorIf env (.openLink (getAttribute reader "xlink:href")) p

/-- The source's `readP`; the parent id is read from the attribute `listid` too. -/
def readP (env : Env) (reader : Reader) (p : ABWParser) : Res ABWParser :=
  callCollectorIf env
    (.collectParagraphProperties (getAttribute reader "level") (getAttribute reader "listid")
      (getAttribute reader "listid") (getAttribute reader "style")
      (getAttribute reader "props")) p

/-- The source's `readC`. -/
def readC (env : Env) (reader : Reader) (p : ABWParser) : Res ABWParser :=
  callCollectorIf env
    (.collectCharacterProperties (getAttribute reader "style") (getAttribute reader "props")) p

/-- The source's `readEndnote`. -/
def readEndnote (env : Env) (reader : Reader) (p : ABWParser) : Res ABWParser :=
  callCollectorIf env (.openEndnote (getAttribute reader "endnote-id")) p

/-- The source's `readField`. -/
def readField (env : Env) (reader : Reader) (p : ABWParser) : Res ABWParser :=
  callCollectorIf env (.openField (getAttribute reader "type") (getAttribute reader "xid")) p

/-- The source's `readFoot`. -/
def readFoot (env : Env) (reader : Reader) (p : ABWParser) : Res ABWParser :=
  callCollectorIf env (.openFoot (getAttribute reader "footnote-id")) p

/-- The source's `readTable`. -/
def readTable (env : Env) (reader : Reader) (p : ABWParser) : Res ABWParser :=
  callCollectorIf env (.openTable (getAttribute reader "props")) p

/-- The source's `readCell`. -/
def readCell (env : Env) (reader : Reader) (p : ABWParser) : Res ABWParser :=
  callCollectorIf env (.openCell (getAttribute reader "props")) p

/-- The source's `readImage`. -/
def readImage (env : Env) (reader : Reader) (p : ABWParser) : Res ABWParser :=
  callCollectorIf env
    (.insertImage (getAttribute reader "dataid") (getAttribute reader "props")) p

/-- The source's `readFrame`: outside the styles pass the collector goes onto the
stack and a new content collector takes its place; then `openFrame` is called. -/
def readFrame (env : Env) (reader : Reader) (p : ABWParser) : Res ABWParser :=
  match p.m_collector with
  | none => .ok p
  | some c =>
    let p1 : ABWParser :=
      if p.m_state.m_inStyleParsing then p
      else
        { p with
          m_collector := some (.content { calls := [] })
          m_state := { p.m_state with m_collectorStack := c :: p.m_state.m_collectorStack } }
    callCollector env
      (.openFrame (getAttribute reader "props") (getAttribute reader "strux-image-dataid")
        (getAttribute reader "title") (getAttribute reader "alt")) p1

/-- The source's `readCloseFrame`. -/
def readCloseFrame (env : Env) (p : ABWParser) : Res ABWParser :=
  match p.m_collector with
  | none => .ok p
  | some c =>
    let out := closeFrameOut env c
    match collectorCall env .closeFrame c with
    | .fail f => .fail f
    | .ok c1 =>
      let p1 : ABWParser := { p with m_collector := some c1 }
      if p.m_state.m_inStyleParsing then .ok p1
      else
        match p.m_state.m_collectorStack with
        | [] => .ok p1
        | top :: rest =>
          let transferred : Res ABWCollector :=
            match out.1 with
            | some elements => collectorCall env (.addFrameElements elements out.2) top
            | none => .ok top
          match transferred with
          | .fail f => .fail f
          | .ok top1 =>
            .ok { p with
                  m_collector := some top1
                  m_state := { p.m_state with m_collectorStack := rest } }

/-- The source's `readL`. -/
def readL (env : Env) (reader : Reader) (p : ABWParser) : Res ABWParser :=
  let listDecimal : Option Str :=
    match getAttribute reader "list-decimal" with
    | some v => some v
    | none => some "NULL".toList
  callCollectorIf env
    (.collectList (getAttribute reader "id") listDecimal (getAttribute reader "list-delim")
      (getAttribute reader "parentid") (getAttribute reader "start-value")
      (getAttribute reader "type")) p

/-- The test `(XML_READER_TYPE_END_ELEMENT == tokenType) || (emptyToken > 0)`. -/
def closes (reader : Reader) : Bool :=
  decide (reader.node.nodeType = .XML_READER_TYPE_END_ELEMENT) || reader.node.isEmptyElement

/-- The test `XML_READER_TYPE_ELEMENT == tokenType`. -/
def opens (reader : Reader) : Bool :=
  decide (reader.node.nodeType = .XML_READER_TYPE_ELEMENT)

/-- An open call on a start element followed by a close call on an end or empty
element; `checked` tells whether the close call is guarded by
`if (m_collector)`. -/
def openClose (env : Env) (reader : Reader) (p : ABWParser)
    (openIt : ABWParser → Res ABWParser) (closeCall : Call) (checked : Bool) :
    Res ABWParser :=
  match (if opens reader then openIt p else .ok p) with
  | .fail f => .fail f
  | .ok p1 =>
    if closes reader then
      if checked then callCollectorIf env closeCall p1 else callCollector env closeCall p1
    else .ok p1

/-- A case of the `switch` that leaves `ret` at 1 and does not move the reader. -/
def keepReader (reader : Reader) (r : Res ABWParser) : Res (Int × Reader × ABWParser) :=
  r.bind fun p1 => .ok (1, reader, p1)

/-- The frame case of the `switch`: `readFrame` on a start element, then
`readCloseFrame` on an end or empty element. -/
def dispatchFrame (env : Env) (reader : Reader) (p : ABWParser) : Res ABWParser :=
  match (if opens reader then readFrame env reader p else .ok p) with
  | .fail f => .fail f
  | .ok p1 => if closes reader then readCloseFrame env p1 else .ok p1

/-- The metadata case of the `switch`. -/
def dispatchMetadata (reader : Reader) (p : ABWParser) : ABWParser :=
  let p1 : ABWParser :=
    if opens reader then { p with m_state := { p.m_state with m_inMetadata := true } } else p
  if closes reader then { p1 with m_state := { p1.m_state with m_inMetadata := false } } else p1

/-- The `switch (tokenId)` of `processXmlNode`; the result is `ret`, the reader
and the parser. -/
def dispatchToken (env : Env) (reader : Reader) (p : ABWParser) :
    Res (Int × Reader × ABWParser) :=
  match reader.node.token with
  | .XML_ABIWORD => keepReader reader (if opens reader then readAbiword env reader p else .ok p)
  | .XML_METADATA => .ok (1, reader, dispatchMetadata reader p)
  | .XML_M => .ok (1, reader, if opens reader then readM reader p else p)
  | .XML_HISTORY =>
    if opens reader then .ok ((readHistory reader).1, (readHistory reader).2, p)
    else .ok (1, reader, p)
  | .XML_REVISIONS =>
    if opens reader then .ok ((readRevisions reader).1, (readRevisions reader).2, p)
    else .ok (1, reader, p)
  | .XML_IGNOREDWORDS =>
    if opens reader then .ok ((readIgnoredWords reader).1, (readIgnoredWords reader).2, p)
    else .ok (1, reader, p)
  | .XML_S => keepReader reader (if opens reader then readS env reader p else .ok p)
  | .XML_L => keepReader reader (if opens reader then readL env reader p else .ok p)
  | .XML_PAGESIZE => keepReader reader (if opens reader then readPageSize env reader p else .ok p)
  | .XML_SECTION => keepReader reader (openClose env reader p (readSection env reader) .endSection true)
  | .XML_D => if opens reader then readD env reader p else .ok (1, reader, p)
  | .XML_P =>
    keepReader reader (openClose env reader p (readP env reader) .closeParagraphOrListElement true)
  | .XML_C => keepReader reader (openClose env reader p (readC env reader) .closeSpan true)
  | .XML_CBR => keepReader reader (if opens reader then callCollector env .insertColumnBreak p else .ok p)
  | .XML_PBR => keepReader reader (if opens reader then callCollector env .insertPageBreak p else .ok p)
  | .XML_BR => keepReader reader (if opens reader then callCollector env .insertLineBreak p else .ok p)
  | .XML_A => keepReader reader (openClose env reader p (readA env reader) .closeLink false)
  | .XML_FOOT => keepReader reader (openClose env reader p (readFoot env reader) .closeFoot false)
  | .XML_ENDNOTE => keepReader reader (openClose env reader p (readEndnote env reader) .closeEndnote false)
  | .XML_FIELD => keepReader reader (openClose env reader p (readField env reader) .closeField false)
  | .XML_TABLE => keepReader reader (openClose env reader p (readTable env reader) .closeTable false)
  | .XML_CELL => keepReader reader (openClose env reader p (readCell env reader) .closeCell false)
  | .XML_IMAGE => keepReader reader (if opens reader then readImage env reader p else .ok p)
  | .XML_FRAME => keepReader reader (dispatchFrame env reader p)
  | .XML_TOKEN_INVALID => .ok (1, reader, p)
  | .otherToken => .ok (1, reader, p)

/-- The text handling of `processXmlNode` for a node of type text. -/
def dispatchText (env : Env) (reader : Reader) (p : ABWParser) : Res ABWParser :=
  if p.m_state.m_inMetadata then
    if p.m_state.m_currentMetadataKey = [] then .ok p
    else
      (callCollector env
        (.addMetadataEntry p.m_state.m_currentMetadataKey reader.node.value) p).bind fun p1 =>
        .ok { p1 with m_state := { p1.m_state with m_currentMetadataKey := [] } }
  else callCollector env (.insertText reader.node.value) p

/-- The source's `processXmlNode` for a non-null reader. -/
def processXmlNode (env : Env) (reader : Reader) (p : ABWParser) :
    Res (Int × Reader × ABWParser) :=
  if reader.node.nodeType = .XML_READER_TYPE_SIGNIFICANT_WHITESPACE then
    (if p.m_state.m_inMetadata = false ∧ reader.node.value = some [' '] then
        callCollector env (.insertText reader.node.value) p
      else .ok p).bind fun p1 => .ok (1, reader, p1)
  else
    (if reader.node.nodeType = .XML_READER_TYPE_TEXT then dispatchText env reader p
      else .ok p).bind fun p1 => dispatchToken env reader p1

/-- The loop of `processXmlDocument`,
`while (1 == ret && !watcher.isStuck()) { ret = processXmlNode(..); if (ret == 1) ret =
xmlTextReaderRead(..); }`, with a bound `fuel` on its iterations. -/
def processLoop (env : Env) : Nat → Int → Reader → ABWParser → Res (Int × Reader × ABWParser)
  | 0, _, _, _ => .fail .outOfFuel
  | fuel + 1, ret, reader, p =>
    if 1 = ret ∧ reader.stuck = false then
      match processXmlNode env reader p with
      | .fail f => .fail f
      | .ok (ret1, reader1, p1) =>
        if ret1 = 1 then
          processLoop env fuel (xmlTextReaderRead reader1).1 (xmlTextReaderRead reader1).2 p1
        else processLoop env fuel ret1 reader1 p1
    else .ok (ret, reader, p)

/-- The reader `xmlReaderForStream` makes for a readable input. -/
def readerFor (input : Input) : Reader :=
  { node := noNode, stuck := false, pending := input.events, failed := input.failed }

/-- The source's `processXmlDocument`; the loop runs at most once per node and
once more to leave. -/
def processXmlDocument (env : Env) (input : Option Input) (p : ABWParser) :
    Res (Bool × ABWParser) :=
  match input with
  | none => .ok (false, p)
  | some stream =>
    if stream.readable = false then .ok (false, p)
    else
      match processLoop env (stream.events.length + 1)
          (xmlTextReaderRead (readerFor stream)).1 (xmlTextReaderRead (readerFor stream)).2 p with
      | .fail f => .fail f
      | .ok (ret, reader, p1) =>
        (callCollectorIf env .endDocument p1).bind fun p2 =>
          .ok (decide (ret = 0) && !reader.stuck, p2)

/-- The styles collector `parse` constructs on the shared maps of the state. -/
def newStylesCollector (env : Env) (state : ABWParserState) : ABWStylesCollector :=
  { m_tableStates := [], m_tableSizes := state.m_tableSizes, m_data := state.m_data,
    m_tableCounter := 0, m_listElements := env.listsToCollector state.m_listElements }

/-- The shared maps of the state as the installed styles collector has left them
(the collector works on references to them). -/
def syncShared (env : Env) (p : ABWParser) : ABWParser :=
  match p.m_collector with
  | some (.styles sc) =>
    { p with m_state := { p.m_state with
        m_tableSizes := sc.m_tableSizes, m_data := sc.m_data,
        m_listElements := env.listsToParser sc.m_listElements } }
  | _ => p

/-- The parser at the start of the styles pass. -/
def stylesPassStart (env : Env) (p : ABWParser) : ABWParser :=
  { p with
    m_collector := some (.styles (newStylesCollector env p.m_state))
    m_state := { p.m_state with m_inStyleParsing := true } }

/-- The parser at the start of the content pass, with the resolved list
definitions. -/
def contentPassStart (lists : ListElements Int) (p : ABWParser) : ABWParser :=
  { p with
    m_collector := some (.content { calls := [] })
    m_state := { p.m_state with m_listElements := lists, m_inStyleParsing := false } }

/-- The source's `parse`: the returned flag and the parser afterwards. An
exception is caught and gives `false`; the state it leaves is not followed
(`none`). -/
def parse (env : Env) (p : ABWParser) : Res (Bool × Option ABWParser) :=
  match p.m_input with
  | none => .ok (false, some p)
  | some _ =>
    match processXmlDocument env p.m_input (stylesPassStart env p) with
    | .fail .exception => .ok (false, none)
    | .fail f => .fail f
    | .ok (false, p1) => .ok (false, some (syncShared env p1))
    | .ok (true, p1) =>
      match updateListElementIds (syncShared env p1).m_state.m_listElements with
      | none => .fail .outOfFuel
      | some lists =>
        match processXmlDocument env p.m_input
            (contentPassStart lists (syncShared env p1)) with
        | .fail .exception => .ok (false, none)
        | .fail f => .fail f
        | .ok (ok2, p2) => .ok (ok2 && p2.m_state.m_collectorStack.isEmpty, some p2)

end ABWParser

/-- A read event for the node with the given token, type, empty-element flag,
attributes and value, with a watcher that is not stuck. -/
def event (token : Token) (nodeType : NodeType) (isEmptyElement : Bool) (attrs : Attrs)
    (value : Option Str) : ReadEvent :=
  { node := { token := token, nodeType := nodeType, isEmptyElement := isEmptyElement,
              value := value, attrs := attrs },
    stuck := false }

/-- A reader standing on `node` with the reads `pending` to come. -/
def readerAt (node : XmlNode) (pending : List ReadEvent) : Reader :=
  { node := node, stuck := false, pending := pending, failed := false }

/-- A parser with a fresh state, as the constructor of `ABWParser` leaves it. -/
def newParser (input : Option Input) : ABWParser :=
  { m_input := input, m_collector := none,
    m_state := { m_tableSizes := [], m_data := [], m_listElements := [], m_inMetadata := false,
                 m_currentMetadataKey := [], m_inStyleParsing := false, m_collectorStack := [] } }

/-- A document with two metadata regions: the first sets the key "k" and has no
text, the second has the text "v" and no key. -/
def staleKeyDoc : Input :=
  { readable := true, failed := false,
    events :=
      [event .XML_METADATA .XML_READER_TYPE_ELEMENT false [] none,
       event .XML_M .XML_READER_TYPE_ELEMENT true [("key".toList, "k".toList)] none,
       event .XML_METADATA .XML_READER_TYPE_END_ELEMENT false [] none,
       event .XML_METADATA .XML_READER_TYPE_ELEMENT false [] none,
       event .XML_TOKEN_INVALID .XML_READER_TYPE_TEXT false [] (some "v".toList),
       event .XML_METADATA .XML_READER_TYPE_END_ELEMENT false [] none] }

/-- The values of the text and CDATA nodes that the loop of `readD` comes to: those
of the reads up to the first end element of a data element, or of all reads
when there is none. -/
def dataTexts : List ReadEvent → List Str
  | [] => []
  | ev :: rest =>
    let here : List Str :=
      if ev.node.nodeType = .XML_READER_TYPE_TEXT ∨ ev.node.nodeType = .XML_READER_TYPE_CDATA then
        match ev.node.value with
        | some data => [data]
        | none => []
      else []
    if (Token.XML_D ≠ ev.node.token ∨ NodeType.XML_READER_TYPE_END_ELEMENT ≠ ev.node.nodeType) then
      here ++ dataTexts rest
    else here

/-- A data element with the attribute `name=""` and the text "x", the reader
standing on its start element. -/
def emptyNameData : Reader :=
  readerAt (event .XML_D .XML_READER_TYPE_ELEMENT false [("name".toList, [])] none).node
    [event .XML_TOKEN_INVALID .XML_READER_TYPE_TEXT false [] (some "x".toList),
     event .XML_D .XML_READER_TYPE_END_ELEMENT false [] none]

/-- The start element of a frame with the attributes `attrs`. -/
def frameStart (attrs : Attrs) : XmlNode :=
  { token := .XML_FRAME, nodeType := .XML_READER_TYPE_ELEMENT, isEmptyElement := false,
    value := none, attrs := attrs }

/-- The end element of a frame. -/
def frameEnd : XmlNode :=
  { token := .XML_FRAME, nodeType := .XML_READER_TYPE_END_ELEMENT, isEmptyElement := false,
    value := none, attrs := [] }

/-- An empty frame element with the attributes `attrs`: start and end in one node. -/
def frameEmpty (attrs : Attrs) : XmlNode :=
  { token := .XML_FRAME, nodeType := .XML_READER_TYPE_ELEMENT, isEmptyElement := true,
    value := none, attrs := attrs }

/-- Dispatch of the nodes `nodes` one after the other by `processXmlNode`, each as
the current node of the reader. -/
def dispatchAll (env : Env) : List XmlNode → ABWParser → Res ABWParser
  | [], p => .ok p
  | node :: rest, p =>
    match ABWParser.processXmlNode env (readerAt node []) p with
    | .fail f => .fail f
    | .ok r => dispatchAll env rest r.2.2

/-- Balanced sequences of nested frame opens and closes. -/
inductive Nested : List XmlNode → Prop where
  | nil : Nested []
  | frame (attrs : Attrs) (inner : List XmlNode) :
      Nested inner → Nested (frameStart attrs :: inner ++ [frameEnd])
  | empty (attrs : Attrs) : Nested [frameEmpty attrs]
  | append (first second : List XmlNode) : Nested first → Nested second → Nested (first ++ second)

/-! ## Event streams as the dispatcher sees them -/

/-- The start element of a region that the parser reads with a loop of its own:
history, revisions, ignored words and data. -/
def isSkipStart (node : XmlNode) : Bool :=
  decide (node.nodeType = .XML_READER_TYPE_ELEMENT) &&
    (decide (node.token = .XML_HISTORY) || decide (node.token = .XML_REVISIONS) ||
      decide (node.token = .XML_IGNOREDWORDS) || decide (node.token = .XML_D))

/-- What the dispatch of the current node makes of `ret` and of the reader: the loop
of the region when the node starts one, else nothing. -/
def advance (reader : Reader) : Int × Reader :=
  if isSkipStart reader.node then ABWParser.skipLoop reader.node.token reader reader.pending
  else (1, reader)

/-- The value of `ret` and the reader at the next test of the loop of
`processXmlDocument`: after the dispatch of the current node and, when that
gave 1, one more `xmlTextReaderRead`. -/
def nextRead (reader : Reader) : Int × Reader :=
  if (advance reader).1 = 1 then xmlTextReaderRead (advance reader).2 else advance reader

/-- The nodes of a stream that reach `processXmlNode`, the others being read inside
a region loop: `skipping` is the token of the region being read, if any. A
region ends with the first end element of its token. -/
def dispatchedAux : Option Token → List XmlNode → List XmlNode
  | _, [] => []
  | some tok, node :: rest =>
    if (tok ≠ node.token ∨ NodeType.XML_READER_TYPE_END_ELEMENT ≠ node.nodeType) then
      dispatchedAux (some tok) rest
    else dispatchedAux none rest
  | none, node :: rest =>
    node :: dispatchedAux (if isSkipStart node then some node.token else none) rest

/-- The nodes of the events `events` that reach `processXmlNode`. -/
def dispatched (events : List ReadEvent) : List XmlNode :=
  dispatchedAux none (events.map fun ev => ev.node)

/-- The number of open frames after the node `node` when it was `depth` before: a
frame start element opens one, a frame end element or empty frame element
closes one if one is open. -/
def frameStep (depth : Nat) (node : XmlNode) : Nat :=
  if node.token = .XML_FRAME ∧ node.nodeType ≠ .XML_READER_TYPE_SIGNIFICANT_WHITESPACE then
    (if node.nodeType = .XML_READER_TYPE_ELEMENT then depth + 1 else depth) -
      (if node.nodeType = .XML_READER_TYPE_END_ELEMENT ∨ node.isEmptyElement = true then 1 else 0)
  else depth

/-- The number of frame start elements among `nodes` that have no matching end
element. -/
def frameDepth (nodes : List XmlNode) : Nat :=
  nodes.foldl frameStep 0

/-- Every frame start element among the nodes is matched by exactly one frame end
element and every frame end element matches a start element, properly
nested, `depth` frames being open at the start. -/
def wellFormed : Nat → List XmlNode → Bool
  | depth, [] => decide (depth = 0)
  | depth, node :: rest =>
    if node.token = .XML_FRAME ∧ node.nodeType ≠ .XML_READER_TYPE_SIGNIFICANT_WHITESPACE then
      if node.nodeType = .XML_READER_TYPE_END_ELEMENT ∨ node.isEmptyElement = true then
        decide (0 < (if node.nodeType = .XML_READER_TYPE_ELEMENT then depth + 1 else depth)) &&
          wellFormed ((if node.nodeType = .XML_READER_TYPE_ELEMENT then depth + 1 else depth) - 1)
            rest
      else wellFormed (if node.nodeType = .XML_READER_TYPE_ELEMENT then depth + 1 else depth) rest
    else wellFormed depth rest

/-- The collector, if any, is a content collector. -/
def IsContent (c : Option ABWCollector) : Prop :=
  ∃ cc, c = some (.content cc)

/-- The active collector and the collectors on the stack are content collectors. -/
def AllContent (p : ABWParser) : Prop :=
  IsContent p.m_collector ∧ ∀ c ∈ p.m_state.m_collectorStack, IsContent (some c)

/-- The effect of a piece of the dispatcher on the parser `p`, `k` being what it
does to the height of the collector stack outside the styles pass: the
style-parsing flag stays, a collector stays installed, content collectors
stay content collectors, the stack is untouched in the styles pass; and a
failure is an exception or undefined behaviour, the latter never with content
collectors only. -/
def Eff (k : Nat → Nat) (p : ABWParser) : Res ABWParser → Prop
  | .ok p1 =>
    p1.m_state.m_inStyleParsing = p.m_state.m_inStyleParsing ∧
    (p.m_collector ≠ none → p1.m_collector ≠ none) ∧
    (AllContent p → AllContent p1) ∧
    (p.m_state.m_inStyleParsing = true →
      p1.m_state.m_collectorStack = p.m_state.m_collectorStack) ∧
    (p.m_state.m_inStyleParsing = false → p.m_collector ≠ none →
      p1.m_state.m_collectorStack.length = k p.m_state.m_collectorStack.length)
  | .fail f => (f = .exception ∨ f = .undefinedBehaviour) ∧ (AllContent p → f = .exception)

/-- The parser part of a result of `processXmlNode`. -/
def parserOf (r : Res (Int × Reader × ABWParser)) : Res ABWParser :=
  r.bind fun x => .ok x.2.2

/-- An input whose reader fails at the first read. -/
def failedDoc : Input :=
  { readable := true, events := [], failed := true }

/-- The document `<frame><history/></frame>`: a frame with an empty history
element in it. -/
def swallowedEndDoc : Input :=
  { readable := true, failed := false,
    events :=
      [event .XML_FRAME .XML_READER_TYPE_ELEMENT false [] none,
       event .XML_HISTORY .XML_READER_TYPE_ELEMENT true [] none,
       event .XML_FRAME .XML_READER_TYPE_END_ELEMENT false [] none] }

/-- An event stream with an empty history element and then a frame start element
without end element, the reader ending with 0. -/
def swallowedStartDoc : Input :=
  { readable := true, failed := false,
    events :=
      [event .XML_HISTORY .XML_READER_TYPE_ELEMENT true [] none,
       event .XML_FRAME .XML_READER_TYPE_ELEMENT false [] none] }

/-- The document `<frame>x<frame/></frame>`. -/
def balancedDoc : Input :=
  { readable := true, failed := false,
    events :=
      [event .XML_FRAME .XML_READER_TYPE_ELEMENT false [] none,
       event .XML_TOKEN_INVALID .XML_READER_TYPE_TEXT false [] (some "x".toList),
       event .XML_FRAME .XML_READER_TYPE_ELEMENT true [] none,
       event .XML_FRAME .XML_READER_TYPE_END_ELEMENT false [] none] }

/-- An event stream with a frame start element without end element, the reader
ending with 0. -/
def danglingDoc : Input :=
  { readable := true, failed := false,
    events :=
      [event .XML_FRAME .XML_READER_TYPE_ELEMENT false [] none,
       event .XML_TOKEN_INVALID .XML_READER_TYPE_TEXT false [] (some "x".toList)] }

/-- The node is the end element of a region with the token `tok`. -/
def isRegionEnd (tok : Token) (node : XmlNode) : Prop :=
  node.token = tok ∧ node.nodeType = .XML_READER_TYPE_END_ELEMENT

/-- The document `<history><p/></history><br/>`, the reader standing on the
history start element. -/
def historyRegion : Reader :=
  readerAt (event .XML_HISTORY .XML_READER_TYPE_ELEMENT false [] none).node
    [event .XML_P .XML_READER_TYPE_ELEMENT true [] none,
     event .XML_HISTORY .XML_READER_TYPE_END_ELEMENT false [] none,
     event .XML_BR .XML_READER_TYPE_ELEMENT true [] none]

/-- The document `<history/><p/><br/>`, the reader standing on the empty history
element. -/
def emptyHistory : Reader :=
  readerAt (event .XML_HISTORY .XML_READER_TYPE_ELEMENT true [] none).node
    [event .XML_P .XML_READER_TYPE_ELEMENT true [] none,
     event .XML_BR .XML_READER_TYPE_ELEMENT true [] none]

instance (tok : Token) (node : XmlNode) : Decidable (isRegionEnd tok node) := by
  unfold isRegionEnd
  infer_instance

/-- The collector `c2` is the collector `c` after it has received calls of the
collector interface, and no other: an installed collector that was neither
replaced by a new one nor exchanged for one from the stack. -/
inductive Reaches (env : Env) : Option ABWCollector → Option ABWCollector → Prop where
  | same (c : Option ABWCollector) : Reaches env c c
  | call (c : Option ABWCollector) (c1 c2 : ABWCollector) (call : Call) :
      Reaches env c (some c1) → collectorCall env call c1 = .ok c2 → Reaches env c (some c2)

/-- A piece of the dispatcher leaves the style-parsing flag and the collector stack
of `p` as they are and only calls the collector, provided `p` is in the styles
pass. -/
def Kept (env : Env) (p : ABWParser) : Res ABWParser → Prop
  | .ok p1 =>
    p.m_state.m_inStyleParsing = true →
      p1.m_state.m_inStyleParsing = true ∧
      p1.m_state.m_collectorStack = p.m_state.m_collectorStack ∧
      Reaches env p.m_collector p1.m_collector
  | .fail _ => True

/-- A document with frame start and end elements that do not match. -/
def unbalancedDoc : Input :=
  { readable := true, failed := false,
    events :=
      [event .XML_FRAME .XML_READER_TYPE_END_ELEMENT false [] none,
       event .XML_FRAME .XML_READER_TYPE_ELEMENT false [] none,
       event .XML_FRAME .XML_READER_TYPE_ELEMENT false [] none,
       event .XML_TABLE .XML_READER_TYPE_ELEMENT false [] none] }

/-- The row that `openCell` determines for a cell with the property string `p` on
the table state `ts` (the local `currentRow` of the source): the cell's
`top-attach` when `findInt` reads one, else the row after the table's row
counter. -/
def cellRow (ts : ABWStylesTableState) (p : Option Str) : Int :=
  let cellProps := match p with
    | some s => parsePropString s ts.m_currentCellProperties
    | none => ts.m_currentCellProperties
  match findInt (_findCellProperty cellProps "top-attach".toList) with
  | some v => v
  | none => wrapInt (ts.m_currentTableRow + 1)

/-- The rows of the cells of a run of cells (each `openCell` followed by
`closeCell`) that starts on the table state `ts`. -/
def cellRows : ABWStylesTableState → List (Option Str) → List Int
  | _, [] => []
  | ts, p :: ps => cellRow ts p :: cellRows (cellStep ts p) ps

/-! ## Arithmetic and map lemmas -/

theorem wrapInt_of_range (x : Int) (h1 : -2147483648 ≤ x) (h2 : x ≤ 2147483647) :
    wrapInt x = x := by
  unfold wrapInt; omega

theorem wrapInt_add_wrapInt (a b : Int) : wrapInt (a + wrapInt b) = wrapInt (a + b) := by
  unfold wrapInt; omega

theorem wrapInt_wrapInt_add (a b : Int) : wrapInt (wrapInt a + b) = wrapInt (a + b) := by
  unfold wrapInt; omega

theorem wrapInt_idem (a : Int) : wrapInt (wrapInt a) = wrapInt a := by
  unfold wrapInt; omega

theorem advanceRow_eq (n : Nat) : ∀ row cur : Int, (cur - row).toNat ≤ n →
    advanceRow n row cur = max row cur := by
  induction n with
  | zero => intro row cur h; simp only [advanceRow]; omega
  | succ n ih =>
    intro row cur h
    simp only [advanceRow]
    split
    · rw [ih (row + 1) cur (by omega)]; omega
    · omega

theorem runCells_eq (cells : List (Option Str)) : ∀ (c : ABWStylesCollector)
    (ts : ABWStylesTableState) (rest : List ABWStylesTableState),
    c.m_tableStates = ts :: rest →
    runCells cells c = some { c with m_tableStates := cells.foldl cellStep ts :: rest } := by
  induction cells with
  | nil => intro c ts rest h; cases c; simp_all [runCells]
  | cons p ps ih =>
    intro c ts rest h
    simp only [runCells, openCell, h, Option.bind, closeCell]
    rw [ih _ (cellStep ts p) rest rfl]
    rfl

theorem mapFind_mapSet_self {K V : Type} [DecidableEq K] (m : List (K × V)) (k : K) (v : V) :
    mapFind (mapSet m k v) k = some v := by
  induction m with
  | nil => simp [mapSet, mapFind]
  | cons x m ih =>
    obtain ⟨k', v'⟩ := x
    by_cases h : k' = k <;> simp [mapSet, mapFind, h, ih]

theorem mapFind_mapSet_ne {K V : Type} [DecidableEq K] (m : List (K × V)) (k k2 : K) (v : V)
    (h : k ≠ k2) : mapFind (mapSet m k v) k2 = mapFind m k2 := by
  induction m with
  | nil => simp [mapSet, mapFind, h]
  | cons x m ih =>
    obtain ⟨k', v'⟩ := x
    by_cases h1 : k' = k
    · subst h1; simp [mapSet, mapFind, h]
    · by_cases h2 : k' = k2
      · subst h2; simp [mapSet, mapFind, h1]
      · simp [mapSet, mapFind, h1, h2, ih]

theorem cellStep_id (ts : ABWStylesTableState) (p : Option Str) :
    (cellStep ts p).m_currentTableId = ts.m_currentTableId := rfl

theorem foldl_cellStep_id (cells : List (Option Str)) : ∀ ts : ABWStylesTableState,
    (cells.foldl cellStep ts).m_currentTableId = ts.m_currentTableId := by
  induction cells with
  | nil => intro ts; rfl
  | cons p ps ih => intro ts; rw [List.foldl_cons, ih, cellStep_id]

theorem runTable_eq (cells : List (Option Str)) (c : ABWStylesCollector) :
    runTable cells c = some
      { c with
        m_tableSizes := mapSet c.m_tableSizes c.m_tableCounter
          (cells.foldl cellStep
            (newTableState c.m_tableCounter)).m_currentTableWidth
        m_tableCounter := wrapInt (c.m_tableCounter + 1) } := by
  unfold runTable
  rw [runCells_eq cells (openTable c) _ c.m_tableStates rfl]
  simp only [Option.bind, closeTable, foldl_cellStep_id, openTable, newTableState]

/-- The row and width after `openCell`, from what it reads of the cell. -/
theorem openCellState_fields (ts : ABWStylesTableState) (p : Option Str)
    (h : ts.m_currentCellProperties = []) :
    (openCellState p ts).m_currentTableRow =
      max ts.m_currentTableRow
        (match (attachOf p).1 with
          | some v => v
          | none => wrapInt (ts.m_currentTableRow + 1)) ∧
    (openCellState p ts).m_currentTableWidth =
      (if (openCellState p ts).m_currentTableRow = 0 then
        match (attachOf p).2.1, (attachOf p).2.2 with
        | some l, some r => wrapInt (ts.m_currentTableWidth + wrapInt (r - l))
        | _, _ => wrapInt (ts.m_currentTableWidth + 1)
      else ts.m_currentTableWidth) ∧
    (openCellState p ts).m_currentTableId = ts.m_currentTableId := by
  have hp : (match p with
      | some s => parsePropString s ts.m_currentCellProperties
      | none => ts.m_currentCellProperties) = cellProps p := by
    cases p <;> simp [cellProps, h]
  refine ⟨?_, ?_, rfl⟩
  · simp only [openCellState, hp, attachOf]
    rw [advanceRow_eq _ _ _ le_rfl]
  · simp only [openCellState, hp, attachOf]

/-- Once the row counter is past row 0 no cell changes the width. -/
theorem foldl_cellStep_frozen (cells : List (Option Str)) : ∀ ts : ABWStylesTableState,
    ts.m_currentCellProperties = [] → 1 ≤ ts.m_currentTableRow →
    (cells.foldl cellStep ts).m_currentTableWidth = ts.m_currentTableWidth := by
  induction cells with
  | nil => intro ts _ _; rfl
  | cons p ps ih =>
    intro ts h hrow
    obtain ⟨h1, h2, _⟩ := openCellState_fields ts p h
    have hr : 1 ≤ (cellStep ts p).m_currentTableRow := by
      show 1 ≤ (openCellState p ts).m_currentTableRow
      rw [h1]; exact le_trans hrow (le_max_left _ _)
    rw [List.foldl_cons, ih (cellStep ts p) rfl hr]
    show (openCellState p ts).m_currentTableWidth = _
    rw [h2, if_neg]
    have : 1 ≤ (openCellState p ts).m_currentTableRow := hr
    omega

/-- Cells in row 0 with both attach values: the width grows by their differences. -/
theorem foldl_cellStep_attach (cells : List (Str × Int × Int))
    (h : ∀ x ∈ cells, attachOf (some x.1) = (some 0, some x.2.1, some x.2.2)) :
    ∀ ts : ABWStylesTableState, ts.m_currentCellProperties = [] →
    (ts.m_currentTableRow = -1 ∨ ts.m_currentTableRow = 0) →
    wrapInt ts.m_currentTableWidth = ts.m_currentTableWidth →
    ((cells.map fun x => some x.1).foldl cellStep ts).m_currentTableWidth =
      wrapInt (ts.m_currentTableWidth + (cells.map fun x => x.2.2 - x.2.1).sum) := by
  induction cells with
  | nil => intro ts _ _ hw; simpa using hw.symm
  | cons x xs ih =>
    intro ts hp hrow hw
    have hx := h x (List.mem_cons_self _ _)
    obtain ⟨h1, h2, _⟩ := openCellState_fields ts (some x.1) hp
    rw [hx] at h1 h2
    simp only at h1 h2
    have hr : (openCellState (some x.1) ts).m_currentTableRow = 0 := by
      rw [h1]; rcases hrow with h | h <;> rw [h] <;> decide
    rw [hr, if_pos rfl] at h2
    simp only [List.map_cons, List.foldl_cons, List.sum_cons]
    rw [ih (fun y hy => h y (List.mem_cons_of_mem _ hy)) (cellStep ts (some x.1)) rfl
      (Or.inr hr) (by have e : (cellStep ts (some x.1)).m_currentTableWidth = _ := h2
                      rw [e, wrapInt_idem])]
    show wrapInt ((openCellState (some x.1) ts).m_currentTableWidth + _) = _
    rw [h2, wrapInt_add_wrapInt, wrapInt_wrapInt_add]
    congr 1; ring

/-- Cells in row 0 without both attach values: the width grows by one per cell. -/
theorem foldl_cellStep_count (cells : List (Option Str))
    (h : ∀ p ∈ cells, (attachOf p).1 = some 0 ∧
      ((attachOf p).2.1 = none ∨ (attachOf p).2.2 = none)) :
    ∀ ts : ABWStylesTableState, ts.m_currentCellProperties = [] →
    (ts.m_currentTableRow = -1 ∨ ts.m_currentTableRow = 0) →
    wrapInt ts.m_currentTableWidth = ts.m_currentTableWidth →
    (cells.foldl cellStep ts).m_currentTableWidth =
      wrapInt (ts.m_currentTableWidth + cells.length) := by
  induction cells with
  | nil => intro ts _ _ hw; simpa using hw.symm
  | cons x xs ih =>
    intro ts hp hrow hw
    obtain ⟨hx1, hx2⟩ := h x (List.mem_cons_self _ _)
    obtain ⟨h1, h2, _⟩ := openCellState_fields ts x hp
    rw [hx1] at h1
    simp only at h1
    have hr : (openCellState x ts).m_currentTableRow = 0 := by
      rw [h1]; rcases hrow with h | h <;> rw [h] <;> decide
    rw [hr, if_pos rfl] at h2
    have h3 : (cellStep ts x).m_currentTableWidth = wrapInt (ts.m_currentTableWidth + 1) := by
      show (openCellState x ts).m_currentTableWidth = _
      rw [h2]
      rcases hx2 with e | e
      · rw [e]
      · rw [e]; cases (attachOf x).2.1 <;> rfl
    simp only [List.foldl_cons, List.length_cons]
    rw [ih (fun y hy => h y (List.mem_cons_of_mem _ hy)) (cellStep ts x) rfl
      (Or.inr hr) (by rw [h3, wrapInt_idem])]
    rw [h3, wrapInt_wrapInt_add]
    congr 1; push_cast; ring

/-- Cells without any attach value: only the first one is in row 0. -/
theorem foldl_cellStep_noattach (cells : List (Option Str))
    (h : ∀ p ∈ cells, attachOf p = (none, none, none)) (id : Int) :
    (cells.foldl cellStep (newTableState id)).m_currentTableWidth =
      if cells = [] then 0 else 1 := by
  match cells, h with
  | [], _ => rfl
  | p :: ps, h =>
    have hx := h p (List.mem_cons_self _ _)
    obtain ⟨h1, h2, _⟩ := openCellState_fields (newTableState id) p rfl
    rw [hx] at h1 h2
    simp only [newTableState] at h1 h2
    have hr : (cellStep (newTableState id) p).m_currentTableRow = 0 := h1.trans (by decide)
    have hw : (cellStep (newTableState id) p).m_currentTableWidth = 1 := by
      have e : (cellStep (newTableState id) p).m_currentTableWidth = _ := h2
      have hr' : (openCellState p (newTableState id)).m_currentTableRow = 0 := hr
      rw [e]; simp only [newTableState] at hr'; rw [hr', if_pos rfl]; decide
    rw [List.foldl_cons, if_neg (List.cons_ne_nil _ _)]
    match ps, h with
    | [], _ => exact hw
    | q :: qs, h =>
      have hq := h q (List.mem_cons_of_mem _ (List.mem_cons_self _ _))
      obtain ⟨g1, g2, _⟩ := openCellState_fields (cellStep (newTableState id) p) q rfl
      rw [hq] at g1 g2
      simp only at g1 g2
      rw [hr] at g1
      have gr : (cellStep (cellStep (newTableState id) p) q).m_currentTableRow = 1 :=
        g1.trans (by decide)
      have gw : (cellStep (cellStep (newTableState id) p) q).m_currentTableWidth = 1 := by
        have e : (cellStep (cellStep (newTableState id) p) q).m_currentTableWidth = _ := g2
        have gr' : (openCellState q (cellStep (newTableState id) p)).m_currentTableRow = 1 := gr
        rw [e, gr', if_neg (by decide), hw]
      rw [List.foldl_cons, foldl_cellStep_frozen qs (cellStep (cellStep (newTableState id) p) q)
        rfl (le_of_eq gr.symm)]
      exact gw

theorem attachOf_of_noAttach (p : Option Str) (h : noAttach p) :
    attachOf p = (none, none, none) := by
  obtain ⟨h1, h2, h3⟩ := h
  unfold attachOf _findCellProperty
  rw [h1, h2, h3]
  rfl

/-- The table a run of cells publishes, from the width the cells leave behind. -/
theorem runTable_tableSizes (cells : List (Option Str)) (c : ABWStylesCollector) :
    ∃ c1, runTable cells c = some c1 ∧ c1.m_tableStates = c.m_tableStates ∧
      mapFind c1.m_tableSizes c.m_tableCounter =
        some (cells.foldl cellStep (newTableState c.m_tableCounter)).m_currentTableWidth :=
  ⟨_, runTable_eq cells c, rfl, mapFind_mapSet_self _ _ _⟩

/-! ## Table geometry: claims C4, C5, C6 -/

/-- C4. A table that is opened, gets cells that are all in row 0 (`top-attach` 0)
and carry integer `left-attach` l and `right-attach` r, and is closed, publishes
under its table id the sum of the differences r - l as an `int`: the sum reduced
to 32 bits, which is the sum itself whenever the sum fits in an `int`. For the
pairs (0,1), (1,3), (3,4) the published column count is 4. -/
theorem closeTable_publishes_attach_sum (c : ABWStylesCollector) :
    (∀ cells : List (Str × Int × Int),
      (∀ x ∈ cells, attachOf (some x.1) = (some 0, some x.2.1, some x.2.2)) →
      ∃ c1, runTable (cells.map fun x => some x.1) c = some c1 ∧
        c1.m_tableStates = c.m_tableStates ∧
        mapFind c1.m_tableSizes c.m_tableCounter =
          some (wrapInt (cells.map fun x => x.2.2 - x.2.1).sum) ∧
        (-2147483648 ≤ (cells.map fun x => x.2.2 - x.2.1).sum →
          (cells.map fun x => x.2.2 - x.2.1).sum ≤ 2147483647 →
          mapFind c1.m_tableSizes c.m_tableCounter =
            some (cells.map fun x => x.2.2 - x.2.1).sum)) ∧
    (∃ c1, runTable [some "top-attach:0; left-attach:0; right-attach:1".toList,
        some "top-attach:0; left-attach:1; right-attach:3".toList,
        some "top-attach:0; left-attach:3; right-attach:4".toList] c = some c1 ∧
      mapFind c1.m_tableSizes c.m_tableCounter = some 4) := by
  have key : ∀ cells : List (Str × Int × Int),
      (∀ x ∈ cells, attachOf (some x.1) = (some 0, some x.2.1, some x.2.2)) →
      ∃ c1, runTable (cells.map fun x => some x.1) c = some c1 ∧
        c1.m_tableStates = c.m_tableStates ∧
        mapFind c1.m_tableSizes c.m_tableCounter =
          some (wrapInt (cells.map fun x => x.2.2 - x.2.1).sum) := by
    intro cells h
    obtain ⟨c1, h1, h2, h3⟩ := runTable_tableSizes (cells.map fun x => some x.1) c
    refine ⟨c1, h1, h2, ?_⟩
    rw [h3, foldl_cellStep_attach cells h (newTableState c.m_tableCounter) rfl (Or.inl rfl) rfl]
    simp [newTableState]
  refine ⟨?_, ?_⟩
  · intro cells h
    obtain ⟨c1, h1, h2, h3⟩ := key cells h
    exact ⟨c1, h1, h2, h3, fun ha hb => by rw [h3, wrapInt_of_range _ ha hb]⟩
  · obtain ⟨c1, h1, _, h3⟩ := key
      [("top-attach:0; left-attach:0; right-attach:1".toList, 0, 1),
       ("top-attach:0; left-attach:1; right-attach:3".toList, 1, 3),
       ("top-attach:0; left-attach:3; right-attach:4".toList, 3, 4)] (by decide)
    exact ⟨c1, h1, h3⟩

/-- Witness of C4: two cells (0,2) and (2,5) in a table of a new collector. -/
theorem closeTable_publishes_attach_sum_witness :
    ∃ c1, runTable ([("top-attach:0; left-attach:0; right-attach:2".toList, (0 : Int), (2 : Int)),
          ("left-attach:2;right-attach:5;top-attach:0".toList, 2, 5)].map fun x => some x.1)
        emptyCollector = some c1 ∧
      c1.m_tableStates = emptyCollector.m_tableStates ∧
      mapFind c1.m_tableSizes emptyCollector.m_tableCounter = some (wrapInt 5) ∧
      mapFind c1.m_tableSizes emptyCollector.m_tableCounter = some 5 := by
  obtain ⟨c1, h1, h2, h3, h4⟩ := (closeTable_publishes_attach_sum emptyCollector).1
    [("top-attach:0; left-attach:0; right-attach:2".toList, (0 : Int), (2 : Int)),
     ("left-attach:2;right-attach:5;top-attach:0".toList, 2, 5)] (by decide)
  exact ⟨c1, h1, h2, h3, h4 (by decide) (by decide)⟩

/-- Cells that carry `top-attach` 0 and lack `left-attach` or `right-attach`: the
published count is the number of cells (as an `int`; the number itself when it
fits in an `int`). -/
theorem runTable_top_attach_zero_count (c : ABWStylesCollector) (cells : List (Option Str))
    (h : ∀ p ∈ cells, (attachOf p).1 = some 0 ∧
      ((attachOf p).2.1 = none ∨ (attachOf p).2.2 = none)) :
    ∃ c1, runTable cells c = some c1 ∧
      mapFind c1.m_tableSizes c.m_tableCounter = some (wrapInt cells.length) ∧
      (cells.length ≤ 2147483647 →
        mapFind c1.m_tableSizes c.m_tableCounter = some (cells.length : Int)) := by
  obtain ⟨c1, h1, _, h3⟩ := runTable_tableSizes cells c
  refine ⟨c1, h1, ?_, ?_⟩
  · rw [h3, foldl_cellStep_count cells h (newTableState c.m_tableCounter) rfl (Or.inl rfl) rfl]
    simp [newTableState]
  · intro hn
    rw [h3, foldl_cellStep_count cells h (newTableState c.m_tableCounter) rfl (Or.inl rfl) rfl]
    simp only [newTableState, zero_add]
    rw [wrapInt_of_range _ (by omega) (by omega)]

/-- The row counter after `openCell` is the larger of the row counter before and
the row of the cell. -/
theorem openCellState_row_eq (p : Option Str) (ts : ABWStylesTableState) :
    (openCellState p ts).m_currentTableRow = max ts.m_currentTableRow (cellRow ts p) := by
  simp only [openCellState, cellRow]
  rw [advanceRow_eq _ _ _ le_rfl]

theorem cellRow_eq_of_closed (p : Option Str) (ts : ABWStylesTableState)
    (hp : ts.m_currentCellProperties = []) :
    cellRow ts p =
      match (attachOf p).1 with
      | some v => v
      | none => wrapInt (ts.m_currentTableRow + 1) := by
  cases p <;> simp [cellRow, attachOf, cellProps, hp]

/-- A cell without attach properties, opened when the cell before it was closed,
is in the row after the table's row counter. -/
theorem cellRow_of_noAttach (p : Option Str) (ts : ABWStylesTableState)
    (hp : ts.m_currentCellProperties = []) (h : noAttach p) :
    cellRow ts p = wrapInt (ts.m_currentTableRow + 1) := by
  rw [cellRow_eq_of_closed p ts hp, attachOf_of_noAttach p h]

/-- Once the row counter is 0 or more, no cell without attach properties is in row 0. -/
theorem cellRows_ne_zero (cells : List (Option Str)) :
    ∀ ts : ABWStylesTableState, (∀ p ∈ cells, noAttach p) → ts.m_currentCellProperties = [] →
      0 ≤ ts.m_currentTableRow → ts.m_currentTableRow ≤ 2147483647 →
      ∀ r ∈ cellRows ts cells, r ≠ 0 := by
  induction cells with
  | nil => intro ts _ _ _ _ r hr; cases hr
  | cons p ps ih =>
    intro ts h hp h0 h1 r hr
    have hrow := cellRow_of_noAttach p ts hp (h p (List.mem_cons_self _ _))
    have hnext : (cellStep ts p).m_currentTableRow = max ts.m_currentTableRow (cellRow ts p) :=
      openCellState_row_eq p ts
    simp only [cellRows, List.mem_cons] at hr
    rcases hr with hr | hr
    · rw [hr, hrow]
      unfold wrapInt
      omega
    · refine ih (cellStep ts p) (fun q hq => h q (List.mem_cons_of_mem _ hq)) rfl ?_ ?_ r hr
      · rw [hnext]
        exact le_trans h0 (le_max_left _ _)
      · rw [hnext, hrow]
        unfold wrapInt
        omega

/-- Of the cells of a new table that carry no attach property, the first one is in
row 0 and no other. -/
theorem cellRows_count_noAttach (cells : List (Option Str)) (id : Int)
    (h : ∀ p ∈ cells, noAttach p) :
    (cellRows (newTableState id) cells).count 0 = if cells = [] then 0 else 1 := by
  cases cells with
  | nil => rfl
  | cons p ps =>
    have hrow := cellRow_of_noAttach p (newTableState id) rfl (h p (List.mem_cons_self _ _))
    have hr0 : cellRow (newTableState id) p = 0 := by
      rw [hrow]
      simp only [newTableState]
      decide
    have hnext : (cellStep (newTableState id) p).m_currentTableRow = 0 := by
      have := openCellState_row_eq p (newTableState id)
      rw [hr0] at this
      exact this.trans (by simp [newTableState])
    have hrest : (cellRows (cellStep (newTableState id) p) ps).count 0 = 0 := by
      rw [List.count_eq_zero]
      intro hmem
      exact cellRows_ne_zero ps (cellStep (newTableState id) p)
        (fun q hq => h q (List.mem_cons_of_mem _ hq)) rfl (by rw [hnext]) (by rw [hnext]; decide)
        0 hmem rfl
    simp only [cellRows, hr0, List.count_cons_self, hrest, if_neg (List.cons_ne_nil _ _)]

theorem cellRows_length (cells : List (Option Str)) :
    ∀ ts : ABWStylesTableState, (cellRows ts cells).length = cells.length := by
  induction cells with
  | nil => intro ts; rfl
  | cons p ps ih => intro ts; simp only [cellRows, List.length_cons, ih]

/-- C5. A table that is opened, receives cells none of which carries an attach
property (no `top-attach`, `left-attach` or `right-attach` in its property
string; each `openCell` followed by `closeCell`) and is closed, publishes
under its table id the number of those cells that are in row 0; so when all n
cells are row-0 cells the published column count is n. The row of a cell is
the one `openCell` determines for it (`cellRow`); without `top-attach` that is
the row after the table's row counter, which puts the first cell of the table
into row 0 and no other, so the number is 1 for a table with cells and 0 for
one without. -/
theorem closeTable_publishes_cell_count (c : ABWStylesCollector) (cells : List (Option Str))
    (hno : ∀ p ∈ cells, noAttach p) :
    ∃ c1, runTable cells c = some c1 ∧ c1.m_tableStates = c.m_tableStates ∧
      mapFind c1.m_tableSizes c.m_tableCounter =
        some (((cellRows (newTableState c.m_tableCounter) cells).count 0 : Nat) : Int) ∧
      ((∀ r ∈ cellRows (newTableState c.m_tableCounter) cells, r = 0) →
        mapFind c1.m_tableSizes c.m_tableCounter = some (cells.length : Int)) ∧
      (cellRows (newTableState c.m_tableCounter) cells).count 0 =
        (if cells = [] then 0 else 1) := by
  obtain ⟨c1, h1, h2, h3⟩ := runTable_tableSizes cells c
  have hcount := cellRows_count_noAttach cells c.m_tableCounter hno
  have hpub : mapFind c1.m_tableSizes c.m_tableCounter =
      some (((cellRows (newTableState c.m_tableCounter) cells).count 0 : Nat) : Int) := by
    rw [h3, foldl_cellStep_noattach cells (fun p hp => attachOf_of_noAttach p (hno p hp)), hcount]
    split <;> rfl
  refine ⟨c1, h1, h2, hpub, ?_, hcount⟩
  intro hall
  rw [hpub]
  have hlen : (cellRows (newTableState c.m_tableCounter) cells).count 0 =
      (cellRows (newTableState c.m_tableCounter) cells).length :=
    List.count_eq_length.mpr (fun r hr => (hall r hr).symm)
  rw [hlen, cellRows_length]

/-- Witness of C5: a table with one cell without attach properties, which is a
row-0 cell, publishes 1. -/
theorem closeTable_publishes_cell_count_witness :
    ∃ c1, runTable [some "color:red".toList] emptyCollector = some c1 ∧
      mapFind c1.m_tableSizes emptyCollector.m_tableCounter =
        some (([some "color:red".toList] : List (Option Str)).length : Int) := by
  obtain ⟨c1, h1, _, _, h4, _⟩ :=
    closeTable_publishes_cell_count emptyCollector [some "color:red".toList] (by decide)
  exact ⟨c1, h1, h4 (by decide)⟩

/-- C6. Right after `openTable` the row counter is -1 and the width 0, and
`openCell` with a property string whose `top-attach` is an integer k ≥ 1 sets the
row counter to k and leaves the width at 0; so does `top-attach:2` with k = 2. -/
theorem openCell_top_attach_sets_row (c : ABWStylesCollector) :
    (∃ ts, (openTable c).m_tableStates = ts :: c.m_tableStates ∧
      ts.m_currentTableRow = -1 ∧ ts.m_currentTableWidth = 0) ∧
    (∀ (props : Str) (k : Int), (attachOf (some props)).1 = some k → 1 ≤ k →
      ∃ c1 ts, openCell (some props) (openTable c) = some c1 ∧
        c1.m_tableStates = ts :: c.m_tableStates ∧
        ts.m_currentTableRow = k ∧ ts.m_currentTableWidth = 0) ∧
    (∃ c1 ts, openCell (some "top-attach:2".toList) (openTable c) = some c1 ∧
        c1.m_tableStates = ts :: c.m_tableStates ∧
        ts.m_currentTableRow = 2 ∧ ts.m_currentTableWidth = 0) := by
  have key : ∀ (props : Str) (k : Int), (attachOf (some props)).1 = some k → 1 ≤ k →
      ∃ c1 ts, openCell (some props) (openTable c) = some c1 ∧
        c1.m_tableStates = ts :: c.m_tableStates ∧
        ts.m_currentTableRow = k ∧ ts.m_currentTableWidth = 0 := by
    intro props k hk h1
    obtain ⟨g1, g2, _⟩ := openCellState_fields (newTableState c.m_tableCounter) (some props) rfl
    rw [hk] at g1
    have hr : (openCellState (some props) (newTableState c.m_tableCounter)).m_currentTableRow
        = k := by
      rw [g1]; simp only [newTableState]; omega
    refine ⟨_, _, rfl, rfl, hr, ?_⟩
    rw [g2, hr, if_neg (by omega)]
    rfl
  exact ⟨⟨_, rfl, rfl, rfl⟩, key, key _ 2 (by decide) (by decide)⟩

/-- Witness of C6: `top-attach` 7 among other properties. -/
theorem openCell_top_attach_sets_row_witness :
    ∃ c1 ts, openCell (some "left-attach:0; top-attach:7".toList) (openTable emptyCollector)
        = some c1 ∧
      c1.m_tableStates = ts :: emptyCollector.m_tableStates ∧
      ts.m_currentTableRow = 7 ∧ ts.m_currentTableWidth = 0 :=
  (openCell_top_attach_sets_row emptyCollector).2.1 "left-attach:0; top-attach:7".toList 7
    (by decide) (by decide)

/-! ## Boolean literals: claim C9 -/

theorem isSpace_toLower (c : Char) (h : isSpace c = true) : c.toLower = c := by
  simp only [isSpace, Bool.or_eq_true, decide_eq_true_eq] at h
  rcases h with ((((h | h) | h) | h) | h) | h <;> subst h <;> decide

theorem not_isSpace_of_toLower (c a : Char) (h : c.toLower = a) (ha : isSpace a = false) :
    isSpace c = false := by
  cases hc : isSpace c with
  | false => rfl
  | true => rw [isSpace_toLower c hc] at h; rw [h] at hc; rw [hc] at ha; exact ha

theorem matchNoCase_self (s : Str) : matchNoCase (s.map Char.toLower) s = some [] := by
  induction s with
  | nil => rfl
  | cons c s ih => simp [matchNoCase, ih]

theorem findBool_of_lower (s : Str) (res b : Bool) (sym : Str)
    (h : s.map Char.toLower = sym) (hs : (sym, b) ∈ bools) : findBool s res = (true, b) := by
  simp only [bools, List.mem_cons, Prod.mk.injEq, List.mem_singleton, List.not_mem_nil, or_false] at hs
  cases s with
  | nil => subst h; rcases hs with ⟨h, _⟩ | ⟨h, _⟩ | ⟨h, _⟩ | ⟨h, _⟩ <;> simp at h
  | cons c s =>
    have hself := matchNoCase_self s
    rcases hs with ⟨rfl, rfl⟩ | ⟨rfl, rfl⟩ | ⟨rfl, rfl⟩ | ⟨rfl, rfl⟩ <;>
    · simp only [List.map, String.toList, List.cons.injEq] at h
      obtain ⟨h1, h2⟩ := h
      rw [h2] at hself
      have hsp := not_isSpace_of_toLower c _ h1 (by decide)
      simp [findBool, List.dropWhile, hsp, bools, matchBools, matchNoCase, h1, hself]

/-- C9. For every string that equals "true" or "yes" up to letter case `findBool`
succeeds and sets the result to true, for every string that equals "false" or
"no" up to letter case it succeeds and sets the result to false (so "true" and
"Yes" give true and "NO" gives false), and for the empty string it fails (and
leaves the result alone). -/
theorem findBool_literals (res : Bool) :
    (∀ s : Str, s.map Char.toLower = "true".toList ∨ s.map Char.toLower = "yes".toList →
      findBool s res = (true, true)) ∧
    (∀ s : Str, s.map Char.toLower = "false".toList ∨ s.map Char.toLower = "no".toList →
      findBool s res = (true, false)) ∧
    findBool "true".toList res = (true, true) ∧
    findBool "Yes".toList res = (true, true) ∧
    findBool "NO".toList res = (true, false) ∧
    findBool [] res = (false, res) := by
  have h1 : ∀ s : Str, s.map Char.toLower = "true".toList ∨ s.map Char.toLower = "yes".toList →
      findBool s res = (true, true) := by
    intro s h
    rcases h with h | h
    · exact findBool_of_lower s res true _ h (by decide)
    · exact findBool_of_lower s res true _ h (by decide)
  have h2 : ∀ s : Str, s.map Char.toLower = "false".toList ∨ s.map Char.toLower = "no".toList →
      findBool s res = (true, false) := by
    intro s h
    rcases h with h | h
    · exact findBool_of_lower s res false _ h (by decide)
    · exact findBool_of_lower s res false _ h (by decide)
  exact ⟨h1, h2, h1 _ (Or.inl (by decide)), h1 _ (Or.inr (by decide)),
    h2 _ (Or.inr (by decide)), rfl⟩

/-- Witness of C9: "tRuE" and "nO". -/
theorem findBool_literals_witness :
    findBool "tRuE".toList false = (true, true) ∧ findBool "nO".toList true = (true, false) :=
  ⟨(findBool_literals false).1 "tRuE".toList (Or.inl (by decide)),
   (findBool_literals true).2.1 "nO".toList (Or.inr (by decide))⟩

/-! ## Property strings: claims C7, C8 -/

theorem splitCompress_ne_nil (p : Char → Bool) (s : Str) : splitCompress p s ≠ [] := by
  induction s with
  | nil => simp [splitCompress]
  | cons c cs ih =>
    unfold splitCompress
    split
    · split
      · simp
      · split
        · exact ih
        · simp
    · cases h : splitCompress p cs <;> simp [consHead]

theorem consHead_length (c : Char) (l : List Str) (h : l ≠ []) :
    (consHead c l).length = l.length := by
  cases l with
  | nil => exact absurd rfl h
  | cons t ts => rfl

/-- A string without delimiters is one token. -/
theorem splitCompress_of_no_delim (p : Char → Bool) (t : Str) (h : ∀ c ∈ t, p c = false) :
    splitCompress p t = [t] := by
  induction t with
  | nil => rfl
  | cons c cs ih =>
    have hc : p c = false := h c (List.mem_cons_self _ _)
    simp [splitCompress, hc, ih (fun d hd => h d (List.mem_cons_of_mem _ hd)), consHead]

/-- A token, one delimiter and a rest that does not start with a delimiter. -/
theorem splitCompress_token (p : Char → Bool) (t : Str) (d e : Char) (rest : Str)
    (h : ∀ c ∈ t, p c = false) (hd : p d = true) (he : p e = false) :
    splitCompress p (t ++ d :: e :: rest) = t :: splitCompress p (e :: rest) := by
  induction t with
  | nil => simp [splitCompress, hd, he]
  | cons c cs ih =>
    have hc : p c = false := h c (List.mem_cons_self _ _)
    simp [splitCompress, hc, ih (fun d hd => h d (List.mem_cons_of_mem _ hd)), consHead]

theorem splitCompress_colon_length (s : Str) :
    (splitCompress (fun c => c = ':') s).length = colonRuns s + 1 := by
  induction s with
  | nil => rfl
  | cons c cs ih =>
    unfold splitCompress colonRuns
    by_cases hc : c = ':'
    · cases cs with
      | nil => simp [hc, colonRuns]
      | cons d ds =>
        by_cases hd : d = ':'
        · simp [hc, hd] at ih ⊢; exact ih
        · simp [hc, hd] at ih ⊢; omega
    · simp [hc, consHead_length _ _ (splitCompress_ne_nil _ _), ih]

theorem trimRight_append (a v : Str) (hv : v ≠ []) (h : ∀ c ∈ v, isSpace c = false) :
    trimRight (a ++ v) = a ++ v := by
  rcases List.eq_nil_or_concat v with rfl | ⟨L, b, rfl⟩
  · exact absurd rfl hv
  · have hb : isSpace b = false := h b (by simp)
    simp [trimRight, List.reverse_append, List.dropWhile_cons, hb]

theorem trimLeft_replicate (n : Nat) (e : Char) (r : Str) (he : isSpace e = false) :
    trimLeft (List.replicate n (Char.ofNat 32) ++ e :: r) = e :: r := by
  induction n with
  | zero => simp [trimLeft, List.dropWhile_cons, he]
  | succ n ih =>
    have : isSpace (Char.ofNat 32) = true := by decide
    simp only [trimLeft] at ih
    simp [trimLeft, List.replicate_succ, List.dropWhile_cons, this, ih]

theorem trim_renderItem (x : Nat × Str × Str) (h : goodPair x) :
    trim (renderItem x) = x.2.1 ++ ':' :: x.2.2 := by
  obtain ⟨n, k, v⟩ := x
  obtain ⟨hk, hv, hc⟩ := h
  simp only at hk hv hc
  cases k with
  | nil => exact absurd rfl hk
  | cons e r =>
    have he : isSpace e = false := (hc e (by simp)).2.2
    unfold trim renderItem
    simp only [List.cons_append]
    rw [trimLeft_replicate n e _ he]
    have := trimRight_append (e :: (r ++ [':'])) v hv (fun c hc' => (hc c (by simp [hc'])).2.2)
    simpa using this

theorem addProp_renderItem (props : PropMap) (x : Nat × Str × Str) (h : goodPair x) :
    addProp props (renderItem x) = mapSet props x.2.1 x.2.2 := by
  unfold addProp
  rw [trim_renderItem x h]
  obtain ⟨n, k, v⟩ := x
  obtain ⟨hk, hv, hc⟩ := h
  simp only at hk hv hc ⊢
  cases v with
  | nil => exact absurd rfl hv
  | cons e r =>
    rw [splitCompress_token _ k ':' e r (fun c hc' => by simpa using (hc c (by simp [hc'])).2.1)
      (by simp) (by simpa using (hc e (by simp)).2.1)]
    rw [splitCompress_of_no_delim _ (e :: r)
      (fun c hc' => by simpa using (hc c (by simp [hc'])).2.1)]

theorem goodPair_zero (x : Nat × Str × Str) (h : goodPair x) : goodPair (0, x.2.1, x.2.2) := h

theorem renderItem_no_semi (x : Nat × Str × Str) (h : goodPair x) :
    ∀ c ∈ renderItem x, (fun c : Char => decide (c = ';')) c = false := by
  obtain ⟨n, k, v⟩ := x
  obtain ⟨_, _, hc⟩ := h
  intro c hc'
  simp only [renderItem, List.mem_append, List.mem_cons] at hc'
  simp only [decide_eq_false_iff_not]
  rcases hc' with h1 | h1 | h1 | h1
  · rw [List.eq_of_mem_replicate h1]; decide
  · exact (hc c (by simp [h1])).1
  · rw [h1]; decide
  · exact (hc c (by simp [h1])).1

theorem renderItem_head (x : Nat × Str × Str) (h : goodPair x) :
    ∃ e r, renderItem x = e :: r := by
  obtain ⟨n, k, v⟩ := x
  obtain ⟨hk, _, _⟩ := h
  cases k with
  | nil => exact absurd rfl hk
  | cons e r =>
    cases n with
    | zero => exact ⟨e, r ++ ':' :: v, by simp [renderItem]⟩
    | succ n =>
      exact ⟨Char.ofNat 32, List.replicate n (Char.ofNat 32) ++ e :: (r ++ ':' :: v),
        by simp [renderItem, List.replicate_succ]⟩

theorem renderProps_cons (x : Nat × Str × Str) (rest : List (Nat × Str × Str)) :
    ∃ tl, renderProps (x :: rest) = renderItem x ++ tl := by
  cases rest with
  | nil => exact ⟨[], by simp [renderProps]⟩
  | cons y ys => exact ⟨_, rfl⟩

theorem splitCompress_renderProps (items : List (Nat × Str × Str))
    (h : ∀ x ∈ items, goodPair x) (hne : items ≠ []) :
    splitCompress (fun c => decide (c = ';')) (renderProps items) = items.map renderItem := by
  induction items with
  | nil => exact absurd rfl hne
  | cons x rest ih =>
    cases rest with
    | nil =>
      simp only [renderProps, List.map]
      exact splitCompress_of_no_delim _ _ (renderItem_no_semi x (h x (by simp)))
    | cons y ys =>
      have hy : goodPair y := h y (by simp)
      obtain ⟨e, r, he⟩ := renderItem_head y hy
      obtain ⟨tl, htl⟩ := renderProps_cons y ys
      have hes : (fun c : Char => decide (c = ';')) e = false :=
        renderItem_no_semi y hy e (by rw [he]; simp)
      have ih' := ih (fun z hz => h z (List.mem_cons_of_mem _ hz)) (List.cons_ne_nil _ _)
      have e1 : renderProps (x :: y :: ys) = renderItem x ++ ';' :: e :: (r ++ tl) := by
        show renderItem x ++ ';' :: renderProps (y :: ys) = _
        rw [htl, he]; rfl
      have e2 : renderProps (y :: ys) = e :: (r ++ tl) := by rw [htl, he]; rfl
      rw [e1, splitCompress_token _ _ ';' e _ (renderItem_no_semi x (h x (by simp)))
        (by simp) hes, ← e2, ih']
      rfl

theorem renderProps_tail (items : List (Nat × Str × Str)) (h : ∀ x ∈ items, goodPair x)
    (hne : items ≠ []) :
    ∃ a v, renderProps items = a ++ v ∧ v ≠ [] ∧ ∀ c ∈ v, isSpace c = false := by
  induction items with
  | nil => exact absurd rfl hne
  | cons x rest ih =>
    cases rest with
    | nil =>
      obtain ⟨n, k, v⟩ := x
      obtain ⟨_, hv, hc⟩ := h (n, k, v) (by simp)
      refine ⟨List.replicate n (Char.ofNat 32) ++ (k ++ [':']), v, by simp [renderProps, renderItem],
        hv, fun c hc' => (hc c (by simp [hc'])).2.2⟩
    | cons y ys =>
      obtain ⟨a, v, e, hv, hc⟩ :=
        ih (fun z hz => h z (List.mem_cons_of_mem _ hz)) (List.cons_ne_nil _ _)
      refine ⟨renderItem x ++ ';' :: a, v, ?_, hv, hc⟩
      show renderItem x ++ ';' :: renderProps (y :: ys) = _
      rw [e]; simp

theorem trim_renderProps (n : Nat) (k v : Str) (rest : List (Nat × Str × Str))
    (h : ∀ x ∈ (n, k, v) :: rest, goodPair x) :
    trim (renderProps ((n, k, v) :: rest)) = renderProps ((0, k, v) :: rest) := by
  have h0 : ∀ x ∈ (0, k, v) :: rest, goodPair x := by
    intro x hx
    rcases List.mem_cons.1 hx with rfl | hx
    · exact goodPair_zero _ (h (n, k, v) (by simp))
    · exact h x (List.mem_cons_of_mem _ hx)
  obtain ⟨hk, _, hc⟩ := h (n, k, v) (by simp)
  simp only at hk hc
  obtain ⟨a, w, e, hw, hcw⟩ := renderProps_tail _ h0 (List.cons_ne_nil _ _)
  have e1 : trimLeft (renderProps ((n, k, v) :: rest)) = renderProps ((0, k, v) :: rest) := by
    cases k with
    | nil => exact absurd rfl hk
    | cons c r =>
      have hcs : isSpace c = false := (hc c (by simp)).2.2
      cases rest with
      | nil =>
        simp only [renderProps, renderItem, List.cons_append]
        rw [trimLeft_replicate n c _ hcs]; rfl
      | cons y ys =>
        simp only [renderProps, renderItem, List.cons_append, List.append_assoc]
        rw [trimLeft_replicate n c _ hcs]; rfl
  unfold trim
  rw [e1, e, trimRight_append a w hw hcw]

theorem mapFind_append {K V : Type} [DecidableEq K] (a b : List (K × V)) (key : K) :
    mapFind (a ++ b) key = match mapFind a key with
      | some v => some v
      | none => mapFind b key := by
  induction a with
  | nil => rfl
  | cons x a ih =>
    obtain ⟨k, v⟩ := x
    by_cases hk : k = key <;> simp [mapFind, hk, ih]

theorem mapFind_foldl_mapSet {K V : Type} [DecidableEq K] (items : List (K × V)) :
    ∀ (props : List (K × V)) (key : K),
    mapFind (items.foldl (fun m x => mapSet m x.1 x.2) props) key =
      match mapFind items.reverse key with
      | some v => some v
      | none => mapFind props key := by
  induction items with
  | nil => intro props key; rfl
  | cons x xs ih =>
    intro props key
    rw [List.foldl_cons, ih, List.reverse_cons, mapFind_append]
    cases mapFind xs.reverse key with
    | some v => rfl
    | none =>
      obtain ⟨k, v⟩ := x
      by_cases hk : k = key
      · subst hk; simp [mapFind, mapFind_mapSet_self]
      · simp [mapFind, hk, mapFind_mapSet_ne _ _ _ _ hk]

theorem foldl_addProp_renderItem (items : List (Nat × Str × Str))
    (h : ∀ x ∈ items, goodPair x) : ∀ props : PropMap,
    (items.map renderItem).foldl addProp props =
      (items.map fun x => x.2).foldl (fun m x => mapSet m x.1 x.2) props := by
  induction items with
  | nil => intro props; rfl
  | cons x xs ih =>
    intro props
    simp only [List.map_cons, List.foldl_cons]
    rw [addProp_renderItem props x (h x (by simp)),
      ih (fun z hz => h z (List.mem_cons_of_mem _ hz))]

theorem parsePropString_renderProps (items : List (Nat × Str × Str))
    (h : ∀ x ∈ items, goodPair x) (props : PropMap) :
    parsePropString (renderProps items) props =
      (items.map fun x => x.2).foldl (fun m x => mapSet m x.1 x.2) props := by
  cases items with
  | nil => rfl
  | cons x rest =>
    obtain ⟨n, k, v⟩ := x
    obtain ⟨e, r, he⟩ := renderItem_head (n, k, v) (h _ (by simp))
    obtain ⟨tl, htl⟩ := renderProps_cons (n, k, v) rest
    have hne : renderProps ((n, k, v) :: rest) ≠ [] := by rw [htl, he]; simp
    have h0 : ∀ x ∈ (0, k, v) :: rest, goodPair x := by
      intro x hx
      rcases List.mem_cons.1 hx with rfl | hx
      · exact goodPair_zero _ (h (n, k, v) (by simp))
      · exact h x (List.mem_cons_of_mem _ hx)
    unfold parsePropString
    rw [if_neg hne, trim_renderProps n k v rest h,
      splitCompress_renderProps _ h0 (List.cons_ne_nil _ _), foldl_addProp_renderItem _ h0]
    rfl
theorem colonRuns_of_no_colon (s : Str) (h : ':' ∉ s) : colonRuns s = 0 := by
  induction s with
  | nil => rfl
  | cons c cs ih =>
    have hc : c ≠ ':' := fun e => h (by simp [e])
    simp [colonRuns, hc, ih (fun hm => h (List.mem_cons_of_mem _ hm))]

theorem colon_not_space : isSpace ':' = false := by decide

theorem colonRuns_trimLeft (s : Str) : colonRuns (trimLeft s) = colonRuns s := by
  induction s with
  | nil => rfl
  | cons c cs ih =>
    unfold trimLeft at ih ⊢
    by_cases hc : isSpace c = true
    · have hne : c ≠ ':' := fun e => by rw [e, colon_not_space] at hc; cases hc
      simp [List.dropWhile_cons, hc, ih, colonRuns, hne]
    · simp [List.dropWhile_cons, hc]

theorem colonRuns_append_spaces (s t : Str) (ht : ∀ c ∈ t, isSpace c = true) :
    colonRuns (s ++ t) = colonRuns s := by
  have hnc : ':' ∉ t := fun hm => by
    have := ht _ hm; rw [colon_not_space] at this; cases this
  induction s with
  | nil => simpa using colonRuns_of_no_colon t hnc
  | cons c cs ih =>
    simp only [List.cons_append, colonRuns, ih]
    congr 1
    cases cs with
    | nil =>
      have : t.head? ≠ some ':' := fun e => hnc (List.mem_of_mem_head? e)
      simp [this]
    | cons d ds => simp

theorem trimRight_append_spaces (s : Str) :
    ∃ t, s = trimRight s ++ t ∧ ∀ c ∈ t, isSpace c = true := by
  refine ⟨(s.reverse.takeWhile isSpace).reverse, ?_, ?_⟩
  · unfold trimRight
    rw [← List.reverse_append, List.takeWhile_append_dropWhile, List.reverse_reverse]
  · intro c hc
    exact List.mem_takeWhile_imp (List.mem_reverse.1 hc)

theorem colonRuns_trim (s : Str) : colonRuns (trim s) = colonRuns s := by
  unfold trim
  obtain ⟨t, e, ht⟩ := trimRight_append_spaces (trimLeft s)
  rw [← colonRuns_trimLeft s]
  conv_rhs => rw [e]
  rw [colonRuns_append_spaces _ t ht]

theorem addProp_of_colonRuns_ne (props : PropMap) (item : Str) (h : colonRuns item ≠ 1) :
    addProp props item = props := by
  have hl := splitCompress_colon_length (trim item)
  rw [colonRuns_trim] at hl
  unfold addProp
  split
  · next k v e =>
    have : (splitCompress (fun c => decide (c = ':')) (trim item)).length = 2 := by rw [e]; rfl
    omega
  · rfl

theorem splitCompress_delim_delim (p : Char → Bool) (c d : Char) (ds : Str)
    (hc : p c = true) (hd : p d = true) :
    splitCompress p (c :: d :: ds) = splitCompress p (d :: ds) := by
  rw [splitCompress]; simp [hc, hd]

theorem splitCompress_delim_other (p : Char → Bool) (c d : Char) (ds : Str)
    (hc : p c = true) (hd : p d = false) :
    splitCompress p (c :: d :: ds) = [] :: splitCompress p (d :: ds) := by
  rw [splitCompress]; simp [hc, hd]

theorem splitCompress_other (p : Char → Bool) (c : Char) (cs : Str) (hc : p c = false) :
    splitCompress p (c :: cs) = consHead c (splitCompress p cs) := by
  simp [splitCompress, hc]

theorem splitCompress_colon_one (s : Str) : ∀ v : Str,
    splitCompress (fun c => decide (c = ':')) s = [v] → s = v ∧ ':' ∉ v := by
  induction s with
  | nil => intro v h; simp [splitCompress] at h; subst h; simp
  | cons c cs ih =>
    intro v h
    by_cases hc : c = ':'
    · exfalso
      subst hc
      cases cs with
      | nil => simp [splitCompress] at h
      | cons d ds =>
        by_cases hd : d = ':'
        · rw [splitCompress_delim_delim _ _ _ _ (by simp) (by simp [hd])] at h
          obtain ⟨e, hn⟩ := ih v h
          rw [← e, hd] at hn
          exact hn (by simp)
        · rw [splitCompress_delim_other _ _ _ _ (by simp) (by simp [hd])] at h
          simp only [List.cons.injEq] at h
          exact splitCompress_ne_nil _ _ h.2
    · rw [splitCompress_other _ _ _ (by simp [hc])] at h
      cases hs : splitCompress (fun c => decide (c = ':')) cs with
      | nil => exact absurd hs (splitCompress_ne_nil _ _)
      | cons t ts =>
        rw [hs] at h
        simp only [consHead, List.cons.injEq] at h
        obtain ⟨h1, h2⟩ := h
        subst h2
        obtain ⟨e1, e2⟩ := ih t hs
        subst h1
        refine ⟨by rw [e1], ?_⟩
        simp [e2, Ne.symm hc]

theorem splitCompress_colon_two (s : Str) : ∀ k v : Str,
    splitCompress (fun c => decide (c = ':')) s = [k, v] →
    ∃ n, 0 < n ∧ s = k ++ (List.replicate n ':' ++ v) ∧ ':' ∉ k ∧ ':' ∉ v := by
  induction s with
  | nil => intro k v h; simp [splitCompress] at h
  | cons c cs ih =>
    intro k v h
    by_cases hc : c = ':'
    · subst hc
      cases cs with
      | nil =>
        simp only [splitCompress, decide_True, if_true, List.cons.injEq, and_true] at h
        obtain ⟨rfl, rfl⟩ := h
        exact ⟨1, by decide, rfl, by simp, by simp⟩
      | cons d ds =>
        by_cases hd : d = ':'
        · rw [splitCompress_delim_delim _ _ _ _ (by simp) (by simp [hd])] at h
          obtain ⟨n, hn, e, hk, hv⟩ := ih k v h
          have hk0 : k = [] := by
            cases k with
            | nil => rfl
            | cons x xs =>
              simp only [List.cons_append, List.cons.injEq] at e
              exact absurd (by rw [← e.1, hd]; simp) hk
          subst hk0
          refine ⟨n + 1, by omega, ?_, hk, hv⟩
          rw [e]; simp [List.replicate_succ]
        · rw [splitCompress_delim_other _ _ _ _ (by simp) (by simp [hd])] at h
          simp only [List.cons.injEq] at h
          obtain ⟨rfl, h2⟩ := h
          obtain ⟨e, hv⟩ := splitCompress_colon_one _ v h2
          exact ⟨1, by decide, by rw [e]; rfl, by simp, hv⟩
    · rw [splitCompress_other _ _ _ (by simp [hc])] at h
      cases hs : splitCompress (fun c => decide (c = ':')) cs with
      | nil => exact absurd hs (splitCompress_ne_nil _ _)
      | cons t ts =>
        rw [hs] at h
        simp only [consHead, List.cons.injEq] at h
        obtain ⟨h1, h2⟩ := h
        subst h2 h1
        obtain ⟨n, hn, e, hk, hv⟩ := ih t v hs
        refine ⟨n, hn, by rw [e]; rfl, ?_, hv⟩
        simp [hk, Ne.symm hc]

theorem addProp_of_colonRuns_one (props : PropMap) (item : Str) (h : colonRuns item = 1) :
    ∃ k v n, 0 < n ∧ trim item = k ++ (List.replicate n ':' ++ v) ∧ ':' ∉ k ∧ ':' ∉ v ∧
      addProp props item = mapSet props k v := by
  have hl := splitCompress_colon_length (trim item)
  rw [colonRuns_trim, h] at hl
  match hs : splitCompress (fun c => decide (c = ':')) (trim item), hl with
  | [k, v], _ =>
    obtain ⟨n, hn, e, hk, hv⟩ := splitCompress_colon_two _ k v hs
    refine ⟨k, v, n, hn, e, hk, hv, ?_⟩
    unfold addProp
    rw [hs]

theorem foldl_addProp_filter (items : List Str) : ∀ props : PropMap,
    items.foldl addProp props =
      (items.filter fun it => decide (colonRuns it = 1)).foldl addProp props := by
  induction items with
  | nil => intro props; rfl
  | cons x xs ih =>
    intro props
    by_cases hx : colonRuns x = 1
    · simp only [List.foldl_cons, List.filter_cons, hx, decide_True, if_true]
      exact ih _
    · simp only [List.foldl_cons, List.filter_cons, hx, decide_False]
      rw [addProp_of_colonRuns_ne props x hx]
      exact ih _

/-- C7. `parsePropString` of "left-attach:1; right-attach:3" into an empty map is
exactly the map left-attach -> "1", right-attach -> "3". For every list of pairs
whose keys and values are non-empty and without `;`, `:` and white space, the
items `k:v` joined by `;` (with any number of spaces before an item) parse into
the map that binds each key to the value of its last occurrence. -/
theorem parsePropString_pairs :
    parsePropString "left-attach:1; right-attach:3".toList [] =
      [("left-attach".toList, "1".toList), ("right-attach".toList, "3".toList)] ∧
    ∀ items : List (Nat × Str × Str), (∀ x ∈ items, goodPair x) → ∀ key : Str,
      mapFind (parsePropString (renderProps items) []) key =
        mapFind (items.map fun x => x.2).reverse key := by
  refine ⟨by decide, ?_⟩
  intro items h key
  rw [parsePropString_renderProps items h, mapFind_foldl_mapSet]
  cases mapFind (items.map fun x => x.2).reverse key <;> rfl

/-- Witness of C7: "a:1; b:2;a:3" binds a to "3" and b to "2". -/
theorem parsePropString_pairs_witness :
    renderProps [(0, "a".toList, "1".toList), (1, "b".toList, "2".toList),
      (0, "a".toList, "3".toList)] = "a:1; b:2;a:3".toList ∧
    mapFind (parsePropString (renderProps [(0, "a".toList, "1".toList),
        (1, "b".toList, "2".toList), (0, "a".toList, "3".toList)]) []) "a".toList =
      mapFind ([(0, "a".toList, "1".toList), (1, "b".toList, "2".toList),
        (0, "a".toList, "3".toList)].map fun x => x.2).reverse "a".toList ∧
    mapFind ([(0, "a".toList, "1".toList), (1, "b".toList, "2".toList),
        (0, "a".toList, "3".toList)].map fun x => x.2).reverse "a".toList = some "3".toList :=
  ⟨by decide, parsePropString_pairs.2 _ (by decide) _, by decide⟩

/-- C8 as stated fails: the item "a::b" has two colons and still adds the entry
a -> "b", because the split compresses adjacent colons into one separator. -/
theorem adjacent_colons_counterexample :
    ("a::b".toList.filter fun c => c = ':').length = 2 ∧
    parsePropString "a::b".toList [] = [("a".toList, "b".toList)] := by
  decide

/-- C8, amended. Adjacent colons are one separator: an item changes the map only
if it has exactly one run of colons, and then it binds the text before the run
to the text after it (of the trimmed item). An item without a colon or with two
or more separate runs of colons contributes nothing, so only the items with one
run matter, and for the empty input string the map is left as it is (empty when
it was empty). -/
theorem parsePropString_drops_malformed :
    (∀ (props : PropMap) (item : Str), colonRuns item ≠ 1 → addProp props item = props) ∧
    (∀ (props : PropMap) (item : Str), ':' ∉ item → addProp props item = props) ∧
    (∀ (props : PropMap) (item : Str), colonRuns item = 1 →
      ∃ k v n, 0 < n ∧ trim item = k ++ (List.replicate n ':' ++ v) ∧ ':' ∉ k ∧ ':' ∉ v ∧
        addProp props item = mapSet props k v) ∧
    (∀ (str : Str) (props : PropMap), parsePropString str props =
      ((splitCompress (fun c => decide (c = ';')) (trim str)).filter
        fun it => decide (colonRuns it = 1)).foldl addProp props) ∧
    (∀ props : PropMap, parsePropString [] props = props) ∧
    parsePropString [] [] = [] := by
  refine ⟨addProp_of_colonRuns_ne, ?_, addProp_of_colonRuns_one, ?_, fun _ => rfl, rfl⟩
  · intro props item h
    exact addProp_of_colonRuns_ne props item (by rw [colonRuns_of_no_colon item h]; decide)
  · intro str props
    by_cases hs : str = []
    · subst hs; rfl
    · unfold parsePropString
      rw [if_neg hs]
      exact foldl_addProp_filter _ _

/-- Witness of C8: "a:b:c" and "d" add nothing, "k :: v" binds "k " to " v". -/
theorem parsePropString_drops_malformed_witness :
    addProp [] "a:b:c".toList = [] ∧ addProp [] "d".toList = [] ∧
    ∃ k v n, 0 < n ∧ trim "k :: v".toList = k ++ (List.replicate n ':' ++ v) ∧
      ':' ∉ k ∧ ':' ∉ v ∧ addProp [] "k :: v".toList = mapSet [] k v :=
  ⟨parsePropString_drops_malformed.1 [] _ (by decide),
   parsePropString_drops_malformed.2.1 [] _ (by decide),
   parsePropString_drops_malformed.2.2.1 [] _ (by decide)⟩

/-! ## The list resolver: claims C1, C2, C3 -/

theorem mapFind_modifyElem_self (f : ABWListElement → ABWListElement) (m : ListElements Int)
    (id : Int) : mapFind (modifyElem f m id) id = (mapFind m id).map (Option.map f) := by
  induction m with
  | nil => rfl
  | cons x m ih =>
    obtain ⟨k, v⟩ := x
    by_cases h : k = id <;> simp [modifyElem, mapFind, h, ih]

theorem mapFind_modifyElem_ne (f : ABWListElement → ABWListElement) (m : ListElements Int)
    (id k : Int) (h : k ≠ id) : mapFind (modifyElem f m id) k = mapFind m k := by
  induction m with
  | nil => rfl
  | cons x m ih =>
    obtain ⟨k', v⟩ := x
    by_cases h1 : k' = id
    · subst h1; simp [modifyElem, mapFind, Ne.symm h]
    · by_cases h2 : k' = k
      · subst h2; simp [modifyElem, mapFind, h]
      · simp [modifyElem, mapFind, h1, h2, ih]

theorem modifyElem_keys (f : ABWListElement → ABWListElement) (m : ListElements Int) (id : Int) :
    (modifyElem f m id).map Prod.fst = m.map Prod.fst := by
  induction m with
  | nil => rfl
  | cons x m ih =>
    obtain ⟨k, v⟩ := x
    by_cases h : k = id <;> simp [modifyElem, h, ih]

theorem modifyElem_length (f : ABWListElement → ABWListElement) (m : ListElements Int)
    (id : Int) : (modifyElem f m id).length = m.length := by
  have := congrArg List.length (modifyElem_keys f m id)
  simpa using this

/-- The five ways through the body of `_findAndUpdateListElementId`. -/
theorem findStep_cases (m : ListElements Int) (id : Int) (seen : List Int) :
    ((mapFind m id = none ∨ mapFind m id = some none) ∧ findStep m id seen = .done m seen 0) ∨
    (∃ e, mapFind m id = some (some e) ∧ e.m_listId ≠ 0 ∧
      findStep m id seen = .done m seen e.m_listId) ∨
    (∃ e, mapFind m id = some (some e) ∧ e.m_listId = 0 ∧ id ∈ seen ∧
      findStep m id seen = .done
        (modifyElem (fun e => { e with m_listId := id })
          (modifyElem (fun e => { e with m_parentId := 0 }) m id) id) seen id) ∨
    (∃ e, mapFind m id = some (some e) ∧ e.m_listId = 0 ∧ id ∉ seen ∧ e.m_parentId = 0 ∧
      findStep m id seen = .done (modifyElem (fun e => { e with m_listId := id }) m id)
        (id :: seen) id) ∨
    (∃ e, mapFind m id = some (some e) ∧ e.m_listId = 0 ∧ id ∉ seen ∧ e.m_parentId ≠ 0 ∧
      findStep m id seen = .recurse m (id :: seen) e.m_parentId) := by
  unfold findStep
  cases h : mapFind m id with
  | none => left; exact ⟨Or.inl rfl, rfl⟩
  | some v =>
    cases v with
    | none => left; exact ⟨Or.inr rfl, rfl⟩
    | some e =>
      right
      by_cases hl : e.m_listId = 0
      · right
        by_cases hs : id ∈ seen
        · left; exact ⟨e, rfl, hl, hs, by simp [hl, hs]⟩
        · right
          by_cases hp : e.m_parentId = 0
          · left; exact ⟨e, rfl, hl, hs, hp, by simp [hl, hs, hp]⟩
          · right; exact ⟨e, rfl, hl, hs, hp, by simp [hl, hs, hp]⟩
      · left; exact ⟨e, rfl, hl, by simp [hl]⟩

theorem unseen_le (m : ListElements Int) (seen : List Int) : unseen m seen ≤ m.length :=
  List.length_filter_le _ _

theorem unseen_cons_le (m : ListElements Int) (id : Int) (seen : List Int) :
    unseen m (id :: seen) ≤ unseen m seen := by
  induction m with
  | nil => simp [unseen]
  | cons x m ih =>
    unfold unseen at ih ⊢
    simp only [List.filter_cons]
    by_cases h1 : x.1 ∈ seen
    · simp [h1]; simpa using ih
    · by_cases h2 : x.1 = id
      · subst h2; simp [h1]; simp at ih; omega
      · simp [h1, h2]; simpa using ih

theorem unseen_cons_lt (m : ListElements Int) (id : Int) (seen : List Int)
    (hm : mapFind m id ≠ none) (hs : id ∉ seen) : unseen m (id :: seen) < unseen m seen := by
  induction m with
  | nil => exact absurd rfl hm
  | cons x m ih =>
    obtain ⟨k, v⟩ := x
    by_cases hk : k = id
    · subst hk
      have := unseen_cons_le m k seen
      unfold unseen at this ⊢
      simp [List.filter_cons, hs]
      simp at this; omega
    · have hm' : mapFind m id ≠ none := by simpa [mapFind, hk] using hm
      have := ih hm'
      unfold unseen at this ⊢
      simp only [List.filter_cons]
      by_cases h1 : k ∈ seen
      · simp [h1]; simpa using this
      · simp [h1, hk]; simp at this; omega

theorem find_keys (fuel : Nat) : ∀ (m : ListElements Int) (id : Int) (seen : List Int)
    (m2 : ListElements Int) (s2 : List Int) (r : Int),
    _findAndUpdateListElementId fuel m id seen = some (m2, s2, r) →
    m2.map Prod.fst = m.map Prod.fst := by
  induction fuel with
  | zero => intro m id seen m2 s2 r h; simp [_findAndUpdateListElementId] at h
  | succ fuel ih =>
    intro m id seen m2 s2 r h
    unfold _findAndUpdateListElementId at h
    rcases findStep_cases m id seen with ⟨_, e⟩ | ⟨_, _, _, e⟩ | ⟨_, _, _, _, e⟩ |
      ⟨_, _, _, _, _, e⟩ | ⟨_, _, _, _, _, e⟩
    all_goals rw [e] at h
    · simp at h; rw [← h.1]
    · simp at h; rw [← h.1]
    · simp at h; rw [← h.1, modifyElem_keys, modifyElem_keys]
    · simp at h; rw [← h.1, modifyElem_keys]
    · simp only at h
      split at h
      · cases h
      · next m3 s3 r3 h3 =>
        simp at h
        rw [← h.1, modifyElem_keys, ih _ _ _ _ _ _ h3]

theorem find_length (fuel : Nat) (m : ListElements Int) (id : Int) (seen : List Int)
    (m2 : ListElements Int) (s2 : List Int) (r : Int)
    (h : _findAndUpdateListElementId fuel m id seen = some (m2, s2, r)) :
    m2.length = m.length := by
  have := congrArg List.length (find_keys fuel m id seen m2 s2 r h)
  simpa using this

/-- Enough fuel: one more than the number of entries not yet seen. -/
theorem find_some (fuel : Nat) : ∀ (m : ListElements Int) (id : Int) (seen : List Int),
    unseen m seen < fuel → ∃ r, _findAndUpdateListElementId fuel m id seen = some r := by
  induction fuel with
  | zero => intro m id seen h; omega
  | succ fuel ih =>
    intro m id seen h
    unfold _findAndUpdateListElementId
    rcases findStep_cases m id seen with ⟨_, e⟩ | ⟨_, _, _, e⟩ | ⟨_, _, _, _, e⟩ |
      ⟨_, _, _, _, _, e⟩ | ⟨x, hx, _, hs, _, e⟩
    all_goals rw [e]
    · exact ⟨_, rfl⟩
    · exact ⟨_, rfl⟩
    · exact ⟨_, rfl⟩
    · exact ⟨_, rfl⟩
    · have hlt := unseen_cons_lt m id seen (by rw [hx]; simp) hs
      obtain ⟨⟨m3, s3, r3⟩, h3⟩ := ih m x.m_parentId (id :: seen) (by omega)
      simp only [h3]
      exact ⟨_, rfl⟩

theorem updateLoop_some (fuel : Nat) (rest : List (Int × Option ABWListElement)) :
    ∀ (m : ListElements Int) (seens : List Int), m.length < fuel →
    ∃ r, updateLoop fuel rest m seens = some r := by
  induction rest with
  | nil => intro m seens _; exact ⟨_, rfl⟩
  | cons x rest ih =>
    intro m seens h
    obtain ⟨k, v⟩ := x
    cases v with
    | none => exact ih m seens h
    | some v =>
      obtain ⟨⟨m1, s1, r1⟩, h1⟩ := find_some fuel m k seens
        (lt_of_le_of_lt (unseen_le m seens) h)
      have hl := find_length fuel m k seens m1 s1 r1 h1
      unfold updateLoop
      simp only [h1]
      exact ih m1 s1 (by omega)

/-- More fuel does not change a result. -/
theorem find_mono (fuel : Nat) : ∀ (m : ListElements Int) (id : Int) (seen : List Int)
    (r : ListElements Int × List Int × Int),
    _findAndUpdateListElementId fuel m id seen = some r →
    _findAndUpdateListElementId (fuel + 1) m id seen = some r := by
  induction fuel with
  | zero => intro m id seen r h; simp [_findAndUpdateListElementId] at h
  | succ fuel ih =>
    intro m id seen r h
    unfold _findAndUpdateListElementId at h ⊢
    cases hs : findStep m id seen with
    | done m1 s1 r1 => rw [hs] at h; exact h
    | recurse m1 s1 p =>
      rw [hs] at h
      simp only at h ⊢
      cases h3 : _findAndUpdateListElementId fuel m1 p s1 with
      | none => rw [h3] at h; cases h
      | some r3 =>
        rw [h3] at h
        rw [ih _ _ _ _ h3]
        exact h

theorem rel_refl (r : Int) (m : ListElements Int) : Rel r m m := by
  intro k
  cases h : mapFind m k with
  | none => rfl
  | some v =>
    cases v with
    | none => rfl
    | some e => exact ⟨e, rfl, rfl, Or.inl rfl⟩

theorem evolves_refl (m : ListElements Int) : Evolves m m := by
  intro k
  cases h : mapFind m k with
  | none => rfl
  | some v =>
    cases v with
    | none => rfl
    | some e => exact ⟨e, rfl, rfl, fun _ => rfl⟩

theorem evolves_trans {a b c : ListElements Int} (h1 : Evolves a b) (h2 : Evolves b c) :
    Evolves a c := by
  intro k
  have g1 := h1 k
  have g2 := h2 k
  cases h : mapFind a k with
  | none => rw [h] at g1; simp only at g1; rw [g1] at g2; exact g2
  | some v =>
    cases v with
    | none => rw [h] at g1; simp only at g1; rw [g1] at g2; exact g2
    | some e =>
      rw [h] at g1
      obtain ⟨e2, hb, hk, hs⟩ := g1
      rw [hb] at g2
      obtain ⟨e3, hc, hk3, hs3⟩ := g2
      refine ⟨e3, hc, hk3.trans hk, fun hne => ?_⟩
      have := hs hne
      subst this
      exact hs3 hne

theorem evolves_of_rel {r : Int} {m m2 : ListElements Int} (h : Rel r m m2) : Evolves m m2 := by
  intro k
  have g := h k
  cases hk : mapFind m k with
  | none => rw [hk] at g; exact g
  | some v =>
    cases v with
    | none => rw [hk] at g; exact g
    | some e =>
      rw [hk] at g
      obtain ⟨e2, h2, hkind, hu⟩ := g
      refine ⟨e2, h2, hkind, fun hne => ?_⟩
      rcases hu with hu | ⟨h0, _⟩
      · exact hu
      · exact absurd h0 hne

/-- A change of the element under `id` alone, allowed by `Upd`, gives `Rel`. -/
theorem rel_of_modify (r id : Int) (m : ListElements Int) (e : ABWListElement)
    (f : ABWListElement → ABWListElement) (he : mapFind m id = some (some e))
    (hu : Upd r id e (f e)) : Rel r m (modifyElem f m id) := by
  intro k
  by_cases hk : k = id
  · subst hk
    rw [he, mapFind_modifyElem_self, he]
    exact ⟨f e, rfl, hu⟩
  · rw [mapFind_modifyElem_ne _ _ _ _ hk]
    exact rel_refl r m k

/-- After a call `Rel` holds between the map before and the map after. -/
theorem find_rel (fuel : Nat) : ∀ (m : ListElements Int) (id : Int) (seen : List Int)
    (m2 : ListElements Int) (s2 : List Int) (r : Int),
    _findAndUpdateListElementId fuel m id seen = some (m2, s2, r) → Rel r m m2 := by
  induction fuel with
  | zero => intro m id seen m2 s2 r h; simp [_findAndUpdateListElementId] at h
  | succ fuel ih =>
    intro m id seen m2 s2 r h
    unfold _findAndUpdateListElementId at h
    rcases findStep_cases m id seen with ⟨_, e⟩ | ⟨_, _, _, e⟩ | ⟨x, hx, hl, _, e⟩ |
      ⟨x, hx, hl, _, hp, e⟩ | ⟨x, hx, hl, _, hp, e⟩
    all_goals rw [e] at h
    · simp at h; rw [← h.1]; exact rel_refl _ _
    · simp at h; rw [← h.1]; exact rel_refl _ _
    · simp at h
      obtain ⟨h1, _, h3⟩ := h
      subst h1 h3
      intro k
      by_cases hk : k = id
      · subst hk
        rw [hx, mapFind_modifyElem_self, mapFind_modifyElem_self, hx]
        exact ⟨_, rfl, rfl, Or.inr ⟨hl, rfl, Or.inr ⟨rfl, rfl⟩⟩⟩
      · rw [mapFind_modifyElem_ne _ _ _ _ hk, mapFind_modifyElem_ne _ _ _ _ hk]
        exact rel_refl _ m k
    · simp at h
      obtain ⟨h1, _, h3⟩ := h
      subst h1 h3
      exact rel_of_modify _ _ m x _ hx ⟨rfl, Or.inr ⟨hl, rfl, Or.inl rfl⟩⟩
    · simp only at h
      split at h
      · cases h
      · next m3 s3 r3 h3 =>
        simp at h
        obtain ⟨h1, _, hr⟩ := h
        subst h1 hr
        have hrel := ih _ _ _ _ _ _ h3
        intro k
        have g := hrel k
        by_cases hk : k = id
        · subst hk
          rw [hx] at g ⊢
          obtain ⟨e2, h2, hkind, hu⟩ := g
          rw [mapFind_modifyElem_self, h2]
          refine ⟨_, rfl, hkind, ?_⟩
          rcases hu with hu | ⟨h0, hr, hpar⟩
          · subst hu
            exact Or.inr ⟨hl, rfl, Or.inl rfl⟩
          · right
            exact ⟨h0, rfl, hpar⟩
        · rw [mapFind_modifyElem_ne _ _ _ _ hk]
          exact g

theorem updateLoop_evolves (fuel : Nat) (rest : List (Int × Option ABWListElement)) :
    ∀ (m : ListElements Int) (seens : List Int) (m2 : ListElements Int) (s2 : List Int),
    updateLoop fuel rest m seens = some (m2, s2) → Evolves m m2 := by
  induction rest with
  | nil =>
    intro m seens m2 s2 h
    simp [updateLoop] at h
    rw [← h.1]; exact evolves_refl _
  | cons x rest ih =>
    intro m seens m2 s2 h
    obtain ⟨k, v⟩ := x
    cases v with
    | none => exact ih m seens m2 s2 h
    | some v =>
      unfold updateLoop at h
      split at h
      · cases h
      · next m1 s1 r1 h1 =>
        exact evolves_trans (evolves_of_rel (find_rel fuel _ _ _ _ _ _ h1)) (ih _ _ _ _ h)

theorem updateListElementIds_evolves (m m2 : ListElements Int)
    (h : updateListElementIds m = some m2) : Evolves m m2 := by
  unfold updateListElementIds at h
  cases hl : updateLoop (m.length + 1) m m [] with
  | none => rw [hl] at h; cases h
  | some r =>
    obtain ⟨m3, s3⟩ := r
    rw [hl] at h
    simp at h
    subst h
    exact updateLoop_evolves _ _ _ _ _ _ hl

theorem updateListElementIds_some (m : ListElements Int) :
    ∃ m2, updateListElementIds m = some m2 := by
  obtain ⟨⟨m2, s2⟩, h⟩ := updateLoop_some (m.length + 1) m m [] (Nat.lt_succ_self _)
  exact ⟨m2, by unfold updateListElementIds; rw [h]; rfl⟩

theorem resolvesTo_elem {m : ListElements Int} {k r : Int} (h : ResolvesTo m k r) :
    ∃ e, mapFind m k = some (some e) ∧ e.m_listId = r := by
  cases h with
  | root h1 _ h3 => exact ⟨_, h1, h3⟩
  | step h1 _ h3 _ => exact ⟨_, h1, h3⟩

/-- A chain of resolved elements survives every change that leaves resolved
elements alone. -/
theorem resolvesTo_mono {m m2 : ListElements Int} {k r : Int}
    (hs : ∀ j e, mapFind m j = some (some e) → e.m_listId ≠ 0 → mapFind m2 j = some (some e))
    (h : ResolvesTo m k r) (hr : r ≠ 0) : ResolvesTo m2 k r := by
  induction h with
  | root h1 h2 h3 => exact .root (hs _ _ h1 (by rw [h3]; exact hr)) h2 h3
  | step h1 h2 h3 _ ih => exact .step (hs _ _ h1 (by rw [h3]; exact hr)) h2 h3 (ih hr)

theorem evolves_stable {m m2 : ListElements Int} (h : Evolves m m2) :
    ∀ j e, mapFind m j = some (some e) → e.m_listId ≠ 0 → mapFind m2 j = some (some e) := by
  intro j e he hne
  have g := h j
  rw [he] at g
  obtain ⟨e2, h2, _, hs⟩ := g
  rw [h2, hs hne]

/-- The invariant `Inv` passes from `m` to `m2` when every element of `m2` is an element of `m`
or satisfies `Inv` by itself. -/
theorem inv_of_rel {r : Int} {m m2 : ListElements Int} (hinv : Inv m) (hrel : Rel r m m2)
    (hnew : ∀ k e e2, mapFind m k = some (some e) → mapFind m2 k = some (some e2) → e2 ≠ e →
      e2.m_listId ≠ 0 → ResolvesTo m2 k e2.m_listId) : Inv m2 := by
  intro k e2 h2 hne
  have g := hrel k
  cases hk : mapFind m k with
  | none => rw [hk] at g; simp only at g; rw [g] at h2; cases h2
  | some v =>
    cases v with
    | none => rw [hk] at g; simp only at g; rw [g] at h2; cases h2
    | some e =>
      by_cases heq : e2 = e
      · subst heq
        exact resolvesTo_mono (evolves_stable (evolves_of_rel hrel)) (hinv k e2 hk hne) hne
      · exact hnew k e e2 hk h2 heq hne

theorem find_inv (fuel : Nat) : ∀ (m : ListElements Int) (id : Int) (seen : List Int)
    (m2 : ListElements Int) (s2 : List Int) (r : Int), Inv m →
    _findAndUpdateListElementId fuel m id seen = some (m2, s2, r) →
    Inv m2 ∧ (r ≠ 0 → ResolvesTo m2 id r) := by
  induction fuel with
  | zero => intro m id seen m2 s2 r _ h; simp [_findAndUpdateListElementId] at h
  | succ fuel ih =>
    intro m id seen m2 s2 r hinv h
    have hrel := find_rel _ _ _ _ _ _ _ h
    unfold _findAndUpdateListElementId at h
    rcases findStep_cases m id seen with ⟨_, e⟩ | ⟨x, hx, hl, e⟩ | ⟨x, hx, hl, _, e⟩ |
      ⟨x, hx, hl, _, hp, e⟩ | ⟨x, hx, hl, _, hp, e⟩
    all_goals rw [e] at h
    · simp at h
      obtain ⟨h1, _, h3⟩ := h
      subst h1 h3
      exact ⟨hinv, fun hne => absurd rfl hne⟩
    · simp at h
      obtain ⟨h1, _, h3⟩ := h
      subst h1 h3
      exact ⟨hinv, fun _ => hinv id x hx hl⟩
    · simp at h
      obtain ⟨h1, _, h3⟩ := h
      subst h1 h3
      have hroot : ResolvesTo
          (modifyElem (fun e => { e with m_listId := id })
            (modifyElem (fun e => { e with m_parentId := 0 }) m id) id) id id :=
        .root (e := { x with m_parentId := 0, m_listId := id })
          (by rw [mapFind_modifyElem_self, mapFind_modifyElem_self, hx]; rfl) rfl rfl
      refine ⟨inv_of_rel hinv hrel ?_, fun _ => hroot⟩
      intro k e1 e2 h1 h2 hne _
      by_cases hk : k = id
      · subst hk
        rw [mapFind_modifyElem_self, mapFind_modifyElem_self, hx] at h2
        simp at h2; subst h2
        exact hroot
      · rw [mapFind_modifyElem_ne _ _ _ _ hk, mapFind_modifyElem_ne _ _ _ _ hk, h1] at h2
        simp at h2; exact absurd h2.symm hne
    · simp at h
      obtain ⟨h1, _, h3⟩ := h
      subst h1 h3
      have hroot : ResolvesTo (modifyElem (fun e => { e with m_listId := id }) m id) id id :=
        .root (e := { x with m_listId := id })
          (by rw [mapFind_modifyElem_self, hx]; rfl) hp rfl
      refine ⟨inv_of_rel hinv hrel ?_, fun _ => hroot⟩
      intro k e1 e2 h1 h2 hne _
      by_cases hk : k = id
      · subst hk
        rw [mapFind_modifyElem_self, hx] at h2
        simp at h2; subst h2
        exact hroot
      · rw [mapFind_modifyElem_ne _ _ _ _ hk, h1] at h2
        simp at h2; exact absurd h2.symm hne
    · simp only at h
      split at h
      · cases h
      · next m3 s3 r3 h3 =>
        simp at h
        obtain ⟨h1, _, hr⟩ := h
        subst h1 hr
        obtain ⟨hinv3, hres3⟩ := ih _ _ _ _ _ _ hinv h3
        have hrel3 := find_rel _ _ _ _ _ _ _ h3
        -- the element under `id` after the nested call
        have g := hrel3 id
        rw [hx] at g
        obtain ⟨e3, he3, _, hu⟩ := g
        -- resolved elements of `m3` are untouched by the final assignment
        have hst : ∀ j e, mapFind m3 j = some (some e) → e.m_listId ≠ 0 →
            mapFind (modifyElem (fun e => { e with m_listId := r3 }) m3 id) j
              = some (some e) := by
          intro j e hj hne
          by_cases hjid : j = id
          · subst hjid
            rw [he3] at hj
            simp at hj; subst hj
            rw [mapFind_modifyElem_self, he3]
            have : e3.m_listId = r3 := by
              rcases hu with hu | ⟨_, hu, _⟩
              · rw [hu] at hne; exact absurd hl hne
              · exact hu
            simp only [Option.map_some']
            rw [← this]
          · rw [mapFind_modifyElem_ne _ _ _ _ hjid, hj]
        have hid : r3 ≠ 0 →
            ResolvesTo (modifyElem (fun e => { e with m_listId := r3 }) m3 id) id r3 := by
          intro hr
          have hpar := resolvesTo_mono hst (hres3 hr) hr
          have hfind : mapFind (modifyElem (fun e => { e with m_listId := r3 }) m3 id) id
              = some (some { e3 with m_listId := r3 }) := by
            rw [mapFind_modifyElem_self, he3]; rfl
          rcases hu with hu | ⟨_, _, hpar3 | ⟨hpar3, hrk⟩⟩
          · subst hu
            exact .step hfind hp rfl hpar
          · exact .step hfind (by show e3.m_parentId ≠ 0; rw [hpar3]; exact hp) rfl
              (by show ResolvesTo _ e3.m_parentId r3; rw [hpar3]; exact hpar)
          · subst hrk
            exact .root hfind hpar3 rfl
        refine ⟨?_, hid⟩
        intro k e2 h2 hne
        by_cases hk : k = id
        · subst hk
          rw [mapFind_modifyElem_self, he3] at h2
          simp at h2; subst h2
          exact hid hne
        · rw [mapFind_modifyElem_ne _ _ _ _ hk] at h2
          exact resolvesTo_mono hst (hinv3 k e2 h2 hne) hne

theorem orig_refl (m : ListElements Int) : Orig m m := by
  intro k
  cases h : mapFind m k with
  | none => rfl
  | some v =>
    cases v with
    | none => rfl
    | some e => exact ⟨e, rfl, fun _ => Or.inr rfl⟩

theorem orig_of_rel {r : Int} {m0 m m2 : ListElements Int} (ho : Orig m0 m) (hrel : Rel r m m2) :
    Orig m0 m2 := by
  intro k
  have g := hrel k
  have o := ho k
  cases hk : mapFind m k with
  | none => rw [hk] at g o; simp only at g o; rw [g]; exact o
  | some v =>
    cases v with
    | none => rw [hk] at g o; simp only at g o; rw [g]; exact o
    | some e =>
      rw [hk] at g o
      obtain ⟨e2, h2, _, hu⟩ := g
      obtain ⟨e0, h0, hpar⟩ := o
      rw [h2]
      refine ⟨e0, h0, fun hz => ?_⟩
      rcases hu with hu | ⟨hl, hr, hp | ⟨_, hrk⟩⟩
      · subst hu; exact hpar hz
      · rcases hpar hl with h | h
        · exact Or.inl h
        · exact Or.inr (hp.trans h)
      · left; rw [← hrk, ← hr, hz]

/-- A call that returns 0 was made on key 0 or on an id whose parent chain in the
original map dangles. -/
theorem find_dangles (m0 : ListElements Int) (fuel : Nat) : ∀ (m : ListElements Int)
    (id : Int) (seen : List Int) (m2 : ListElements Int) (s2 : List Int) (r : Int),
    Orig m0 m → _findAndUpdateListElementId fuel m id seen = some (m2, s2, r) → r = 0 →
    id = 0 ∨ Dangles m0 id := by
  induction fuel with
  | zero => intro m id seen m2 s2 r _ h; simp [_findAndUpdateListElementId] at h
  | succ fuel ih =>
    intro m id seen m2 s2 r ho h hr
    have o := ho id
    unfold _findAndUpdateListElementId at h
    rcases findStep_cases m id seen with ⟨hx, e⟩ | ⟨x, hx, hl, e⟩ | ⟨x, hx, hl, _, e⟩ |
      ⟨x, hx, hl, _, hp, e⟩ | ⟨x, hx, hl, _, hp, e⟩
    all_goals rw [e] at h
    · rcases hx with hx | hx
      · rw [hx] at o; exact Or.inr (.absent o)
      · rw [hx] at o; exact Or.inr (.null o)
    · simp at h
      exact absurd (h.2.2.trans hr) hl
    · simp at h
      exact Or.inl (h.2.2.trans hr)
    · simp at h
      exact Or.inl (h.2.2.trans hr)
    · simp only at h
      split at h
      · cases h
      · next m3 s3 r3 h3 =>
        simp at h
        obtain ⟨_, _, hr3⟩ := h
        rw [hx] at o
        obtain ⟨e0, h0, hpar⟩ := o
        rcases hpar hl with hz | hpe
        · exact Or.inl hz
        · rcases ih _ _ _ _ _ _ ho h3 (hr3.trans hr) with hz | hd
          · exact absurd hz hp
          · right
            exact .step h0 (by rw [← hpe]; exact hp) (by rw [← hpe]; exact hd)

theorem mapFind_mem {K V : Type} [DecidableEq K] (m : List (K × V)) (k : K) (v : V)
    (h : mapFind m k = some v) : (k, v) ∈ m := by
  induction m with
  | nil => cases h
  | cons x m ih =>
    obtain ⟨k', v'⟩ := x
    by_cases hk : k' = k
    · subst hk
      simp [mapFind] at h
      subst h
      exact List.mem_cons_self _ _
    · simp [mapFind, hk] at h
      exact List.mem_cons_of_mem _ (ih h)

/-- The loop keeps `Inv` and `Orig`, and every visited entry is afterwards resolved
or known to dangle. -/
theorem updateLoop_inv (m0 : ListElements Int) (fuel : Nat)
    (rest : List (Int × Option ABWListElement)) :
    ∀ (m : ListElements Int) (seens : List Int) (m2 : ListElements Int) (s2 : List Int),
    Inv m → Orig m0 m → updateLoop fuel rest m seens = some (m2, s2) →
    Inv m2 ∧ Orig m0 m2 ∧
      ∀ k v, (k, some v) ∈ rest → ∀ e2, mapFind m2 k = some (some e2) → e2.m_listId = 0 →
        k = 0 ∨ Dangles m0 k := by
  induction rest with
  | nil =>
    intro m seens m2 s2 hinv ho h
    simp [updateLoop] at h
    rw [← h.1]
    exact ⟨hinv, ho, fun k v hm => by cases hm⟩
  | cons x rest ih =>
    intro m seens m2 s2 hinv ho h
    obtain ⟨k, v⟩ := x
    cases v with
    | none =>
      obtain ⟨h1, h2, h3⟩ := ih m seens m2 s2 hinv ho h
      refine ⟨h1, h2, fun j w hm => ?_⟩
      rcases List.mem_cons.1 hm with hm | hm
      · cases hm
      · exact h3 j w hm
    | some v =>
      unfold updateLoop at h
      split at h
      · cases h
      · next m1 s1 r1 hf =>
        have hrel := find_rel _ _ _ _ _ _ _ hf
        obtain ⟨hinv1, hres1⟩ := find_inv _ _ _ _ _ _ _ hinv hf
        have ho1 := orig_of_rel ho hrel
        obtain ⟨h1, h2, h3⟩ := ih m1 s1 m2 s2 hinv1 ho1 h
        refine ⟨h1, h2, fun j w hm e2 he2 hz => ?_⟩
        rcases List.mem_cons.1 hm with hm | hm
        · simp only [Prod.mk.injEq] at hm
          obtain ⟨hj, _⟩ := hm
          subst hj
          by_cases hr : r1 = 0
          · exact find_dangles m0 _ _ _ _ _ _ _ ho hf hr
          · exfalso
            obtain ⟨e1, he1, hl1⟩ := resolvesTo_elem (hres1 hr)
            have := evolves_stable (updateLoop_evolves _ _ _ _ _ _ h) j e1 he1 (by rw [hl1]; exact hr)
            rw [this] at he2
            simp at he2
            rw [← he2, hl1] at hz
            exact hr hz
        · exact h3 j w hm e2 he2 hz

theorem resolvesTo_root_elem {m : ListElements Int} {k r : Int} (h : ResolvesTo m k r) :
    ∃ e, mapFind m r = some (some e) ∧ e.m_parentId = 0 ∧ e.m_listId = r := by
  induction h with
  | root h1 h2 h3 => exact ⟨_, h1, h2, h3⟩
  | step _ _ _ _ ih => exact ih

theorem find_of_resolved (fuel : Nat) (m : ListElements Int) (id : Int) (seen : List Int)
    (h : ∀ k e, mapFind m k = some (some e) → e.m_listId ≠ 0) :
    ∃ r, _findAndUpdateListElementId (fuel + 1) m id seen = some (m, seen, r) := by
  unfold _findAndUpdateListElementId
  rcases findStep_cases m id seen with ⟨_, e⟩ | ⟨_, _, _, e⟩ | ⟨x, hx, hl, _⟩ |
    ⟨x, hx, hl, _⟩ | ⟨x, hx, hl, _⟩
  · rw [e]; exact ⟨_, rfl⟩
  · rw [e]; exact ⟨_, rfl⟩
  · exact absurd hl (h id x hx)
  · exact absurd hl (h id x hx)
  · exact absurd hl (h id x hx)

theorem updateLoop_of_resolved (fuel : Nat) (m : ListElements Int)
    (h : ∀ k e, mapFind m k = some (some e) → e.m_listId ≠ 0)
    (rest : List (Int × Option ABWListElement)) :
    ∀ seens : List Int, updateLoop (fuel + 1) rest m seens = some (m, seens) := by
  induction rest with
  | nil => intro seens; rfl
  | cons x rest ih =>
    intro seens
    obtain ⟨k, v⟩ := x
    cases v with
    | none => exact ih seens
    | some v =>
      obtain ⟨r, hr⟩ := find_of_resolved fuel m k seens h
      unfold updateLoop
      simp only [hr]
      exact ih seens

theorem updateLoop_keys (fuel : Nat) (rest : List (Int × Option ABWListElement)) :
    ∀ (m : ListElements Int) (seens : List Int) (m2 : ListElements Int) (s2 : List Int),
    updateLoop fuel rest m seens = some (m2, s2) → m2.map Prod.fst = m.map Prod.fst := by
  induction rest with
  | nil =>
    intro m seens m2 s2 h
    simp [updateLoop] at h
    rw [← h.1]
  | cons x rest ih =>
    intro m seens m2 s2 h
    obtain ⟨k, v⟩ := x
    cases v with
    | none => exact ih m seens m2 s2 h
    | some v =>
      unfold updateLoop at h
      split at h
      · cases h
      · next m1 s1 r1 h1 =>
        rw [ih _ _ _ _ h, find_keys _ _ _ _ _ _ _ h1]

/-- C1. For every list-definition map, whatever its parent ids are, every call of
`_findAndUpdateListElementId` either returns without calling itself or first
puts its id, a key of the map that was not yet seen, into the seen set and
leaves the map as it is; a call therefore never nests deeper than the number
of entries plus one (that much fuel always gives a result, and more fuel gives
the same one), and `updateListElementIds` returns. Self-references, cycles and
dangling parents are among the maps covered, as the three examples show. -/
theorem updateListElementIds_terminates (m : ListElements Int) :
    (∀ (id : Int) (seen : List Int) (m1 : ListElements Int) (seen1 : List Int) (p : Int),
      findStep m id seen = .recurse m1 seen1 p →
        id ∉ seen ∧ id ∈ m.map Prod.fst ∧ seen1 = id :: seen ∧ m1 = m) ∧
    (∀ (id : Int) (seen : List Int),
      ∃ r, _findAndUpdateListElementId (m.length + 1) m id seen = some r ∧
        ∀ n, _findAndUpdateListElementId (m.length + 1 + n) m id seen = some r) ∧
    (∃ m2, updateListElementIds m = some m2 ∧ m2.map Prod.fst = m.map Prod.fst) ∧
    updateListElementIds
        [(1, some ⟨.unordered [], 1, 0⟩)] = some [(1, some ⟨.unordered [], 0, 1⟩)] ∧
    updateListElementIds
        [(1, some ⟨.unordered [], 2, 0⟩), (2, some ⟨.unordered [], 3, 0⟩),
         (3, some ⟨.unordered [], 1, 0⟩)] =
      some [(1, some ⟨.unordered [], 0, 1⟩), (2, some ⟨.unordered [], 3, 1⟩),
         (3, some ⟨.unordered [], 1, 1⟩)] ∧
    updateListElementIds
        [(1, some ⟨.unordered [], 99, 0⟩)] = some [(1, some ⟨.unordered [], 99, 0⟩)] := by
  refine ⟨?_, ?_, ?_, by decide, by decide, by decide⟩
  · intro id seen m1 seen1 p h
    rcases findStep_cases m id seen with ⟨_, e⟩ | ⟨_, _, _, e⟩ | ⟨_, _, _, _, e⟩ |
      ⟨_, _, _, _, _, e⟩ | ⟨x, hx, _, hs, _, e⟩
    all_goals rw [e] at h
    · cases h
    · cases h
    · cases h
    · cases h
    · simp only [FindStep.recurse.injEq] at h
      obtain ⟨h1, h2, _⟩ := h
      refine ⟨hs, ?_, h2.symm, h1.symm⟩
      exact List.mem_map.2 ⟨_, mapFind_mem m id _ hx, rfl⟩
  · intro id seen
    obtain ⟨r, hr⟩ := find_some (m.length + 1) m id seen
      (lt_of_le_of_lt (unseen_le m seen) (Nat.lt_succ_self _))
    refine ⟨r, hr, fun n => ?_⟩
    induction n with
    | zero => exact hr
    | succ n ih => exact find_mono _ _ _ _ _ ih
  · obtain ⟨m2, h2⟩ := updateListElementIds_some m
    refine ⟨m2, h2, ?_⟩
    have hev := updateListElementIds_evolves m m2 h2
    unfold updateListElementIds at h2
    cases hl : updateLoop (m.length + 1) m m [] with
    | none => rw [hl] at h2; cases h2
    | some r =>
      obtain ⟨m3, s3⟩ := r
      rw [hl] at h2
      simp at h2
      subst h2
      exact updateLoop_keys _ _ _ _ _ _ hl

/-- Witness of C1: in the map 1 -> 2 the call on 1 with nothing seen calls itself
on 2 after putting 1 into the seen set. -/
theorem updateListElementIds_terminates_witness :
    (1 : Int) ∉ ([] : List Int) ∧
    (1 : Int) ∈ ([(1, some ⟨.unordered [], 2, 0⟩)] : ListElements Int).map Prod.fst ∧
    [(1 : Int)] = 1 :: [] ∧
    ([(1, some ⟨.unordered [], 2, 0⟩)] : ListElements Int) = [(1, some ⟨.unordered [], 2, 0⟩)] :=
  (updateListElementIds_terminates [(1, some ⟨.unordered [], 2, 0⟩)]).1 1 []
    [(1, some ⟨.unordered [], 2, 0⟩)] [1] 2 (by decide)

/-- A property of the elements of a map, checked entry by entry. -/
theorem forall_elem_of_all (m : ListElements Int) (P : ABWListElement → Bool)
    (h : ∀ x ∈ m, (x.2.all P) = true) :
    ∀ k e, mapFind m k = some (some e) → P e = true := by
  intro k e he
  simpa using h _ (mapFind_mem m k _ he)

/-- C2 as stated fails for a dangling parent: the single element 1 with parent 99
(not in the map) ends with `m_listId` 0, which is not its own id and not the id
of any element of the map. -/
theorem dangling_parent_counterexample :
    ∃ m2, updateListElementIds [(1, some ⟨.unordered [], 99, 0⟩)] = some m2 ∧
      m2.map Prod.fst = [1] ∧
      ∃ e, mapFind m2 1 = some (some e) ∧ e.m_listId = 0 ∧ e.m_listId ≠ 1 ∧
        mapFind m2 e.m_parentId = none ∧ e.m_listId ∉ m2.map Prod.fst :=
  ⟨[(1, some ⟨.unordered [], 99, 0⟩)], by decide, by decide,
    ⟨.unordered [], 99, 0⟩, by decide, by decide, by decide, by decide, by decide⟩

/-- C2, amended. For every list-definition map whose elements all start
unresolved, cycles and dangling parents included, `updateListElementIds` returns
and every element then either has a non-zero `m_listId` r that is its own id
(it is a root: no parent) or the id of the root at which its parent chain ends,
every element on the chain carrying the same r; or it is left with `m_listId`
0, which happens only under key 0 or when its parent chain in the original map
runs into an id that is absent or null (a dangling parent reference). -/
theorem updateListElementIds_resolves (m : ListElements Int)
    (h0 : ∀ k e, mapFind m k = some (some e) → e.m_listId = 0) :
    ∃ m2, updateListElementIds m = some m2 ∧
      ∀ k e2, mapFind m2 k = some (some e2) →
        (e2.m_listId ≠ 0 ∧ ResolvesTo m2 k e2.m_listId ∧
          ∃ root, mapFind m2 e2.m_listId = some (some root) ∧ root.m_parentId = 0 ∧
            root.m_listId = e2.m_listId) ∨
        (e2.m_listId = 0 ∧ (k = 0 ∨ Dangles m k)) := by
  obtain ⟨m2, h2⟩ := updateListElementIds_some m
  refine ⟨m2, h2, ?_⟩
  have hev := updateListElementIds_evolves m m2 h2
  have hinv : Inv m := fun k e he hne => absurd (h0 k e he) hne
  unfold updateListElementIds at h2
  cases hl : updateLoop (m.length + 1) m m [] with
  | none => rw [hl] at h2; cases h2
  | some r =>
    obtain ⟨m3, s3⟩ := r
    rw [hl] at h2
    simp at h2
    subst h2
    obtain ⟨hinv3, _, hvis⟩ := updateLoop_inv m _ _ _ _ _ _ hinv (orig_refl m) hl
    intro k e2 he2
    by_cases hz : e2.m_listId = 0
    · right
      refine ⟨hz, ?_⟩
      have g := hev k
      cases hk : mapFind m k with
      | none => rw [hk] at g; simp only at g; rw [g] at he2; cases he2
      | some v =>
        cases v with
        | none => rw [hk] at g; simp only at g; rw [g] at he2; cases he2
        | some e => exact hvis k e (mapFind_mem m k _ hk) e2 he2 hz
    · left
      have hres := hinv3 k e2 he2 hz
      exact ⟨hz, hres, resolvesTo_root_elem hres⟩

/-- Witness of C2: a cycle 1 -> 2 -> 3 -> 1 with a tail 4 -> 3 and an element 5
whose parent 99 is not in the map. -/
theorem updateListElementIds_resolves_witness :
    ∃ m2, updateListElementIds
        [(1, some ⟨.unordered [], 2, 0⟩), (2, some ⟨.unordered [], 3, 0⟩),
         (3, some ⟨.unordered [], 1, 0⟩), (4, some ⟨.unordered [], 3, 0⟩),
         (5, some ⟨.unordered [], 99, 0⟩)] = some m2 ∧
      ∀ k e2, mapFind m2 k = some (some e2) →
        (e2.m_listId ≠ 0 ∧ ResolvesTo m2 k e2.m_listId ∧
          ∃ root, mapFind m2 e2.m_listId = some (some root) ∧ root.m_parentId = 0 ∧
            root.m_listId = e2.m_listId) ∨
        (e2.m_listId = 0 ∧ (k = 0 ∨ Dangles
          [(1, some ⟨.unordered [], 2, 0⟩), (2, some ⟨.unordered [], 3, 0⟩),
           (3, some ⟨.unordered [], 1, 0⟩), (4, some ⟨.unordered [], 3, 0⟩),
           (5, some ⟨.unordered [], 99, 0⟩)] k)) :=
  updateListElementIds_resolves _ (fun k e he => by
    simpa using forall_elem_of_all _ (fun e => decide (e.m_listId = 0)) (by decide) k e he)

/-- C3 as stated fails: with 1 -> 2 and 2 -> 99 (99 not in the map) the first run
leaves element 1 unresolved and turns element 2 into a root; the second run
then resolves element 1 to 2. -/
theorem second_run_counterexample :
    ∃ m1 m2, updateListElementIds
        [(1, some ⟨.unordered [], 2, 0⟩), (2, some ⟨.unordered [], 99, 0⟩)] = some m1 ∧
      updateListElementIds m1 = some m2 ∧
      mapFind m1 1 = some (some ⟨.unordered [], 2, 0⟩) ∧
      mapFind m2 1 = some (some ⟨.unordered [], 2, 2⟩) ∧
      mapFind m2 1 ≠ mapFind m1 1 :=
  ⟨[(1, some ⟨.unordered [], 2, 0⟩), (2, some ⟨.unordered [], 0, 2⟩)],
   [(1, some ⟨.unordered [], 2, 2⟩), (2, some ⟨.unordered [], 0, 2⟩)],
   by decide, by decide, by decide, by decide, by decide⟩

/-- C3, amended. Resolving a map in which every element is already resolved
(non-zero `m_listId`) changes nothing; and a run never changes an element that
is resolved when the run starts, so a second run leaves `m_listId` and
`m_parentId` of every element that the first run resolved exactly as they were.
Only an element that the first run left at 0 can be changed by a second run. -/
theorem updateListElementIds_idempotent_on_resolved :
    (∀ m : ListElements Int, (∀ k e, mapFind m k = some (some e) → e.m_listId ≠ 0) →
      updateListElementIds m = some m) ∧
    (∀ m m1 m2 : ListElements Int, updateListElementIds m = some m1 →
      updateListElementIds m1 = some m2 →
      ∀ k e, mapFind m1 k = some (some e) → e.m_listId ≠ 0 →
        mapFind m2 k = some (some e)) ∧
    (∀ m m1 : ListElements Int, updateListElementIds m = some m1 →
      (∀ k e, mapFind m1 k = some (some e) → e.m_listId ≠ 0) →
      updateListElementIds m1 = some m1) := by
  have h1 : ∀ m : ListElements Int, (∀ k e, mapFind m k = some (some e) → e.m_listId ≠ 0) →
      updateListElementIds m = some m := by
    intro m h
    unfold updateListElementIds
    rw [updateLoop_of_resolved m.length m h m []]
    rfl
  refine ⟨h1, ?_, fun m m1 _ h => h1 m1 h⟩
  intro m m1 m2 _ h2 k e he hne
  exact evolves_stable (updateListElementIds_evolves m1 m2 h2) k e he hne

/-- Witness of C3: the cycle 1 -> 2 -> 1 with a child 3 of 2. -/
theorem updateListElementIds_idempotent_on_resolved_witness :
    updateListElementIds
        [(1, some ⟨.unordered [], 0, 1⟩), (2, some ⟨.unordered [], 1, 1⟩),
         (3, some ⟨.unordered [], 2, 1⟩)] =
      some [(1, some ⟨.unordered [], 0, 1⟩), (2, some ⟨.unordered [], 1, 1⟩),
         (3, some ⟨.unordered [], 2, 1⟩)] ∧
    mapFind [(1, some ⟨.unordered [], 0, 1⟩), (2, some ⟨.unordered [], 1, 1⟩),
         (3, some (⟨.unordered [], 2, 1⟩ : ABWListElement))] 3 =
      some (some ⟨.unordered [], 2, 1⟩) :=
  ⟨updateListElementIds_idempotent_on_resolved.1 _ (fun k e he => by
      simpa using forall_elem_of_all _ (fun e => decide (e.m_listId ≠ 0)) (by decide) k e he),
   updateListElementIds_idempotent_on_resolved.2.1
     [(1, some ⟨.unordered [], 2, 0⟩), (2, some ⟨.unordered [], 1, 0⟩),
      (3, some ⟨.unordered [], 2, 0⟩)]
     [(1, some ⟨.unordered [], 0, 1⟩), (2, some ⟨.unordered [], 1, 1⟩),
      (3, some ⟨.unordered [], 2, 1⟩)]
     [(1, some ⟨.unordered [], 0, 1⟩), (2, some ⟨.unordered [], 1, 1⟩),
      (3, some ⟨.unordered [], 2, 1⟩)]
     (by decide) (by decide) 3 _ (by decide) (by decide)⟩

/-! ## List definitions end to end: claim C10 -/

theorem collectList_ordered_eq (c : ABWStylesCollector) (id : Str)
    (listDecimal parentid : Option Str) :
    collectList (some id) listDecimal (some "%L.".toList) parentid (some "5".toList)
        (some "0".toList) c =
      { c with
        m_listElements :=
          mapSet c.m_listElements id (some ⟨.ordered "1".toList [] ".".toList 5, 0, 0⟩) } :=
  rfl

/-- C10. After `collectList` for a non-null id with type "0", start-value "5" and
list-delim "%L." (whatever list-decimal and parentid are), also when it is called
through `readL` for such attributes, the element stored under the id is Ordered
with numbering format "1", start value 5, empty prefix and suffix "."; and
`updateListElementIds`, run on a map that holds this element under a key k,
returns with an element under k that still is this Ordered variant. -/
theorem collectList_ordered_end_to_end (c : ABWStylesCollector) (id : Str)
    (listDecimal parentid : Option Str) :
    (∃ e, mapFind (collectList (some id) listDecimal (some "%L.".toList) parentid
          (some "5".toList) (some "0".toList) c).m_listElements id = some (some e) ∧
      e.kind = .ordered "1".toList [] ".".toList 5) ∧
    (∀ attrs : Attrs, mapFind attrs "id".toList = some id →
      mapFind attrs "type".toList = some "0".toList →
      mapFind attrs "start-value".toList = some "5".toList →
      mapFind attrs "list-delim".toList = some "%L.".toList →
      ∃ e, mapFind (readL attrs c).m_listElements id = some (some e) ∧
        e.kind = .ordered "1".toList [] ".".toList 5) ∧
    (∀ (M : ListElements Int) (k : Int),
      mapFind M k = mapFind (collectList (some id) listDecimal (some "%L.".toList) parentid
          (some "5".toList) (some "0".toList) c).m_listElements id →
      ∃ M2, updateListElementIds M = some M2 ∧
        ∃ e, mapFind M2 k = some (some e) ∧ e.kind = .ordered "1".toList [] ".".toList 5) := by
  have key : ∀ ld p : Option Str,
      mapFind (collectList (some id) ld (some "%L.".toList) p
          (some "5".toList) (some "0".toList) c).m_listElements id =
        some (some ⟨.ordered "1".toList [] ".".toList 5, 0, 0⟩) := by
    intro ld p
    rw [collectList_ordered_eq]
    exact mapFind_mapSet_self c.m_listElements id _
  refine ⟨⟨_, key _ _, rfl⟩, ?_, ?_⟩
  · intro attrs h1 h2 h3 h4
    unfold readL
    rw [h1, h2, h3, h4]
    exact ⟨_, key _ _, rfl⟩
  · intro M k hM
    rw [key] at hM
    obtain ⟨M2, h2⟩ := updateListElementIds_some M
    refine ⟨M2, h2, ?_⟩
    have g := updateListElementIds_evolves M M2 h2 k
    rw [hM] at g
    obtain ⟨e2, he2, hkind, _⟩ := g
    exact ⟨e2, he2, hkind⟩

/-- Witness of C10: the list definition `id="7" type="0" start-value="5"
list-delim="%L." parentid="3"` read by `readL`, and the resolver on the map
that holds the element under key 7 next to an unordered element 3. -/
theorem collectList_ordered_end_to_end_witness :
    (∃ e, mapFind (readL [("id".toList, "7".toList), ("parentid".toList, "3".toList),
          ("type".toList, "0".toList), ("start-value".toList, "5".toList),
          ("list-delim".toList, "%L.".toList)] emptyCollector).m_listElements "7".toList
        = some (some e) ∧
      e.kind = .ordered "1".toList [] ".".toList 5) ∧
    (∃ M2, updateListElementIds
        [(3, some ⟨.unordered "*".toList, 0, 0⟩),
         (7, some ⟨.ordered "1".toList [] ".".toList 5, 0, 0⟩)] = some M2 ∧
      ∃ e, mapFind M2 7 = some (some e) ∧ e.kind = .ordered "1".toList [] ".".toList 5) :=
  ⟨(collectList_ordered_end_to_end emptyCollector "7".toList none none).2.1 _
      (by decide) (by decide) (by decide) (by decide),
   (collectList_ordered_end_to_end emptyCollector "7".toList none none).2.2 _ 7 (by decide)⟩

/-! ## List definitions: claims C11, C12, C13 -/

/-- C11. For every non-null id the element `collectList` stores under it is
Unordered with bullet glyph "*" when the type code is absent, does not parse as
an integer, or parses to t with 5 ≤ t < 17; for every other parsed t it is
Ordered with numbering format "1" for 0, "a" for 1, "A" for 2, "i" for 3, "I"
for 4 and "1" for any other t, and with the parsed start value, or 0 when the
start value is absent or does not parse as an integer. -/
theorem collectList_kind (c : ABWStylesCollector) (id : Str)
    (listDecimal listDelim parentid startValue type : Option Str) :
    ((type = none ∨ (∃ t, type = some t ∧ findInt t = none) ∨
        (∃ t v, type = some t ∧ findInt t = some v ∧ 5 ≤ v ∧ v < 17)) →
      ∃ e, mapFind (collectList (some id) listDecimal listDelim parentid startValue type
          c).m_listElements id = some (some e) ∧ e.kind = .unordered "*".toList) ∧
    (∀ t v, type = some t → findInt t = some v → ¬ (5 ≤ v ∧ v < 17) →
      ∃ e pre suf, mapFind (collectList (some id) listDecimal listDelim parentid startValue
          type c).m_listElements id = some (some e) ∧
        e.kind = .ordered
          (if v = 0 then "1".toList else if v = 1 then "a".toList
            else if v = 2 then "A".toList else if v = 3 then "i".toList
            else if v = 4 then "I".toList else "1".toList)
          pre suf
          (match startValue with
            | none => 0
            | some s => match findInt s with
              | some n => n
              | none => 0)) := by
  constructor
  · intro h
    have hty : (match type with
        | none => (5 : Int)
        | some t => match findInt t with
          | some v => v
          | none => 5) = 5 ∨ ∃ v, (match type with
        | none => (5 : Int)
        | some t => match findInt t with
          | some v => v
          | none => 5) = v ∧ 5 ≤ v ∧ v < 17 := by
      rcases h with h | ⟨t, h, hf⟩ | ⟨t, v, h, hf, h5, h17⟩
      · subst h; exact Or.inl rfl
      · subst h; simp only [hf]; exact Or.inl trivial
      · subst h; simp only [hf]; exact Or.inr ⟨v, rfl, h5, h17⟩
    have hr : 5 ≤ (match type with
        | none => (5 : Int)
        | some t => match findInt t with
          | some v => v
          | none => 5) ∧ (match type with
        | none => (5 : Int)
        | some t => match findInt t with
          | some v => v
          | none => 5) < 17 := by
      rcases hty with h | ⟨v, h, h5, h17⟩
      · rw [h]; decide
      · rw [h]; exact ⟨h5, h17⟩
    refine ⟨⟨.unordered "*".toList, 0, 0⟩, ?_, rfl⟩
    simp only [collectList]
    rw [if_pos hr]
    exact mapFind_mapSet_self c.m_listElements id _
  · intro t v ht hf hv
    subst ht
    simp only [collectList, hf]
    rw [if_neg hv]
    exact ⟨_, _, _, mapFind_mapSet_self c.m_listElements id _, rfl⟩

/-- Witness of C11: type "7" gives a bullet, type "3" with start value "12" gives
lower roman numbering from 12. -/
theorem collectList_kind_witness :
    (∃ e, mapFind (collectList (some "1".toList) none none none none (some "7".toList)
          emptyCollector).m_listElements "1".toList = some (some e) ∧
        e.kind = .unordered "*".toList) ∧
    (∃ e pre suf, mapFind (collectList (some "1".toList) none none none (some "12".toList)
          (some "3".toList) emptyCollector).m_listElements "1".toList = some (some e) ∧
        e.kind = .ordered
          (if (3 : Int) = 0 then "1".toList else if (3 : Int) = 1 then "a".toList
            else if (3 : Int) = 2 then "A".toList else if (3 : Int) = 3 then "i".toList
            else if (3 : Int) = 4 then "I".toList else "1".toList)
          pre suf
          (match (some "12".toList : Option Str) with
            | none => 0
            | some s => match findInt s with
              | some n => n
              | none => 0)) :=
  ⟨(collectList_kind emptyCollector "1".toList none none none none (some "7".toList)).1
      (Or.inr (Or.inr ⟨_, 7, rfl, by decide, by decide, by decide⟩)),
   (collectList_kind emptyCollector "1".toList none none none (some "12".toList)
      (some "3".toList)).2 "3".toList 3 rfl (by decide) (by decide)⟩

theorem splitDelim_ne_nil (s : Str) : splitDelim s ≠ [] := by
  induction s with
  | nil => simp [splitDelim]
  | cons c cs ih =>
    cases cs with
    | nil => simp [splitDelim]
    | cons d rest =>
      unfold splitDelim
      split
      · simp
      · cases h : splitDelim (d :: rest) <;> simp [consHead]

theorem splitDelim_marker (m : Char) (b : Str) (hm : m = 'L' ∨ m = 'l') :
    splitDelim ('%' :: m :: b) = [] :: splitDelim b := by
  conv_lhs => unfold splitDelim
  rw [if_pos ⟨rfl, hm⟩]

theorem splitDelim_other (c d : Char) (rest : Str) (h : ¬ (c = '%' ∧ (d = 'L' ∨ d = 'l'))) :
    splitDelim (c :: d :: rest) = consHead c (splitDelim (d :: rest)) := by
  conv_lhs => unfold splitDelim
  rw [if_neg h]

theorem hasMarker_cons2 (c d : Char) (rest : Str) (h : hasMarker (c :: d :: rest) = false) :
    ¬ (c = '%' ∧ (d = 'L' ∨ d = 'l')) ∧ hasMarker (d :: rest) = false := by
  unfold hasMarker at h
  simp only [Bool.or_eq_false_iff, Bool.and_eq_false_iff, Bool.or_eq_false_iff,
    decide_eq_false_iff_not] at h
  refine ⟨?_, h.2⟩
  rintro ⟨h1, h2⟩
  rcases h.1 with h3 | h3
  · exact h3 h1
  · rcases h2 with h2 | h2
    · exact h3.1 h2
    · exact h3.2 h2

/-- The text before the first marker is the first segment. -/
theorem splitDelim_append (a : Str) : ∀ (m : Char) (b : Str), (m = 'L' ∨ m = 'l') →
    hasMarker a = false → splitDelim (a ++ '%' :: m :: b) = a :: splitDelim b := by
  induction a with
  | nil => intro m b hm _; exact splitDelim_marker m b hm
  | cons c cs ih =>
    intro m b hm ha
    cases cs with
    | nil =>
      have hne : ¬ (c = '%' ∧ ('%' = 'L' ∨ '%' = 'l')) := by
        rintro ⟨_, h | h⟩ <;> exact absurd h (by decide)
      show splitDelim (c :: '%' :: m :: b) = _
      rw [splitDelim_other _ _ _ hne, splitDelim_marker m b hm]
      rfl
    | cons d rest =>
      obtain ⟨h1, h2⟩ := hasMarker_cons2 c d rest ha
      show splitDelim (c :: d :: (rest ++ '%' :: m :: b)) = _
      rw [splitDelim_other _ _ _ h1]
      have := ih m b hm h2
      simp only [List.cons_append] at this
      rw [this]
      rfl

/-- A string without marker is one segment. -/
theorem splitDelim_of_no_marker (a : Str) : hasMarker a = false → splitDelim a = [a] := by
  induction a with
  | nil => intro _; rfl
  | cons c cs ih =>
    intro ha
    cases cs with
    | nil => rfl
    | cons d rest =>
      obtain ⟨h1, h2⟩ := hasMarker_cons2 c d rest ha
      rw [splitDelim_other _ _ _ h1, ih h2]
      rfl

/-- A string with a marker has at least two segments. -/
theorem splitDelim_of_marker (a : Str) : hasMarker a = true → 2 ≤ (splitDelim a).length := by
  induction a with
  | nil => intro h; cases h
  | cons c cs ih =>
    intro ha
    cases cs with
    | nil => cases ha
    | cons d rest =>
      by_cases h1 : c = '%' ∧ (d = 'L' ∨ d = 'l')
      · obtain ⟨hc, hd⟩ := h1
        subst hc
        rw [splitDelim_marker d rest hd]
        have := splitDelim_ne_nil rest
        cases hs : splitDelim rest with
        | nil => exact absurd hs this
        | cons x xs => simp
      · rw [splitDelim_other _ _ _ h1]
        have h2 : hasMarker (d :: rest) = true := by
          unfold hasMarker at ha
          simp only [Bool.or_eq_true, Bool.and_eq_true, decide_eq_true_eq] at ha
          rcases ha with ha | ha
          · exact absurd ha h1
          · exact ha
        have := ih h2
        cases hs : splitDelim (d :: rest) with
        | nil => rw [hs] at this; simp at this
        | cons x xs => rw [hs] at this; simpa [consHead] using this

/-- The variant `collectList` stores for an Ordered type code, from the delimiter's
segments. -/
theorem collectList_ordered_kind (c : ABWStylesCollector) (id : Str)
    (listDecimal listDelim parentid startValue : Option Str) (t : Str) (v : Int)
    (hf : findInt t = some v) (hv : ¬ (5 ≤ v ∧ v < 17)) :
    ∃ e, mapFind (collectList (some id) listDecimal listDelim parentid startValue (some t)
        c).m_listElements id = some (some e) ∧
      ∃ fmt start, e.kind = .ordered fmt
        (match listDelim with
          | none => []
          | some delim => match splitDelim delim with
            | a :: _ :: _ => a
            | _ => [])
        (match listDelim with
          | none => []
          | some delim => match splitDelim delim with
            | _ :: b :: _ => b
            | _ => [])
        start := by
  simp only [collectList, hf]
  rw [if_neg hv]
  refine ⟨_, mapFind_mapSet_self c.m_listElements id _, numFormatOf v,
    (match startValue with
      | none => 0
      | some s => match findInt s with
        | some v => v
        | none => 0), ?_⟩
  cases listDelim with
  | none => rfl
  | some delim =>
    simp only
    cases hs : splitDelim delim with
    | nil => rfl
    | cons a rest =>
      cases rest with
      | nil => rfl
      | cons b more => rfl

/-- C12. For an Ordered list definition the delimiter is split at each occurrence
of `%L` or `%l`: the text before the first marker is the first segment, and a
string without marker is a single segment. With at least two segments the
prefix is the first and the suffix the second segment, later ones are ignored;
with a delimiter that has no marker, or no delimiter, prefix and suffix are
empty. -/
theorem collectList_delimiter (c : ABWStylesCollector) (id : Str)
    (listDecimal parentid startValue : Option Str) (t : Str) (v : Int)
    (hf : findInt t = some v) (hv : ¬ (5 ≤ v ∧ v < 17)) :
    (∀ (a b : Str) (m : Char), (m = 'L' ∨ m = 'l') → hasMarker a = false →
      splitDelim (a ++ '%' :: m :: b) = a :: splitDelim b) ∧
    (∀ a : Str, hasMarker a = false → splitDelim a = [a]) ∧
    (∀ a : Str, hasMarker a = true → 2 ≤ (splitDelim a).length) ∧
    (∀ (delim a b : Str) (more : List Str), splitDelim delim = a :: b :: more →
      ∃ e fmt start, mapFind (collectList (some id) listDecimal (some delim) parentid
          startValue (some t) c).m_listElements id = some (some e) ∧
        e.kind = .ordered fmt a b start) ∧
    (∀ listDelim : Option Str,
      (listDelim = none ∨ ∃ d, listDelim = some d ∧ hasMarker d = false) →
      ∃ e fmt start, mapFind (collectList (some id) listDecimal listDelim parentid
          startValue (some t) c).m_listElements id = some (some e) ∧
        e.kind = .ordered fmt [] [] start) := by
  refine ⟨fun a b m hm ha => splitDelim_append a m b hm ha, splitDelim_of_no_marker,
    splitDelim_of_marker, ?_, ?_⟩
  · intro delim a b more hs
    obtain ⟨e, he, fmt, start, hk⟩ := collectList_ordered_kind c id listDecimal (some delim)
      parentid startValue t v hf hv
    refine ⟨e, fmt, start, he, ?_⟩
    rw [hk]
    simp only [hs]
  · intro listDelim h
    obtain ⟨e, he, fmt, start, hk⟩ := collectList_ordered_kind c id listDecimal listDelim
      parentid startValue t v hf hv
    refine ⟨e, fmt, start, he, ?_⟩
    rw [hk]
    rcases h with h | ⟨d, h, hd⟩
    · subst h; rfl
    · subst h
      simp only [splitDelim_of_no_marker d hd]

/-- Witness of C12: type 1 with delimiter "(%l)%Lx" gives prefix "(" and suffix
")"; with delimiter "." both stay empty. -/
theorem collectList_delimiter_witness :
    (∃ e fmt start, mapFind (collectList (some "4".toList) none (some "(%l)%Lx".toList) none
          none (some "1".toList) emptyCollector).m_listElements "4".toList = some (some e) ∧
        e.kind = .ordered fmt "(".toList ")".toList start) ∧
    (∃ e fmt start, mapFind (collectList (some "4".toList) none (some ".".toList) none
          none (some "1".toList) emptyCollector).m_listElements "4".toList = some (some e) ∧
        e.kind = .ordered fmt [] [] start) :=
  ⟨(collectList_delimiter emptyCollector "4".toList none none none "1".toList 1
      (by decide) (by decide)).2.2.2.1 "(%l)%Lx".toList "(".toList ")".toList ["x".toList]
      (by decide),
   (collectList_delimiter emptyCollector "4".toList none none none "1".toList 1
      (by decide) (by decide)).2.2.2.2 (some ".".toList) (Or.inr ⟨_, rfl, by decide⟩)⟩

/-- C13. After `collectData(name, mimeType, payload)` with a non-null name the
embedded-object map binds the name to exactly (mimeType, payload), whatever it
bound before, and every other name is bound as before; nothing else of the
collector changes, and with a null name the collector is unchanged. -/
theorem collectData_overwrites (c : ABWStylesCollector) (mimeType : Option Str)
    (payload : List Nat) :
    (∀ name : Str,
      mapFind (collectData (some name) mimeType payload c).m_data name =
        some { m_mimeType := mimeType, m_binaryData := payload } ∧
      (∀ other : Str, other ≠ name →
        mapFind (collectData (some name) mimeType payload c).m_data other =
          mapFind c.m_data other) ∧
      (collectData (some name) mimeType payload c).m_tableSizes = c.m_tableSizes ∧
      (collectData (some name) mimeType payload c).m_listElements = c.m_listElements ∧
      (collectData (some name) mimeType payload c).m_tableStates = c.m_tableStates) ∧
    collectData none mimeType payload c = c :=
  ⟨fun name => ⟨mapFind_mapSet_self c.m_data name _,
    fun other h => mapFind_mapSet_ne c.m_data name other _ (Ne.symm h), rfl, rfl, rfl⟩, rfl⟩

/-- Witness of C13: a second object named "img" replaces the first one, and the
object named "x" stays. -/
theorem collectData_overwrites_witness :
    mapFind (collectData (some "img".toList) (some "image/png".toList) [1, 2]
        (collectData (some "x".toList) none [7]
          (collectData (some "img".toList) none [9] emptyCollector))).m_data "x".toList =
      mapFind (collectData (some "x".toList) none [7]
          (collectData (some "img".toList) none [9] emptyCollector)).m_data "x".toList :=
  ((collectData_overwrites (collectData (some "x".toList) none [7]
      (collectData (some "img".toList) none [9] emptyCollector))
    (some "image/png".toList) [1, 2]).1 "img".toList).2.1 "x".toList (by decide)

/-! ## The list resolver on maps without dangling parents: claims C18, C19 -/

/-- What a run leaves behind when all elements start unresolved. -/
theorem updateListElementIds_outcome (m : ListElements Int)
    (h0 : ∀ k e, mapFind m k = some (some e) → e.m_listId = 0) :
    ∃ m2, updateListElementIds m = some m2 ∧ m2.map Prod.fst = m.map Prod.fst ∧
      ∀ k e2, mapFind m2 k = some (some e2) →
        (e2.m_listId ≠ 0 ∧ ResolvesTo m2 k e2.m_listId) ∨
        (e2.m_listId = 0 ∧ (k = 0 ∨ Dangles m k)) := by
  obtain ⟨m2, h2⟩ := updateListElementIds_some m
  refine ⟨m2, h2, ?_⟩
  have hev := updateListElementIds_evolves m m2 h2
  have hinv : Inv m := fun k e he hne => absurd (h0 k e he) hne
  unfold updateListElementIds at h2
  cases hl : updateLoop (m.length + 1) m m [] with
  | none => rw [hl] at h2; cases h2
  | some r =>
    obtain ⟨m3, s3⟩ := r
    rw [hl] at h2
    simp at h2
    subst h2
    obtain ⟨hinv3, _, hvis⟩ := updateLoop_inv m _ _ _ _ _ _ hinv (orig_refl m) hl
    refine ⟨updateLoop_keys _ _ _ _ _ _ hl, ?_⟩
    intro k e2 he2
    by_cases hz : e2.m_listId = 0
    · right
      refine ⟨hz, ?_⟩
      have g := hev k
      cases hk : mapFind m k with
      | none => rw [hk] at g; simp only at g; rw [g] at he2; cases he2
      | some v =>
        cases v with
        | none => rw [hk] at g; simp only at g; rw [g] at he2; cases he2
        | some e => exact hvis k e (mapFind_mem m k _ hk) e2 he2 hz
    · left
      exact ⟨hz, hinv3 k e2 he2 hz⟩

/-- No element's chain dangles when every parent reference leads to an element. -/
theorem not_dangles (m : ListElements Int)
    (hpar : ∀ k e, mapFind m k = some (some e) → e.m_parentId ≠ 0 →
      ∃ e2, mapFind m e.m_parentId = some (some e2)) :
    ∀ k, Dangles m k → ∀ e, mapFind m k = some (some e) → False := by
  intro k hd
  induction hd with
  | absent h => intro e he; rw [he] at h; cases h
  | null h => intro e he; rw [he] at h; cases h
  | step h hp _ ih =>
    intro e he
    rw [he] at h
    simp only [Option.some.injEq] at h
    subst h
    obtain ⟨e2, h2⟩ := hpar _ _ he hp
    exact ih e2 h2

theorem chainEnds_of_resolvesTo {m : ListElements Int} {k r : Int} (h : ResolvesTo m k r) :
    ChainEnds m k r := by
  induction h with
  | root h1 h2 _ => exact .stop h1 h2
  | step h1 h2 _ _ ih => exact .step h1 h2 ih

/-- A parent chain has one end only. -/
theorem chainEnds_unique {m : ListElements Int} {k r : Int} (h : ChainEnds m k r) :
    ∀ r2, ChainEnds m k r2 → r2 = r := by
  induction h with
  | stop h1 h2 =>
    intro r2 h'
    cases h' with
    | stop _ _ => rfl
    | step g1 g2 _ =>
      rw [h1] at g1
      simp only [Option.some.injEq] at g1
      subst g1
      exact absurd h2 g2
  | step h1 h2 _ ih =>
    intro r2 h'
    cases h' with
    | stop g1 g2 =>
      rw [h1] at g1
      simp only [Option.some.injEq] at g1
      subst g1
      exact absurd g2 h2
    | step g1 _ g3 =>
      rw [h1] at g1
      simp only [Option.some.injEq] at g1
      subst g1
      exact ih r2 g3

theorem key_of_mapFind {K V : Type} [DecidableEq K] (m : List (K × V)) (k : K) (v : V)
    (h : mapFind m k = some v) : k ∈ m.map Prod.fst :=
  List.mem_map.2 ⟨_, mapFind_mem m k v h, rfl⟩

/-- C18. For every list-definition map whose keys are all positive, whose
elements all start unresolved and in which every non-zero `m_parentId` is the
key of an element (cycles and self-references allowed), `updateListElementIds`
returns, and afterwards every element has a non-zero `m_listId` that is the
key of a root element (no parent, `m_listId` its own key), namely the one and
only end of the element's parent chain in the resulting map. -/
theorem updateListElementIds_roots (m : ListElements Int)
    (hpos : ∀ k ∈ m.map Prod.fst, 0 < k)
    (h0 : ∀ k e, mapFind m k = some (some e) → e.m_listId = 0)
    (hpar : ∀ k e, mapFind m k = some (some e) → e.m_parentId ≠ 0 →
      ∃ e2, mapFind m e.m_parentId = some (some e2)) :
    ∃ m2, updateListElementIds m = some m2 ∧
      ∀ k e2, mapFind m2 k = some (some e2) →
        e2.m_listId ≠ 0 ∧
        (∃ root, mapFind m2 e2.m_listId = some (some root) ∧ root.m_parentId = 0 ∧
          root.m_listId = e2.m_listId) ∧
        ChainEnds m2 k e2.m_listId ∧
        ∀ r, ChainEnds m2 k r → r = e2.m_listId := by
  obtain ⟨m2, h2, hkeys, hout⟩ := updateListElementIds_outcome m h0
  refine ⟨m2, h2, ?_⟩
  have hev := updateListElementIds_evolves m m2 h2
  intro k e2 he2
  rcases hout k e2 he2 with ⟨hne, hres⟩ | ⟨_, hk | hd⟩
  · exact ⟨hne, resolvesTo_root_elem hres, chainEnds_of_resolvesTo hres,
      chainEnds_unique (chainEnds_of_resolvesTo hres)⟩
  · exfalso
    have := hpos k (by rw [← hkeys]; exact key_of_mapFind m2 k _ he2)
    omega
  · exfalso
    have g := hev k
    cases hk : mapFind m k with
    | none => rw [hk] at g; simp only at g; rw [g] at he2; cases he2
    | some v =>
      cases v with
      | none => rw [hk] at g; simp only at g; rw [g] at he2; cases he2
      | some e => exact not_dangles m hpar k hd e hk

theorem hasElement_elim (m : ListElements Int) (k : Int) (h : hasElement m k = true) :
    ∃ e, mapFind m k = some (some e) := by
  unfold hasElement at h
  split at h
  · next e he => exact ⟨e, he⟩
  · cases h

/-- Witness of C18: the example map `cycleLists`. -/
theorem updateListElementIds_roots_witness :
    ∃ m2, updateListElementIds cycleLists = some m2 ∧
      ∀ k e2, mapFind m2 k = some (some e2) →
        e2.m_listId ≠ 0 ∧
        (∃ root, mapFind m2 e2.m_listId = some (some root) ∧ root.m_parentId = 0 ∧
          root.m_listId = e2.m_listId) ∧
        ChainEnds m2 k e2.m_listId ∧
        ∀ r, ChainEnds m2 k r → r = e2.m_listId :=
  updateListElementIds_roots cycleLists (by decide)
    (fun k e he => by
      simpa using forall_elem_of_all _ (fun e => decide (e.m_listId = 0)) (by decide) k e he)
    (fun k e he hp => by
      have := forall_elem_of_all cycleLists
        (fun e => decide (e.m_parentId = 0) || hasElement cycleLists e.m_parentId)
        (by decide) k e he
      simp only [Bool.or_eq_true, decide_eq_true_eq] at this
      rcases this with h | h
      · exact absurd h hp
      · exact hasElement_elim _ _ h)
/-- Ids that are resolved in the map do not matter in the seen set. -/
theorem findStep_appendSeen (m : ListElements Int) (id : Int) (s seen : List Int)
    (hs : SeenResolved m seen) :
    findStep m id (s ++ seen) = (findStep m id s).appendSeen seen := by
  unfold findStep
  cases h : mapFind m id with
  | none => rfl
  | some v =>
    cases v with
    | none => rfl
    | some e =>
      by_cases hl : e.m_listId = 0
      · have hns : id ∉ seen := fun hm => hs id hm e h hl
        have hmem : (id ∈ s ++ seen) ↔ (id ∈ s) := by simp [hns]
        by_cases his : id ∈ s
        · have : id ∈ s ++ seen := hmem.2 his
          simp [hl, his, this, FindStep.appendSeen]
        · have : id ∉ s ++ seen := fun h' => his (hmem.1 h')
          by_cases hp : e.m_parentId = 0
          · simp [hl, his, this, hp, FindStep.appendSeen]
          · simp [hl, his, this, hp, FindStep.appendSeen]
      · simp [hl, FindStep.appendSeen]

theorem find_appendSeen (fuel : Nat) : ∀ (m : ListElements Int) (id : Int) (s seen : List Int),
    SeenResolved m seen →
    _findAndUpdateListElementId fuel m id (s ++ seen) =
      (_findAndUpdateListElementId fuel m id s).map fun x => (x.1, x.2.1 ++ seen, x.2.2) := by
  induction fuel with
  | zero => intro m id s seen _; rfl
  | succ fuel ih =>
    intro m id s seen hs
    unfold _findAndUpdateListElementId
    rw [findStep_appendSeen m id s seen hs]
    rcases findStep_cases m id s with ⟨_, e⟩ | ⟨_, _, _, e⟩ | ⟨_, _, _, _, e⟩ |
      ⟨_, _, _, _, _, e⟩ | ⟨x, hx, _, _, _, e⟩
    all_goals rw [e]
    · rfl
    · rfl
    · rfl
    · rfl
    · simp only [FindStep.appendSeen]
      rw [ih m x.m_parentId (id :: s) seen hs]
      cases _findAndUpdateListElementId fuel m x.m_parentId (id :: s) with
      | none => rfl
      | some r => rfl

/-- Every id a call puts into the seen set has afterwards the returned id. -/
theorem find_newly_seen (fuel : Nat) : ∀ (m : ListElements Int) (id : Int) (s : List Int)
    (m2 : ListElements Int) (s2 : List Int) (r : Int),
    _findAndUpdateListElementId fuel m id s = some (m2, s2, r) →
    ∀ j ∈ s2, j ∈ s ∨ ∃ e, mapFind m2 j = some (some e) ∧ e.m_listId = r := by
  induction fuel with
  | zero => intro m id s m2 s2 r h; simp [_findAndUpdateListElementId] at h
  | succ fuel ih =>
    intro m id s m2 s2 r h
    unfold _findAndUpdateListElementId at h
    rcases findStep_cases m id s with ⟨_, e⟩ | ⟨_, _, _, e⟩ | ⟨x, hx, _, _, e⟩ |
      ⟨x, hx, _, _, _, e⟩ | ⟨x, hx, _, _, _, e⟩
    all_goals rw [e] at h
    · simp at h; intro j hj; rw [← h.2.1] at hj; exact Or.inl hj
    · simp at h; intro j hj; rw [← h.2.1] at hj; exact Or.inl hj
    · simp at h; intro j hj; rw [← h.2.1] at hj; exact Or.inl hj
    · simp at h
      obtain ⟨h1, h2, h3⟩ := h
      subst h1 h2 h3
      intro j hj
      rcases List.mem_cons.1 hj with hj | hj
      · subst hj
        right
        exact ⟨_, by rw [mapFind_modifyElem_self, hx]; rfl, rfl⟩
      · exact Or.inl hj
    · simp only at h
      split at h
      · cases h
      · next m3 s3 r3 h3 =>
        simp at h
        obtain ⟨h1, h2, hr⟩ := h
        subst h1 h2 hr
        have hrel3 := find_rel _ _ _ _ _ _ _ h3
        intro j hj
        by_cases hjid : j = id
        · subst hjid
          right
          have g := hrel3 j
          rw [hx] at g
          obtain ⟨e3, he3, _⟩ := g
          exact ⟨_, by rw [mapFind_modifyElem_self, he3]; rfl, rfl⟩
        · rcases ih _ _ _ _ _ _ h3 j hj with hj' | ⟨e', he', hl'⟩
          · rcases List.mem_cons.1 hj' with hj' | hj'
            · exact absurd hj' hjid
            · exact Or.inl hj'
          · right
            exact ⟨e', by rw [mapFind_modifyElem_ne _ _ _ _ hjid]; exact he', hl'⟩

/-- A call on an id without element returns at once. -/
theorem find_of_no_element (fuel : Nat) (m : ListElements Int) (id : Int) (s : List Int)
    (h : mapFind m id = none ∨ mapFind m id = some none) :
    _findAndUpdateListElementId (fuel + 1) m id s = some (m, s, 0) := by
  unfold _findAndUpdateListElementId
  rcases findStep_cases m id s with ⟨_, e⟩ | ⟨x, hx, _⟩ | ⟨x, hx, _⟩ | ⟨x, hx, _⟩ | ⟨x, hx, _⟩
  · rw [e]
  all_goals (rcases h with h | h <;> rw [h] at hx <;> cases hx)

theorem orig_elem {m0 m : ListElements Int} (ho : Orig m0 m) (k : Int) (e : ABWListElement)
    (h : mapFind m k = some (some e)) : ∃ e0, mapFind m0 k = some (some e0) := by
  have o := ho k
  rw [h] at o
  obtain ⟨e0, h0, _⟩ := o
  exact ⟨e0, h0⟩

/-- On a map without key 0 and without dangling parents the shared seen set and
fresh seen sets give the same loop. -/
theorem updateLoop_eq_fresh (m0 : ListElements Int) (fuel : Nat)
    (hpar : ∀ k e, mapFind m0 k = some (some e) → e.m_parentId ≠ 0 →
      ∃ e2, mapFind m0 e.m_parentId = some (some e2))
    (rest : List (Int × Option ABWListElement)) :
    ∀ (m : ListElements Int) (seens : List Int), (∀ x ∈ rest, x.1 ≠ 0) →
    SeenResolved m seens → Orig m0 m →
    (updateLoop fuel rest m seens).map (fun r => r.1) = updateLoopFreshSeen fuel rest m := by
  induction rest with
  | nil => intro m seens _ _ _; rfl
  | cons x rest ih =>
    intro m seens hk hs ho
    obtain ⟨k, v⟩ := x
    have hk0 : k ≠ 0 := hk (k, v) (List.mem_cons_self _ _)
    have hk' : ∀ x ∈ rest, x.1 ≠ 0 := fun x hx => hk x (List.mem_cons_of_mem _ hx)
    cases v with
    | none => exact ih m seens hk' hs ho
    | some v =>
      unfold updateLoop updateLoopFreshSeen
      have happ := find_appendSeen fuel m k [] seens hs
      simp only [List.nil_append] at happ
      rw [happ]
      cases hf : _findAndUpdateListElementId fuel m k [] with
      | none => rfl
      | some r =>
        obtain ⟨m1, s1, r1⟩ := r
        simp only [Option.map_some']
        have hrel := find_rel _ _ _ _ _ _ _ hf
        refine ih m1 (s1 ++ seens) hk' ?_ (orig_of_rel ho hrel)
        intro j hj e he
        rcases List.mem_append.1 hj with hj | hj
        · rcases find_newly_seen _ _ _ _ _ _ _ hf j hj with hn | ⟨e', he', hl'⟩
          · cases hn
          · rw [he'] at he
            simp only [Option.some.injEq] at he
            subst he
            rw [hl']
            intro hr0
            subst hr0
            rcases find_dangles m0 _ _ _ _ _ _ _ ho hf rfl with hz | hd
            · exact hk0 hz
            · -- the id starts a dangling chain: it has no element, so nothing was seen
              cases hmk : mapFind m k with
              | none =>
                cases fuel with
                | zero => simp [_findAndUpdateListElementId] at hf
                | succ fuel =>
                  rw [find_of_no_element fuel m k [] (Or.inl hmk)] at hf
                  simp at hf
                  rw [hf.2] at hj
                  cases hj
              | some w =>
                cases w with
                | none =>
                  cases fuel with
                  | zero => simp [_findAndUpdateListElementId] at hf
                  | succ fuel =>
                    rw [find_of_no_element fuel m k [] (Or.inr hmk)] at hf
                    simp at hf
                    rw [hf.2] at hj
                    cases hj
                | some ek =>
                  obtain ⟨e0, h0⟩ := orig_elem ho k ek hmk
                  exact not_dangles m0 hpar k hd e0 h0
        · have g := hrel j
          cases hmj : mapFind m j with
          | none => rw [hmj] at g; simp only at g; rw [g] at he; cases he
          | some w =>
            cases w with
            | none => rw [hmj] at g; simp only at g; rw [g] at he; cases he
            | some ej =>
              have hne := hs j hj ej hmj
              have := evolves_stable (evolves_of_rel hrel) j ej hmj hne
              rw [this] at he
              simp only [Option.some.injEq] at he
              subst he
              exact hne

/-- C19 as stated fails: with 1 -> 2 and 2 -> 99 (99 not in the map) the source,
which keeps one seen set for the whole loop, makes element 2 a root on its own
top-level call because 2 was seen during the call on 1; with a fresh seen set
for each top-level call element 2 keeps its parent and stays unresolved. -/
theorem shared_seen_counterexample :
    updateListElementIds
        [(1, some ⟨.unordered [], 2, 0⟩), (2, some ⟨.unordered [], 99, 0⟩)] =
      some [(1, some ⟨.unordered [], 2, 0⟩), (2, some ⟨.unordered [], 0, 2⟩)] ∧
    updateListElementIdsFreshSeen
        [(1, some ⟨.unordered [], 2, 0⟩), (2, some ⟨.unordered [], 99, 0⟩)] =
      some [(1, some ⟨.unordered [], 2, 0⟩), (2, some ⟨.unordered [], 99, 0⟩)] ∧
    updateListElementIds
        [(1, some ⟨.unordered [], 2, 0⟩), (2, some ⟨.unordered [], 99, 0⟩)] ≠
      updateListElementIdsFreshSeen
        [(1, some ⟨.unordered [], 2, 0⟩), (2, some ⟨.unordered [], 99, 0⟩)] := by
  decide

/-- C19, amended. The source keeps one seen set for all top-level calls of a run.
On every map whose keys are not 0 and in which every non-zero `m_parentId` is
the key of an element (no dangling parent, cycles allowed) it gives the same
final map as the reference procedure that starts every top-level call with an
empty seen set. -/
theorem updateListElementIds_eq_freshSeen (m : ListElements Int)
    (hkey : ∀ k ∈ m.map Prod.fst, k ≠ 0)
    (hpar : ∀ k e, mapFind m k = some (some e) → e.m_parentId ≠ 0 →
      ∃ e2, mapFind m e.m_parentId = some (some e2)) :
    updateListElementIds m = updateListElementIdsFreshSeen m := by
  unfold updateListElementIds updateListElementIdsFreshSeen
  exact updateLoop_eq_fresh m _ hpar m m []
    (fun x hx => hkey x.1 (List.mem_map.2 ⟨x, hx, rfl⟩))
    (fun j hj => by cases hj) (orig_refl m)

/-- Witness of C19: the example map `cycleLists`. -/
theorem updateListElementIds_eq_freshSeen_witness :
    updateListElementIds cycleLists = updateListElementIdsFreshSeen cycleLists :=
  updateListElementIds_eq_freshSeen cycleLists (by decide)
    (fun k e he hp => by
      have := forall_elem_of_all cycleLists
        (fun e => decide (e.m_parentId = 0) || hasElement cycleLists e.m_parentId)
        (by decide) k e he
      simp only [Bool.or_eq_true, decide_eq_true_eq] at this
      rcases this with h | h
      · exact absurd h hp
      · exact hasElement_elim _ _ h)

/-- C20 (as amended): when the end element of the metadata region, or an empty
metadata element, is dispatched, the in-metadata flag becomes false and
nothing else changes: the pending metadata key stays what it was. A text
dispatched in the state so reached is forwarded as `insertText` and not
attached to the key. -/
theorem metadata_exit_clears_flag_only (env : Env) (reader : Reader) (p : ABWParser)
    (htok : reader.node.token = .XML_METADATA)
    (hend : reader.node.nodeType = .XML_READER_TYPE_END_ELEMENT ∨
      (reader.node.nodeType = .XML_READER_TYPE_ELEMENT ∧ reader.node.isEmptyElement = true)) :
    ABWParser.processXmlNode env reader p =
        .ok (1, reader, { p with m_state := { p.m_state with m_inMetadata := false } }) ∧
      ∀ text : Reader,
        ABWParser.dispatchText env text
            { p with m_state := { p.m_state with m_inMetadata := false } } =
          ABWParser.callCollector env (.insertText text.node.value)
            { p with m_state := { p.m_state with m_inMetadata := false } } := by
  refine ⟨?_, fun text => by simp [ABWParser.dispatchText]⟩
  have hws : reader.node.nodeType ≠ .XML_READER_TYPE_SIGNIFICANT_WHITESPACE := by
    rcases hend with h | ⟨h, _⟩ <;> rw [h] <;> decide
  have htx : reader.node.nodeType ≠ .XML_READER_TYPE_TEXT := by
    rcases hend with h | ⟨h, _⟩ <;> rw [h] <;> decide
  simp only [ABWParser.processXmlNode, if_neg hws, if_neg htx, Res.bind, ABWParser.dispatchToken,
    htok, ABWParser.dispatchMetadata]
  rcases hend with h | ⟨h, he⟩
  · simp [ABWParser.opens, ABWParser.closes, h]
  · simp [ABWParser.opens, ABWParser.closes, h, he]

/-- C20, at the end element of a metadata region, dispatched with a fresh state. -/
theorem metadata_exit_clears_flag_only_witness :
    ABWParser.processXmlNode quietEnv
        (readerAt (event .XML_METADATA .XML_READER_TYPE_END_ELEMENT false [] none).node [])
        (newParser none) =
      .ok (1, readerAt (event .XML_METADATA .XML_READER_TYPE_END_ELEMENT false [] none).node [],
        { newParser none with
          m_state := { (newParser none).m_state with m_inMetadata := false } }) :=
  (metadata_exit_clears_flag_only quietEnv
    (readerAt (event .XML_METADATA .XML_READER_TYPE_END_ELEMENT false [] none).node [])
    (newParser none) rfl (Or.inl rfl)).1

/-- C20 (counterexample): the key "k" set inside a metadata region is still
pending after the region's end element has been dispatched, and the content
pass over `staleKeyDoc` attaches it to the text "v" of a later region. -/
theorem stale_metadata_key_counterexample :
    (ABWParser.processXmlNode quietEnv
        (readerAt (event .XML_METADATA .XML_READER_TYPE_END_ELEMENT false [] none).node [])
        { newParser none with
          m_state := { (newParser none).m_state with
            m_inMetadata := true, m_currentMetadataKey := "k".toList } }).bind
        (fun r => .ok (r.2.2.m_state.m_inMetadata, r.2.2.m_state.m_currentMetadataKey))
      = .ok (false, "k".toList) ∧
    (ABWParser.processXmlDocument quietEnv (some staleKeyDoc)
        (ABWParser.contentPassStart [] (newParser (some staleKeyDoc)))).bind
        (fun r => .ok (r.1, r.2.m_collector))
      = .ok (true, some (.content { calls :=
          [.addMetadataEntry "k".toList (some "v".toList), .endDocument] })) := by
  decide

theorem callCollectorIf_styles (env : Env) (call : Call) (p : ABWParser) (sc : ABWStylesCollector)
    (hc : p.m_collector = some (.styles sc)) :
    ABWParser.callCollectorIf env call p =
      (stylesCall call sc).bind fun sc1 => .ok { p with m_collector := some (.styles sc1) } := by
  simp only [ABWParser.callCollectorIf, ABWParser.callCollector, hc, collectorCall]
  cases stylesCall call sc <;> rfl

theorem readDLoop_styles (env : Env) (name mimeType : Option Str) (base64 : Bool) :
    ∀ (pending : List ReadEvent) (reader : Reader) (p : ABWParser) (sc : ABWStylesCollector),
      p.m_collector = some (.styles sc) →
      ABWParser.readDLoop env name mimeType base64 reader pending p =
        .ok ((ABWParser.skipLoop .XML_D reader pending).1,
          (ABWParser.skipLoop .XML_D reader pending).2,
          { p with m_collector := some (.styles ((dataTexts pending).foldl
              (fun c data => collectData name mimeType (ABWParser.binaryData env base64 data) c)
              sc)) }) := by
  intro pending
  induction pending with
  | nil =>
    intro reader p sc hc
    simp only [ABWParser.readDLoop, ABWParser.skipLoop, dataTexts, List.foldl_nil]
    rw [← hc]
  | cons ev rest ih =>
    intro reader p sc hc
    simp only [ABWParser.readDLoop, ABWParser.skipLoop, dataTexts, xmlTextReaderRead]
    by_cases htext : ev.node.nodeType = .XML_READER_TYPE_TEXT ∨
        ev.node.nodeType = .XML_READER_TYPE_CDATA
    · cases hv : ev.node.value with
      | none =>
        simp only [if_pos htext]
        by_cases hgo : Token.XML_D ≠ ev.node.token ∨
            NodeType.XML_READER_TYPE_END_ELEMENT ≠ ev.node.nodeType
        · simp only [hgo, true_and, if_true, List.nil_append]
          exact ih _ p sc hc
        · simp only [hgo, false_and, if_false, List.foldl_nil]
          rw [← hc]
      | some data =>
        simp only [if_pos htext]
        rw [callCollectorIf_styles env _ p sc hc]
        simp only [stylesCall, Res.bind]
        by_cases hgo : Token.XML_D ≠ ev.node.token ∨
            NodeType.XML_READER_TYPE_END_ELEMENT ≠ ev.node.nodeType
        · simp only [hgo, true_and, if_true, List.cons_append, List.nil_append, List.foldl_cons]
          exact ih _ _ _ rfl
        · simp only [hgo, false_and, if_false, List.foldl_cons, List.foldl_nil]
    · simp only [if_neg htext]
      by_cases hgo : Token.XML_D ≠ ev.node.token ∨
          NodeType.XML_READER_TYPE_END_ELEMENT ≠ ev.node.nodeType
      · simp only [hgo, true_and, if_true, List.nil_append]
        exact ih _ p sc hc
      · simp only [hgo, false_and, if_false, List.foldl_nil]
        rw [← hc]

theorem foldl_collectData_none (mimeType : Option Str) (f : Str → List Nat) (texts : List Str)
    (sc : ABWStylesCollector) :
    texts.foldl (fun c data => collectData none mimeType (f data) c) sc = sc := by
  induction texts with
  | nil => rfl
  | cons t rest ih => simp [collectData]

theorem foldl_collectData_last (n : Str) (mimeType : Option Str) (f : Str → List Nat) :
    ∀ (texts : List Str) (sc : ABWStylesCollector) (data : Str),
      texts.getLast? = some data →
      mapFind (texts.foldl (fun c data => collectData (some n) mimeType (f data) c) sc).m_data n =
        some { m_mimeType := mimeType, m_binaryData := f data } := by
  intro texts
  induction texts with
  | nil => intro sc data h; simp at h
  | cons t rest ih =>
    intro sc data h
    cases rest with
    | nil =>
      simp only [List.getLast?_singleton, Option.some.injEq] at h
      subst h
      simp only [List.foldl_cons, List.foldl_nil, collectData]
      exact mapFind_mapSet_self _ _ _
    | cons t2 rest2 =>
      rw [List.getLast?_cons_cons] at h
      rw [List.foldl_cons]
      exact ih _ data h

/-- C17 (as amended): with the styles collector active, `readD` hands the payload of
every text or CDATA node of the data element to `collectData`, whatever the
name attribute is, and returns. The collector registers nothing only when the
name attribute is absent: then it is the same after the element as before
it. When the attribute is present, be it the empty string, and the element
has a text, the name is bound to the mime type and the payload of the last
text. -/
theorem readD_registers_unless_name_absent (env : Env) (reader : Reader) (p : ABWParser)
    (sc : ABWStylesCollector) (hc : p.m_collector = some (.styles sc)) :
    ∃ sc1 : ABWStylesCollector,
      ABWParser.readD env reader p =
        .ok ((ABWParser.skipLoop .XML_D reader reader.pending).1,
          (ABWParser.skipLoop .XML_D reader reader.pending).2,
          { p with m_collector := some (.styles sc1) }) ∧
      sc1 = (dataTexts reader.pending).foldl
        (fun c data => collectData (getAttribute reader "name") (getAttribute reader "mime-type")
          (ABWParser.binaryData env (ABWParser.base64Flag reader) data) c) sc ∧
      (getAttribute reader "name" = none → sc1 = sc) ∧
      (∀ n data, getAttribute reader "name" = some n →
        (dataTexts reader.pending).getLast? = some data →
        mapFind sc1.m_data n =
          some { m_mimeType := getAttribute reader "mime-type",
                 m_binaryData := ABWParser.binaryData env (ABWParser.base64Flag reader) data }) := by
  refine ⟨_, readDLoop_styles env _ _ _ reader.pending reader p sc hc, rfl, ?_, ?_⟩
  · intro hn
    rw [hn]
    exact foldl_collectData_none _ _ _ _
  · intro n data hn hlast
    rw [hn]
    exact foldl_collectData_last n _ _ _ sc data hlast

/-- C17, at a data element without a name attribute: the collector is unchanged. -/
theorem readD_registers_unless_name_absent_witness :
    ∃ sc1 : ABWStylesCollector,
      ABWParser.readD quietEnv
          (readerAt (event .XML_D .XML_READER_TYPE_ELEMENT false [] none).node emptyNameData.pending)
          (ABWParser.stylesPassStart quietEnv (newParser none)) =
        .ok (1, readerAt (event .XML_D .XML_READER_TYPE_END_ELEMENT false [] none).node [],
          { ABWParser.stylesPassStart quietEnv (newParser none) with
            m_collector := some (.styles sc1) }) ∧
      sc1 = ABWParser.newStylesCollector quietEnv (newParser none).m_state := by
  obtain ⟨sc1, h1, _, h3, _⟩ := readD_registers_unless_name_absent quietEnv
    (readerAt (event .XML_D .XML_READER_TYPE_ELEMENT false [] none).node emptyNameData.pending)
    (ABWParser.stylesPassStart quietEnv (newParser none))
    (ABWParser.newStylesCollector quietEnv (newParser none).m_state) rfl
  exact ⟨sc1, h1, h3 rfl⟩

/-- C17 (counterexample): a data element whose name attribute is the empty string
and which has the text "x": the embedded-object map is empty before the
element and has a binding for the empty name after it. -/
theorem empty_name_data_counterexample :
    getAttribute emptyNameData "name" = some [] ∧
    (ABWParser.newStylesCollector quietEnv (newParser none).m_state).m_data = [] ∧
    (ABWParser.readD quietEnv emptyNameData
        (ABWParser.stylesPassStart quietEnv (newParser none))).bind
        (fun r => .ok (match r.2.2.m_collector with
          | some (.styles sc) => sc.m_data
          | _ => []))
      = .ok [([], { m_mimeType := none, m_binaryData := [120] })] := by
  decide

theorem dispatchAll_append (env : Env) (first second : List XmlNode) :
    ∀ p : ABWParser,
      dispatchAll env (first ++ second) p = (dispatchAll env first p).bind (dispatchAll env second) := by
  induction first with
  | nil => intro p; rfl
  | cons node rest ih =>
    intro p
    simp only [List.cons_append, dispatchAll]
    cases ABWParser.processXmlNode env (readerAt node []) p with
    | fail f => rfl
    | ok r => exact ih r.2.2

/-- A call on a collector fails with an exception only when it comes from one of
the calls that a frame open or close makes. -/
theorem collectorCall_frame (env : Env) (call : Call) (c : ABWCollector)
    (hcall : (∃ a b d e, call = .openFrame a b d e) ∨ call = .closeFrame ∨
      ∃ els pf, call = .addFrameElements els pf) :
    collectorCall env call c = .fail .exception ∨ ∃ c1, collectorCall env call c = .ok c1 := by
  cases c with
  | styles sc =>
    right
    rcases hcall with ⟨a, b, d, e, h⟩ | h | ⟨els, pf, h⟩ <;> subst h <;>
      exact ⟨_, rfl⟩
  | content cc =>
    simp only [collectorCall]
    by_cases h : env.throws cc.calls call = true
    · left; simp [h]
    · right; simp [h]

/-- The source's `readFrame` outside the styles pass with a collector installed. -/
theorem readFrame_push (env : Env) (reader : Reader) (p : ABWParser) (c : ABWCollector)
    (hc : p.m_collector = some c) (hstyle : p.m_state.m_inStyleParsing = false) :
    ABWParser.readFrame env reader p =
      if env.throws [] (.openFrame (getAttribute reader "props")
          (getAttribute reader "strux-image-dataid") (getAttribute reader "title")
          (getAttribute reader "alt")) = true then .fail .exception
      else .ok { p with
        m_collector := some (.content { calls :=
          [.openFrame (getAttribute reader "props") (getAttribute reader "strux-image-dataid")
            (getAttribute reader "title") (getAttribute reader "alt")] })
        m_state := { p.m_state with m_collectorStack := c :: p.m_state.m_collectorStack } } := by
  unfold ABWParser.readFrame
  rw [hc]
  simp only [hstyle, Bool.false_eq_true, if_false, ABWParser.callCollector, collectorCall]
  split <;> simp [Res.bind]

/-- The dispatch of a start or end element with the frame token is the frame case
of the switch. -/
theorem processXmlNode_frame (env : Env) (reader : Reader) (p : ABWParser)
    (htok : reader.node.token = .XML_FRAME)
    (htype : reader.node.nodeType = .XML_READER_TYPE_ELEMENT ∨
      reader.node.nodeType = .XML_READER_TYPE_END_ELEMENT) :
    ABWParser.processXmlNode env reader p =
      ABWParser.keepReader reader (ABWParser.dispatchFrame env reader p) := by
  have hws : reader.node.nodeType ≠ .XML_READER_TYPE_SIGNIFICANT_WHITESPACE := by
    rcases htype with h | h <;> rw [h] <;> decide
  have htx : reader.node.nodeType ≠ .XML_READER_TYPE_TEXT := by
    rcases htype with h | h <;> rw [h] <;> decide
  simp only [ABWParser.processXmlNode, if_neg hws, if_neg htx, Res.bind,
    ABWParser.dispatchToken, htok]

/-- Dispatch of a frame start element outside the styles pass. -/
theorem processXmlNode_frameStart (env : Env) (attrs : Attrs) (pending : List ReadEvent)
    (p : ABWParser) (c : ABWCollector) (hc : p.m_collector = some c)
    (hstyle : p.m_state.m_inStyleParsing = false) :
    ABWParser.processXmlNode env (readerAt (frameStart attrs) pending) p = .fail .exception ∨
    ABWParser.processXmlNode env (readerAt (frameStart attrs) pending) p =
      .ok (1, readerAt (frameStart attrs) pending,
        { p with
          m_collector := some (.content { calls :=
            [.openFrame (getAttribute (readerAt (frameStart attrs) pending) "props")
              (getAttribute (readerAt (frameStart attrs) pending) "strux-image-dataid")
              (getAttribute (readerAt (frameStart attrs) pending) "title")
              (getAttribute (readerAt (frameStart attrs) pending) "alt")] })
          m_state := { p.m_state with m_collectorStack := c :: p.m_state.m_collectorStack } }) := by
  rw [processXmlNode_frame env _ p rfl (Or.inl rfl)]
  have hd : ABWParser.dispatchFrame env (readerAt (frameStart attrs) pending) p =
      ABWParser.readFrame env (readerAt (frameStart attrs) pending) p := by
    simp only [ABWParser.dispatchFrame, ABWParser.opens, ABWParser.closes, readerAt, frameStart]
    simp only [decide_True, if_true, reduceCtorEq, decide_False, Bool.or_false,
      Bool.false_eq_true, if_false]
    cases ABWParser.readFrame env _ p <;> rfl
  rw [hd, readFrame_push env _ p c hc hstyle]
  split
  · left; rfl
  · right; rfl

/-- The source's `readCloseFrame` outside the styles pass with an entry on the
stack: the entry is popped and becomes the collector, after at most one
transfer of frame elements to it. -/
theorem readCloseFrame_pop (env : Env) (p : ABWParser) (c top : ABWCollector)
    (rest : List ABWCollector) (hc : p.m_collector = some c)
    (hstyle : p.m_state.m_inStyleParsing = false)
    (hstack : p.m_state.m_collectorStack = top :: rest) :
    ABWParser.readCloseFrame env p = .fail .exception ∨
    ∃ top1, ABWParser.readCloseFrame env p =
        .ok { p with m_collector := some top1
                     m_state := { p.m_state with m_collectorStack := rest } } ∧
      (top1 = top ∨ ∃ elements pageFrame,
        collectorCall env (.addFrameElements elements pageFrame) top = .ok top1) := by
  simp only [ABWParser.readCloseFrame, hc, hstyle, hstack]
  rcases collectorCall_frame env .closeFrame c (Or.inr (Or.inl rfl)) with h | ⟨c1, h⟩
  · left; rw [h]
  · rw [h]
    simp only [Bool.false_eq_true, if_false]
    cases hout : (closeFrameOut env c).1 with
    | none => right; exact ⟨top, rfl, Or.inl rfl⟩
    | some elements =>
      simp only []
      rcases collectorCall_frame env (.addFrameElements elements (closeFrameOut env c).2) top
        (Or.inr (Or.inr ⟨_, _, rfl⟩)) with h2 | ⟨top1, h2⟩
      · left; rw [h2]
      · right; rw [h2]; exact ⟨top1, rfl, Or.inr ⟨_, _, h2⟩⟩

/-- Dispatch of a frame end element outside the styles pass with an entry on the
stack. -/
theorem processXmlNode_frameEnd (env : Env) (pending : List ReadEvent) (p : ABWParser)
    (c top : ABWCollector) (rest : List ABWCollector) (hc : p.m_collector = some c)
    (hstyle : p.m_state.m_inStyleParsing = false)
    (hstack : p.m_state.m_collectorStack = top :: rest) :
    ABWParser.processXmlNode env (readerAt frameEnd pending) p = .fail .exception ∨
    ∃ top1, ABWParser.processXmlNode env (readerAt frameEnd pending) p =
        .ok (1, readerAt frameEnd pending,
          { p with m_collector := some top1
                   m_state := { p.m_state with m_collectorStack := rest } }) ∧
      (top1 = top ∨ ∃ elements pageFrame,
        collectorCall env (.addFrameElements elements pageFrame) top = .ok top1) := by
  have hd : ABWParser.dispatchFrame env (readerAt frameEnd pending) p =
      ABWParser.readCloseFrame env p := by
    simp [ABWParser.dispatchFrame, ABWParser.opens, ABWParser.closes, readerAt, frameEnd]
  rw [processXmlNode_frame env _ p rfl (Or.inr rfl), hd]
  rcases readCloseFrame_pop env p c top rest hc hstyle hstack with h | ⟨top1, h, htop⟩
  · left; rw [h]; rfl
  · right; rw [h]; exact ⟨top1, rfl, htop⟩

/-- Dispatch of an empty frame element outside the styles pass: the collector is
pushed and popped again. -/
theorem processXmlNode_frameEmpty (env : Env) (attrs : Attrs) (pending : List ReadEvent)
    (p : ABWParser) (c : ABWCollector) (hc : p.m_collector = some c)
    (hstyle : p.m_state.m_inStyleParsing = false) :
    ABWParser.processXmlNode env (readerAt (frameEmpty attrs) pending) p = .fail .exception ∨
    ∃ c1, ABWParser.processXmlNode env (readerAt (frameEmpty attrs) pending) p =
        .ok (1, readerAt (frameEmpty attrs) pending, { p with m_collector := some c1 }) := by
  have hd : ABWParser.dispatchFrame env (readerAt (frameEmpty attrs) pending) p =
      (ABWParser.readFrame env (readerAt (frameEmpty attrs) pending) p).bind
        (ABWParser.readCloseFrame env) := by
    simp only [ABWParser.dispatchFrame, ABWParser.opens, ABWParser.closes, readerAt, frameEmpty]
    simp only [decide_True, if_true, Bool.or_true]
    cases ABWParser.readFrame env _ p <;> rfl
  rw [processXmlNode_frame env _ p rfl (Or.inl rfl), hd]
  have hopen : ABWParser.readFrame env (readerAt (frameEmpty attrs) pending) p = .fail .exception ∨
      ∃ cc, ABWParser.readFrame env (readerAt (frameEmpty attrs) pending) p =
        .ok { p with
              m_collector := some (.content cc)
              m_state := { p.m_state with m_collectorStack := c :: p.m_state.m_collectorStack } } := by
    rw [readFrame_push env _ p c hc hstyle]
    split
    · left; rfl
    · right; exact ⟨_, rfl⟩
  rcases hopen with h | ⟨cc, h⟩
  · left; rw [h]; rfl
  · rw [h]
    simp only [Res.bind]
    rcases readCloseFrame_pop env
        { p with
          m_collector := some (.content cc)
          m_state := { p.m_state with m_collectorStack := c :: p.m_state.m_collectorStack } }
        (.content cc) c p.m_state.m_collectorStack rfl hstyle rfl
      with h2 | ⟨top1, h2, _⟩
    · left; rw [h2]; rfl
    · right
      rw [h2]
      exact ⟨top1, rfl⟩

/-- A balanced sequence of nested frame opens and closes, dispatched outside the
styles pass with a collector installed, fails with an exception or leaves the
state, and with it the collector stack, as it was. -/
theorem dispatchAll_nested (env : Env) (nodes : List XmlNode) (hn : Nested nodes) :
    ∀ p : ABWParser, p.m_collector ≠ none → p.m_state.m_inStyleParsing = false →
      dispatchAll env nodes p = .fail .exception ∨
      ∃ p1, dispatchAll env nodes p = .ok p1 ∧ p1.m_state = p.m_state ∧
        p1.m_collector ≠ none := by
  induction hn with
  | nil => intro p hc _; exact Or.inr ⟨p, rfl, rfl, hc⟩
  | frame attrs inner _ ih =>
    intro p hc hstyle
    obtain ⟨c, hc⟩ := Option.ne_none_iff_exists'.mp hc
    simp only [dispatchAll]
    rcases processXmlNode_frameStart env attrs [] p c hc hstyle with h | h
    · left; rw [h]
    · rw [h]
      simp only [List.append_eq]
      rw [dispatchAll_append]
      rcases ih ({ p with
          m_collector := some (.content { calls :=
            [.openFrame (getAttribute (readerAt (frameStart attrs) []) "props")
              (getAttribute (readerAt (frameStart attrs) []) "strux-image-dataid")
              (getAttribute (readerAt (frameStart attrs) []) "title")
              (getAttribute (readerAt (frameStart attrs) []) "alt")] })
          m_state := { p.m_state with m_collectorStack := c :: p.m_state.m_collectorStack } } :
          ABWParser)
          (by simp) hstyle with h2 | ⟨p2, h2, hst2, hc2⟩
      · left; rw [h2]; rfl
      · rw [h2]
        simp only [Res.bind, dispatchAll]
        obtain ⟨c2, hc2⟩ := Option.ne_none_iff_exists'.mp hc2
        rcases processXmlNode_frameEnd env [] p2 c2 c p.m_state.m_collectorStack hc2
          (by rw [hst2]; exact hstyle) (by rw [hst2]) with h3 | ⟨top1, h3, _⟩
        · left; rw [h3]
        · right
          rw [h3]
          refine ⟨_, rfl, ?_, by simp⟩
          simp only [hst2]
  | empty attrs =>
    intro p hc hstyle
    obtain ⟨c, hc⟩ := Option.ne_none_iff_exists'.mp hc
    simp only [dispatchAll]
    rcases processXmlNode_frameEmpty env attrs [] p c hc hstyle with h | ⟨c1, h⟩
    · left; rw [h]
    · right; rw [h]; exact ⟨_, rfl, rfl, by simp⟩
  | append first second _ _ ih1 ih2 =>
    intro p hc hstyle
    rw [dispatchAll_append]
    rcases ih1 p hc hstyle with h | ⟨p1, h, hst, hc1⟩
    · left; rw [h]; rfl
    · rw [h]
      simp only [Res.bind]
      rcases ih2 p1 hc1 (by rw [hst]; exact hstyle) with h2 | ⟨p2, h2, hst2, hc2⟩
      · left; exact h2
      · right; exact ⟨p2, h2, by rw [hst2, hst], hc2⟩

/-- C16: outside the styles pass, with the collector `c` active and the stack `s`,
the dispatch of a frame start element pushes `c` onto `s` and installs a
fresh content collector, which receives the `openFrame` call; and after any
balanced sequence `inner` of nested frame opens and closes, the dispatch of
the matching frame end element pops one entry: the state, and with it the
stack, is what it was before the frame, and the active collector is `c`
again, having received at most the frame's elements (`addFrameElements`).
Only an exception thrown by a collector prevents this. -/
theorem frame_stack_lifo (env : Env) (p : ABWParser) (c : ABWCollector)
    (s : List ABWCollector) (attrs : Attrs) (inner : List XmlNode)
    (hc : p.m_collector = some c) (hs : p.m_state.m_collectorStack = s)
    (hstyle : p.m_state.m_inStyleParsing = false) (hinner : Nested inner) :
    (ABWParser.processXmlNode env (readerAt (frameStart attrs) []) p = .fail .exception ∨
      ABWParser.processXmlNode env (readerAt (frameStart attrs) []) p =
        .ok (1, readerAt (frameStart attrs) [],
          { p with
            m_collector := some (.content { calls :=
              [.openFrame (getAttribute (readerAt (frameStart attrs) []) "props")
                (getAttribute (readerAt (frameStart attrs) []) "strux-image-dataid")
                (getAttribute (readerAt (frameStart attrs) []) "title")
                (getAttribute (readerAt (frameStart attrs) []) "alt")] })
            m_state := { p.m_state with m_collectorStack := c :: s } })) ∧
    (dispatchAll env (frameStart attrs :: inner ++ [frameEnd]) p = .fail .exception ∨
      ∃ p1, dispatchAll env (frameStart attrs :: inner ++ [frameEnd]) p = .ok p1 ∧
        p1.m_state = p.m_state ∧ p1.m_state.m_collectorStack = s ∧
        (p1.m_collector = some c ∨ ∃ elements pageFrame c1,
          collectorCall env (.addFrameElements elements pageFrame) c = .ok c1 ∧
          p1.m_collector = some c1)) := by
  subst hs
  refine ⟨processXmlNode_frameStart env attrs [] p c hc hstyle, ?_⟩
  simp only [dispatchAll]
  rcases processXmlNode_frameStart env attrs [] p c hc hstyle with h | h
  · left; rw [h]
  · rw [h]
    simp only [List.append_eq]
    rw [dispatchAll_append]
    rcases dispatchAll_nested env inner hinner ({ p with
          m_collector := some (.content { calls :=
            [.openFrame (getAttribute (readerAt (frameStart attrs) []) "props")
              (getAttribute (readerAt (frameStart attrs) []) "strux-image-dataid")
              (getAttribute (readerAt (frameStart attrs) []) "title")
              (getAttribute (readerAt (frameStart attrs) []) "alt")] })
          m_state := { p.m_state with m_collectorStack := c :: p.m_state.m_collectorStack } } :
          ABWParser)
        (by simp) hstyle with h2 | ⟨p2, h2, hst2, hc2⟩
    · left; rw [h2]; rfl
    · rw [h2]
      simp only [Res.bind, dispatchAll]
      obtain ⟨c2, hc2⟩ := Option.ne_none_iff_exists'.mp hc2
      rcases processXmlNode_frameEnd env [] p2 c2 c p.m_state.m_collectorStack hc2
        (by rw [hst2]; exact hstyle) (by rw [hst2]) with h3 | ⟨top1, h3, htop⟩
      · left; rw [h3]
      · right
        rw [h3]
        refine ⟨_, rfl, ?_, ?_, ?_⟩
        · simp only [hst2]
        · simp only [hst2]
        · rcases htop with h4 | ⟨elements, pageFrame, h4⟩
          · left; simp [h4]
          · right; exact ⟨elements, pageFrame, top1, h4, rfl⟩

/-- C16, at a frame with a nested frame and a nested empty frame, dispatched at
the start of the content pass in an environment without exceptions. -/
theorem frame_stack_lifo_witness :
    ∃ p1, dispatchAll quietEnv
        (frameStart [] :: ([frameStart []] ++ [] ++ [frameEnd] ++ [frameEmpty []]) ++ [frameEnd])
        (ABWParser.contentPassStart [] (newParser none)) = .ok p1 ∧
      p1.m_state.m_collectorStack = [] ∧
      p1.m_collector = some (.content { calls := [] }) := by
  have h := (frame_stack_lifo quietEnv (ABWParser.contentPassStart [] (newParser none))
    (.content { calls := [] }) [] []
    ([frameStart []] ++ [] ++ [frameEnd] ++ [frameEmpty []]) rfl rfl rfl
    (Nested.append _ _ (Nested.frame [] [] Nested.nil) (Nested.empty []))).2
  rcases h with h | ⟨p1, h, _, hs, hcol⟩
  · exact absurd h (by decide)
  · refine ⟨p1, h, hs, ?_⟩
    rcases hcol with hcol | ⟨elements, pageFrame, c1, _, _⟩
    · exact hcol
    · have : dispatchAll quietEnv
          (frameStart [] :: ([frameStart []] ++ [] ++ [frameEnd] ++ [frameEmpty []]) ++ [frameEnd])
          (ABWParser.contentPassStart [] (newParser none)) =
          .ok (ABWParser.contentPassStart [] (newParser none)) := by decide
      rw [this] at h
      cases h
      rfl

/-! ## The dispatcher: what a node does to the reader and to the parser -/

theorem xmlTextReaderRead_failed (reader : Reader) :
    (xmlTextReaderRead reader).2.failed = reader.failed := by
  unfold xmlTextReaderRead
  cases reader.pending <;> rfl

/-- What the loop of a skipped region leaves: with 1 the reads after the region's
end element are still to come; otherwise nothing is, and the result is that
of the read after the last node. -/
theorem skipLoop_spec (tok : Token) :
    ∀ (pending : List ReadEvent) (reader : Reader),
      (ABWParser.skipLoop tok reader pending).2.failed = reader.failed ∧
      (ABWParser.skipLoop tok reader pending).2.pending.length ≤ pending.length ∧
      ((ABWParser.skipLoop tok reader pending).1 = 1 →
        (ABWParser.skipLoop tok reader pending).2.pending.length < pending.length ∧
        dispatchedAux (some tok) (pending.map fun ev => ev.node) =
          dispatchedAux none
            ((ABWParser.skipLoop tok reader pending).2.pending.map fun ev => ev.node)) ∧
      ((ABWParser.skipLoop tok reader pending).1 ≠ 1 →
        (ABWParser.skipLoop tok reader pending).1 = (if reader.failed then -1 else 0) ∧
        (ABWParser.skipLoop tok reader pending).2.pending = [] ∧
        dispatchedAux (some tok) (pending.map fun ev => ev.node) = []) ∧
      (reader.stuck = false → (∀ ev ∈ pending, ev.stuck = false) →
        (ABWParser.skipLoop tok reader pending).2.stuck = false ∧
        ∀ ev ∈ (ABWParser.skipLoop tok reader pending).2.pending, ev.stuck = false) := by
  intro pending
  induction pending with
  | nil =>
    intro reader
    refine ⟨?_, ?_, ?_, ?_, ?_⟩
    · simp [ABWParser.skipLoop, xmlTextReaderRead]
    · simp [ABWParser.skipLoop, xmlTextReaderRead]
    · intro h
      simp only [ABWParser.skipLoop, xmlTextReaderRead] at h
      split at h <;> simp at h
    · intro _
      simp [ABWParser.skipLoop, xmlTextReaderRead, dispatchedAux]
    · intro h _
      simp [ABWParser.skipLoop, xmlTextReaderRead, h]
  | cons ev rest ih =>
    intro reader
    simp only [ABWParser.skipLoop, xmlTextReaderRead]
    by_cases hgo : tok ≠ ev.node.token ∨ NodeType.XML_READER_TYPE_END_ELEMENT ≠ ev.node.nodeType
    · simp only [hgo, true_and, if_true, List.map_cons, dispatchedAux, List.length_cons]
      obtain ⟨h1, h2, h3, h4, h5⟩ :=
        ih { node := ev.node, stuck := ev.stuck, pending := rest, failed := reader.failed }
      refine ⟨h1, Nat.le_succ_of_le h2, ?_, ?_, ?_⟩
      · intro h
        exact ⟨Nat.lt_succ_of_lt (h3 h).1, (h3 h).2⟩
      · intro h
        exact h4 h
      · intro _ hall
        exact h5 (hall ev (List.mem_cons_self _ _))
          (fun e he => hall e (List.mem_cons_of_mem _ he))
    · simp only [hgo, false_and, if_false, List.map_cons, dispatchedAux, List.length_cons]
      refine ⟨trivial, Nat.le_succ _, ?_, ?_, ?_⟩
      · intro _; exact ⟨Nat.lt_succ_self _, trivial⟩
      · intro h; exact absurd rfl h
      · intro _ hall
        exact ⟨hall ev (List.mem_cons_self _ _), fun e he => hall e (List.mem_cons_of_mem _ he)⟩

/-- What the dispatch of a node leaves of the reader. -/
theorem advance_spec (reader : Reader) :
    (advance reader).2.failed = reader.failed ∧
    (advance reader).2.pending.length ≤ reader.pending.length ∧
    ((advance reader).1 = 1 →
      dispatchedAux none (reader.node :: reader.pending.map fun ev => ev.node) =
        reader.node :: dispatchedAux none ((advance reader).2.pending.map fun ev => ev.node)) ∧
    ((advance reader).1 ≠ 1 →
      (advance reader).1 = (if reader.failed then -1 else 0) ∧
      (advance reader).2.pending = [] ∧
      dispatchedAux none (reader.node :: reader.pending.map fun ev => ev.node) = [reader.node]) ∧
    (reader.stuck = false → (∀ ev ∈ reader.pending, ev.stuck = false) →
      (advance reader).2.stuck = false ∧ ∀ ev ∈ (advance reader).2.pending, ev.stuck = false) := by
  unfold advance
  by_cases hskip : isSkipStart reader.node = true
  · simp only [hskip, if_true, dispatchedAux]
    obtain ⟨h1, h2, h3, h4, h5⟩ := skipLoop_spec reader.node.token reader.pending reader
    refine ⟨h1, h2, ?_, ?_, h5⟩
    · intro h; rw [(h3 h).2]
    · intro h; exact ⟨(h4 h).1, (h4 h).2.1, by rw [(h4 h).2.2]⟩
  · simp only [hskip, Bool.false_eq_true, if_false, dispatchedAux, le_refl, true_and,
      ne_eq, not_true_eq_false, false_implies, implies_true]
    exact fun h hall => ⟨h, hall⟩

theorem xmlTextReaderRead_nil (reader : Reader) (h : reader.pending = []) :
    xmlTextReaderRead reader =
      (if reader.failed then -1 else 0, { reader with node := noNode }) := by
  unfold xmlTextReaderRead
  rw [h]

theorem xmlTextReaderRead_cons (reader : Reader) (ev : ReadEvent) (rest : List ReadEvent)
    (h : reader.pending = ev :: rest) :
    xmlTextReaderRead reader =
      (1, { reader with node := ev.node, stuck := ev.stuck, pending := rest }) := by
  unfold xmlTextReaderRead
  rw [h]

/-- What one turn of the loop of `processXmlDocument` leaves of the reader. -/
theorem nextRead_spec (reader : Reader) :
    (nextRead reader).2.failed = reader.failed ∧
    ((nextRead reader).1 = 1 →
      (nextRead reader).2.pending.length < reader.pending.length ∧
      dispatchedAux none (reader.node :: reader.pending.map fun ev => ev.node) =
        reader.node :: dispatchedAux none
          ((nextRead reader).2.node :: (nextRead reader).2.pending.map fun ev => ev.node)) ∧
    ((nextRead reader).1 ≠ 1 →
      (nextRead reader).1 = (if reader.failed then -1 else 0) ∧
      dispatchedAux none (reader.node :: reader.pending.map fun ev => ev.node) = [reader.node]) ∧
    (reader.stuck = false → (∀ ev ∈ reader.pending, ev.stuck = false) →
      (nextRead reader).2.stuck = false ∧ ∀ ev ∈ (nextRead reader).2.pending, ev.stuck = false) := by
  obtain ⟨h1, h2, h3, h4, h5⟩ := advance_spec reader
  unfold nextRead
  by_cases hret : (advance reader).1 = 1
  · simp only [hret, if_true]
    cases hp : (advance reader).2.pending with
    | nil =>
      rw [xmlTextReaderRead_nil _ hp]
      rw [hp] at h3
      refine ⟨h1, ?_, ?_, ?_⟩
      · intro h
        exfalso
        simp only at h
        split at h <;> simp at h
      · intro _
        simp only [h1, true_and]
        rw [h3 hret]
        rfl
      · intro hs hall
        exact ⟨(h5 hs hall).1, by simp [hp]⟩
    | cons ev rest =>
      rw [xmlTextReaderRead_cons _ ev rest hp]
      rw [hp] at h2 h3 h5
      refine ⟨h1, ?_, ?_, ?_⟩
      · intro _
        exact ⟨h2, h3 hret⟩
      · intro h; exact absurd rfl h
      · intro hs hall
        exact ⟨(h5 hs hall).2 ev (List.mem_cons_self _ _),
          fun e he => (h5 hs hall).2 e (List.mem_cons_of_mem _ he)⟩
  · rw [if_neg hret]
    exact ⟨h1, fun h => absurd h hret, fun _ => ⟨(h4 hret).1, (h4 hret).2.2⟩, h5⟩
theorem bind_ok_inv {α β : Type} (r : Res α) (g : α → Res β) (y : β) (h : r.bind g = .ok y) :
    ∃ a, r = .ok a ∧ g a = .ok y := by
  cases r with
  | ok a => exact ⟨a, rfl, h⟩
  | fail f => cases h

theorem keepReader_ok (reader : Reader) (r : Res ABWParser) (x : Int × Reader × ABWParser)
    (h : ABWParser.keepReader reader r = .ok x) : x.1 = 1 ∧ x.2.1 = reader ∧ r = .ok x.2.2 := by
  obtain ⟨a, ha, hx⟩ := bind_ok_inv r _ x h
  cases hx
  exact ⟨rfl, rfl, ha⟩

theorem advance_of_not_skip (reader : Reader) (h : isSkipStart reader.node = false) :
    advance reader = (1, reader) := by
  unfold advance
  rw [h]
  rfl

theorem advance_of_skip (reader : Reader) (h : isSkipStart reader.node = true) :
    advance reader = ABWParser.skipLoop reader.node.token reader reader.pending := by
  unfold advance
  rw [h]
  rfl

/-- The loop of `readD` reads what the loop of a skipped region reads. -/
theorem readDLoop_reader (env : Env) (name mimeType : Option Str) (base64 : Bool) :
    ∀ (pending : List ReadEvent) (reader : Reader) (p : ABWParser) (x : Int × Reader × ABWParser),
      ABWParser.readDLoop env name mimeType base64 reader pending p = .ok x →
      (x.1, x.2.1) = ABWParser.skipLoop .XML_D reader pending := by
  intro pending
  induction pending with
  | nil =>
    intro reader p x h
    simp only [ABWParser.readDLoop] at h
    cases h
    rfl
  | cons ev rest ih =>
    intro reader p x h
    simp only [ABWParser.readDLoop] at h
    simp only [ABWParser.skipLoop]
    split at h
    · cases h
    · rename_i p1 _
      by_cases hgo : (Token.XML_D ≠ (xmlTextReaderRead { reader with pending := ev :: rest }).2.node.token ∨
          NodeType.XML_READER_TYPE_END_ELEMENT ≠
            (xmlTextReaderRead { reader with pending := ev :: rest }).2.node.nodeType) ∧
          1 = (xmlTextReaderRead { reader with pending := ev :: rest }).1
      · rw [if_pos hgo] at h
        rw [if_pos hgo]
        exact ih _ _ _ h
      · rw [if_neg hgo] at h
        rw [if_neg hgo]
        cases h
        rfl

theorem keepReader_pair (reader : Reader) (r : Res ABWParser) (x : Int × Reader × ABWParser)
    (h : ABWParser.keepReader reader r = .ok x) : (x.1, x.2.1) = (1, reader) := by
  obtain ⟨h1, h2, _⟩ := keepReader_ok reader r x h
  rw [h1, h2]

theorem ok_pair (reader : Reader) (p : ABWParser) (x : Int × Reader × ABWParser)
    (h : (Res.ok (1, reader, p) : Res (Int × Reader × ABWParser)) = .ok x) :
    (x.1, x.2.1) = (1, reader) := by
  cases h
  rfl

/-- What the `switch` of `processXmlNode` makes of `ret` and the reader. -/
theorem dispatchToken_reader (env : Env) (reader : Reader) (p : ABWParser)
    (x : Int × Reader × ABWParser) (h : ABWParser.dispatchToken env reader p = .ok x) :
    (x.1, x.2.1) = advance reader := by
  unfold ABWParser.dispatchToken at h
  by_cases hopen : ABWParser.opens reader = true
  · have htype : reader.node.nodeType = .XML_READER_TYPE_ELEMENT := by
      simpa [ABWParser.opens] using hopen
    cases htok : reader.node.token with
    | XML_HISTORY =>
      rw [htok] at h
      simp only [hopen, if_true] at h
      cases h
      rw [advance_of_skip reader (by simp [isSkipStart, htok, htype]), htok]
      rfl
    | XML_REVISIONS =>
      rw [htok] at h
      simp only [hopen, if_true] at h
      cases h
      rw [advance_of_skip reader (by simp [isSkipStart, htok, htype]), htok]
      rfl
    | XML_IGNOREDWORDS =>
      rw [htok] at h
      simp only [hopen, if_true] at h
      cases h
      rw [advance_of_skip reader (by simp [isSkipStart, htok, htype]), htok]
      rfl
    | XML_D =>
      rw [htok] at h
      simp only [hopen, if_true] at h
      rw [advance_of_skip reader (by simp [isSkipStart, htok, htype]), htok]
      exact readDLoop_reader env _ _ _ _ _ _ _ h
    | _ =>
      rw [htok] at h
      simp only [hopen, if_true] at h
      rw [advance_of_not_skip reader (by simp [isSkipStart, htok])]
      first
      | exact keepReader_pair _ _ _ h
      | exact ok_pair _ _ _ h
  · have hns : isSkipStart reader.node = false := by
      simp only [ABWParser.opens, decide_eq_true_eq] at hopen
      simp [isSkipStart, hopen]
    rw [advance_of_not_skip reader hns]
    cases htok : reader.node.token <;> rw [htok] at h <;> simp only [hopen, if_false] at h <;>
      first
      | exact keepReader_pair _ _ _ h
      | exact ok_pair _ _ _ h

/-- What `processXmlNode` makes of `ret` and the reader: a region start element
takes the reader to the end of the region, every other node leaves it alone. -/
theorem processXmlNode_reader (env : Env) (reader : Reader) (p : ABWParser)
    (x : Int × Reader × ABWParser) (h : ABWParser.processXmlNode env reader p = .ok x) :
    (x.1, x.2.1) = advance reader := by
  unfold ABWParser.processXmlNode at h
  by_cases hws : reader.node.nodeType = .XML_READER_TYPE_SIGNIFICANT_WHITESPACE
  · rw [if_pos hws] at h
    obtain ⟨a, _, hx⟩ := bind_ok_inv _ _ x h
    cases hx
    rw [advance_of_not_skip reader (by simp [isSkipStart, hws])]
  · rw [if_neg hws] at h
    obtain ⟨a, _, hx⟩ := bind_ok_inv _ _ x h
    exact dispatchToken_reader env reader a x hx

/-! ## The dispatcher: what a node does to the collectors and to the stack -/

theorem eff_of_same (k : Nat → Nat) (p p1 : ABWParser) (hc : p1.m_collector = p.m_collector)
    (hs : p1.m_state.m_inStyleParsing = p.m_state.m_inStyleParsing)
    (hst : p1.m_state.m_collectorStack = p.m_state.m_collectorStack)
    (hk : ∀ d, k d = d) : Eff k p (.ok p1) := by
  refine ⟨hs, ?_, ?_, fun _ => hst, fun _ _ => by rw [hst, hk]⟩
  · rw [hc]; exact id
  · intro h
    unfold AllContent at h ⊢
    rw [hc, hst]
    exact h

theorem eff_ok (p : ABWParser) : Eff id p (.ok p) :=
  eff_of_same id p p rfl rfl rfl (fun _ => rfl)

theorem eff_congr (k k2 : Nat → Nat) (p : ABWParser) (r : Res ABWParser) (hk : ∀ d, k d = k2 d)
    (h : Eff k p r) : Eff k2 p r := by
  cases r with
  | fail f => exact h
  | ok p1 =>
    obtain ⟨h1, h2, h3, h4, h5⟩ := h
    exact ⟨h1, h2, h3, h4, fun hs hc => by rw [h5 hs hc, hk]⟩

theorem eff_fail (k k2 : Nat → Nat) (p : ABWParser) (f : Fault) (h : Eff k p (.fail f)) :
    Eff k2 p (.fail f) := h

/-- The effects of two pieces that follow each other compose. -/
theorem eff_trans (k1 k2 : Nat → Nat) (p p1 : ABWParser) (r : Res ABWParser)
    (h1 : Eff k1 p (.ok p1)) (h2 : Eff k2 p1 r) : Eff (fun d => k2 (k1 d)) p r := by
  obtain ⟨a1, a2, a3, a4, a5⟩ := h1
  cases r with
  | fail f =>
    exact ⟨h2.1, fun hall => h2.2 (a3 hall)⟩
  | ok p2 =>
    obtain ⟨b1, b2, b3, b4, b5⟩ := h2
    refine ⟨by rw [b1, a1], fun hc => b2 (a2 hc), fun hall => b3 (a3 hall), ?_, ?_⟩
    · intro hs
      rw [b4 (by rw [a1]; exact hs), a4 hs]
    · intro hs hc
      rw [b5 (by rw [a1]; exact hs) (a2 hc), a5 hs hc]

theorem eff_bind (k1 k2 : Nat → Nat) (p : ABWParser) (r : Res ABWParser)
    (g : ABWParser → Res ABWParser) (h1 : Eff k1 p r) (h2 : ∀ p1, Eff k2 p1 (g p1)) :
    Eff (fun d => k2 (k1 d)) p (r.bind g) := by
  cases r with
  | fail f => exact h1
  | ok p1 => exact eff_trans k1 k2 p p1 _ h1 (h2 p1)

theorem eff_ite (k : Nat → Nat) (p : ABWParser) (c : Prop) [Decidable c] (a b : Res ABWParser)
    (ha : Eff k p a) (hb : Eff k p b) : Eff k p (if c then a else b) := by
  split
  · exact ha
  · exact hb

theorem collectorCall_content (env : Env) (call : Call) (cc : ABWContentCollector) :
    collectorCall env call (.content cc) = .fail .exception ∨
    collectorCall env call (.content cc) = .ok (.content { calls := cc.calls ++ [call] }) := by
  simp only [collectorCall]
  by_cases h : env.throws cc.calls call = true
  · left; simp [h]
  · right; simp [h]

theorem collectorCall_styles (env : Env) (call : Call) (sc : ABWStylesCollector) :
    collectorCall env call (.styles sc) = .fail .undefinedBehaviour ∨
    ∃ sc1, collectorCall env call (.styles sc) = .ok (.styles sc1) := by
  simp only [collectorCall]
  cases h : stylesCall call sc with
  | ok sc1 => right; exact ⟨sc1, rfl⟩
  | fail f =>
    left
    have hf : f = .undefinedBehaviour := by
      unfold stylesCall at h
      split at h <;> first | cases h | (split at h <;> first | (cases h; rfl) | cases h)
    rw [hf]
    rfl

theorem not_isContent_styles (sc : ABWStylesCollector) : ¬ IsContent (some (.styles sc)) := by
  rintro ⟨cc, h⟩
  cases h

theorem not_isContent_none : ¬ IsContent none := by
  rintro ⟨cc, h⟩
  cases h

/-- A call on the collector changes the collector only; it fails with undefined
behaviour when there is none, or inside a styles collector. -/
theorem eff_callCollector (env : Env) (call : Call) (p : ABWParser) :
    Eff id p (ABWParser.callCollector env call p) := by
  unfold ABWParser.callCollector
  cases hc : p.m_collector with
  | none =>
    refine ⟨Or.inr rfl, fun hall => ?_⟩
    rw [AllContent, hc] at hall
    exact absurd hall.1 not_isContent_none
  | some c =>
    cases c with
    | styles sc =>
      rcases collectorCall_styles env call sc with h | ⟨sc1, h⟩
      · simp only [h, Res.bind]
        refine ⟨Or.inr rfl, fun hall => ?_⟩
        rw [AllContent, hc] at hall
        exact absurd hall.1 (not_isContent_styles sc)
      · simp only [h, Res.bind]
        refine ⟨rfl, fun _ => by simp, fun hall => ?_, fun _ => rfl, fun _ _ => rfl⟩
        rw [AllContent, hc] at hall
        exact absurd hall.1 (not_isContent_styles sc)
    | content cc =>
      rcases collectorCall_content env call cc with h | h
      · simp only [h, Res.bind]
        exact ⟨Or.inl rfl, fun _ => rfl⟩
      · simp only [h, Res.bind]
        refine ⟨rfl, fun _ => by simp, fun hall => ⟨⟨_, rfl⟩, hall.2⟩, fun _ => rfl, fun _ _ => rfl⟩

theorem eff_callCollectorIf (env : Env) (call : Call) (p : ABWParser) :
    Eff id p (ABWParser.callCollectorIf env call p) := by
  unfold ABWParser.callCollectorIf
  split
  · exact eff_ok p
  · exact eff_callCollector env call p

theorem eff_readSection (env : Env) (reader : Reader) (p : ABWParser) :
    Eff id p (ABWParser.readSection env reader p) := by
  unfold ABWParser.readSection
  simp only []
  split
  · exact eff_callCollectorIf env _ p
  · exact eff_callCollectorIf env _ p

theorem eff_readS (env : Env) (reader : Reader) (p : ABWParser) :
    Eff id p (ABWParser.readS env reader p) := by
  unfold ABWParser.readS
  split
  · exact eff_ok p
  · split
    · exact eff_callCollectorIf env _ p
    · exact eff_ok p

theorem eff_openClose (env : Env) (reader : Reader) (p : ABWParser)
    (openIt : ABWParser → Res ABWParser) (closeCall : Call) (checked : Bool)
    (hopen : ∀ q, Eff id q (openIt q)) :
    Eff id p (ABWParser.openClose env reader p openIt closeCall checked) := by
  have hform : ABWParser.openClose env reader p openIt closeCall checked =
      (if ABWParser.opens reader then openIt p else .ok p).bind fun p1 =>
        if ABWParser.closes reader then
          if checked then ABWParser.callCollectorIf env closeCall p1
          else ABWParser.callCollector env closeCall p1
        else .ok p1 := by
    unfold ABWParser.openClose
    cases (if ABWParser.opens reader then openIt p else .ok p) <;> rfl
  rw [hform]
  refine eff_bind id id p _ _ (eff_ite _ _ _ _ _ (hopen p) (eff_ok p)) fun p1 => ?_
  refine eff_ite _ _ _ _ _ (eff_ite _ _ _ _ _ ?_ ?_) (eff_ok p1)
  · exact eff_callCollectorIf env _ p1
  · exact eff_callCollector env _ p1

theorem eff_dispatchText (env : Env) (reader : Reader) (p : ABWParser) :
    Eff id p (ABWParser.dispatchText env reader p) := by
  unfold ABWParser.dispatchText
  refine eff_ite _ _ _ _ _ (eff_ite _ _ _ _ _ (eff_ok p) ?_) (eff_callCollector env _ p)
  exact eff_bind id id p _ _ (eff_callCollector env _ p)
    fun p1 => eff_of_same id p1 _ rfl rfl rfl (fun _ => rfl)

theorem parserOf_keepReader (reader : Reader) (r : Res ABWParser) :
    parserOf (ABWParser.keepReader reader r) = r := by
  cases r <;> rfl

theorem eff_readDLoop (env : Env) (name mimeType : Option Str) (base64 : Bool) :
    ∀ (pending : List ReadEvent) (reader : Reader) (p : ABWParser),
      Eff id p (parserOf (ABWParser.readDLoop env name mimeType base64 reader pending p)) := by
  intro pending
  induction pending with
  | nil => intro reader p; exact eff_ok p
  | cons ev rest ih =>
    intro reader p
    simp only [ABWParser.readDLoop]
    have hcol : Eff id p
        (if (xmlTextReaderRead { reader with pending := ev :: rest }).2.node.nodeType =
              .XML_READER_TYPE_TEXT ∨
            (xmlTextReaderRead { reader with pending := ev :: rest }).2.node.nodeType =
              .XML_READER_TYPE_CDATA then
          match (xmlTextReaderRead { reader with pending := ev :: rest }).2.node.value with
          | some data =>
            ABWParser.callCollectorIf env
              (.collectData name mimeType (ABWParser.binaryData env base64 data)) p
          | none => .ok p
        else .ok p) := by
      refine eff_ite _ _ _ _ _ ?_ (eff_ok p)
      split
      · exact eff_callCollectorIf env _ p
      · exact eff_ok p
    revert hcol
    generalize (if (xmlTextReaderRead { reader with pending := ev :: rest }).2.node.nodeType =
              .XML_READER_TYPE_TEXT ∨
            (xmlTextReaderRead { reader with pending := ev :: rest }).2.node.nodeType =
              .XML_READER_TYPE_CDATA then
          match (xmlTextReaderRead { reader with pending := ev :: rest }).2.node.value with
          | some data =>
            ABWParser.callCollectorIf env
              (.collectData name mimeType (ABWParser.binaryData env base64 data)) p
          | none => .ok p
        else .ok p) = collected
    intro hcol
    cases collected with
    | fail f => exact hcol
    | ok p1 =>
      simp only []
      split
      · exact eff_trans id id p p1 _ hcol (ih _ p1)
      · exact hcol

/-- The source's `readFrame` pushes one collector outside the styles pass. -/
theorem eff_readFrame (env : Env) (reader : Reader) (p : ABWParser) :
    Eff (fun d => d + 1) p (ABWParser.readFrame env reader p) := by
  cases hc : p.m_collector with
  | none =>
    have : ABWParser.readFrame env reader p = .ok p := by
      unfold ABWParser.readFrame
      rw [hc]
    rw [this]
    exact ⟨rfl, id, id, fun _ => rfl, fun _ h => absurd hc h⟩
  | some c =>
    cases hs : p.m_state.m_inStyleParsing with
    | true =>
      have : ABWParser.readFrame env reader p =
          ABWParser.callCollector env (.openFrame (getAttribute reader "props")
            (getAttribute reader "strux-image-dataid") (getAttribute reader "title")
            (getAttribute reader "alt")) p := by
        unfold ABWParser.readFrame
        rw [hc]
        simp only [hs, if_true]
      rw [this]
      have h := eff_callCollector env (.openFrame (getAttribute reader "props")
            (getAttribute reader "strux-image-dataid") (getAttribute reader "title")
            (getAttribute reader "alt")) p
      revert h
      cases ABWParser.callCollector env _ p with
      | fail f => exact id
      | ok p1 =>
        rintro ⟨h1, h2, h3, h4, _⟩
        exact ⟨h1, h2, h3, h4, (fun hf => by simp [hs] at hf)⟩
    | false =>
      rw [readFrame_push env reader p c hc hs]
      split
      · exact ⟨Or.inl rfl, fun _ => rfl⟩
      · refine ⟨rfl, (fun _ => by simp), ?_, (fun ht => by simp [hs] at ht), fun _ _ => rfl⟩
        intro hall
        refine ⟨⟨_, rfl⟩, ?_⟩
        intro c1 hc1
        simp only [List.mem_cons] at hc1
        rcases hc1 with h | h
        · rw [h, ← hc]; exact hall.1
        · exact hall.2 c1 h

theorem collectorCall_isContent (env : Env) (call : Call) (c c1 : ABWCollector)
    (h : collectorCall env call c = .ok c1) (hc : IsContent (some c)) : IsContent (some c1) := by
  obtain ⟨cc, hcc⟩ := hc
  cases hcc
  rcases collectorCall_content env call cc with h2 | h2
  · rw [h2] at h; cases h
  · rw [h2] at h; cases h; exact ⟨_, rfl⟩

/-- The source's `readCloseFrame` pops one collector, if there is one, outside the
styles pass. -/
theorem eff_readCloseFrame (env : Env) (p : ABWParser) :
    Eff (fun d => d - 1) p (ABWParser.readCloseFrame env p) := by
  unfold ABWParser.readCloseFrame
  cases hc : p.m_collector with
  | none => exact ⟨rfl, fun h => absurd hc h, id, fun _ => rfl, fun _ h => absurd hc h⟩
  | some c =>
    simp only []
    rcases collectorCall_frame env .closeFrame c (Or.inr (Or.inl rfl)) with h | ⟨c1, h⟩
    · rw [h]
      exact ⟨Or.inl rfl, fun _ => rfl⟩
    · rw [h]
      simp only []
      have hcont : AllContent p → IsContent (some c1) := fun hall =>
        collectorCall_isContent env _ c c1 h (by rw [← hc]; exact hall.1)
      cases hs : p.m_state.m_inStyleParsing with
      | true =>
        simp only [if_true]
        exact ⟨rfl, (fun _ => by simp), fun hall => ⟨hcont hall, hall.2⟩, fun _ => rfl,
          (fun hf => by simp [hs] at hf)⟩
      | false =>
        simp only [Bool.false_eq_true, if_false]
        cases hst : p.m_state.m_collectorStack with
        | nil =>
          simp only []
          refine ⟨rfl, (fun _ => by simp), fun hall => ⟨hcont hall, hall.2⟩,
            (fun ht => by simp [hs] at ht), fun _ _ => ?_⟩
          simp [hst]
        | cons top rest =>
          simp only []
          have htr : (match (closeFrameOut env c).1 with
              | some elements =>
                collectorCall env (.addFrameElements elements (closeFrameOut env c).2) top
              | none => .ok top) = .fail .exception ∨
              ∃ top1, (match (closeFrameOut env c).1 with
              | some elements =>
                collectorCall env (.addFrameElements elements (closeFrameOut env c).2) top
              | none => .ok top) = .ok top1 ∧ (IsContent (some top) → IsContent (some top1)) := by
            cases (closeFrameOut env c).1 with
            | none => right; exact ⟨top, rfl, id⟩
            | some elements =>
              simp only []
              rcases collectorCall_frame env
                (.addFrameElements elements (closeFrameOut env c).2) top
                (Or.inr (Or.inr ⟨_, _, rfl⟩)) with h2 | ⟨top1, h2⟩
              · left; exact h2
              · right; exact ⟨top1, h2, collectorCall_isContent env _ top top1 h2⟩
          rcases htr with h2 | ⟨top1, h2, h3⟩
          · rw [h2]
            exact ⟨Or.inl rfl, fun _ => rfl⟩
          · rw [h2]
            simp only []
            refine ⟨by simp [hs], (fun _ => by simp), ?_, (fun ht => by simp [hs] at ht),
              (fun _ _ => by simp [hst])⟩
            intro hall
            rw [AllContent, hst] at hall
            exact ⟨h3 (hall.2 top (List.mem_cons_self _ _)),
              fun c2 hc2 => hall.2 c2 (List.mem_cons_of_mem _ hc2)⟩

/-- The frame case of the switch. -/
theorem eff_dispatchFrame (env : Env) (reader : Reader) (p : ABWParser) :
    Eff (fun d => (if ABWParser.opens reader then d + 1 else d) -
        (if ABWParser.closes reader then 1 else 0)) p
      (ABWParser.dispatchFrame env reader p) := by
  have hform : ABWParser.dispatchFrame env reader p =
      (if ABWParser.opens reader then ABWParser.readFrame env reader p else .ok p).bind fun p1 =>
        if ABWParser.closes reader then ABWParser.readCloseFrame env p1 else .ok p1 := by
    unfold ABWParser.dispatchFrame
    cases (if ABWParser.opens reader then ABWParser.readFrame env reader p else .ok p) <;> rfl
  rw [hform]
  refine eff_bind (fun d => if ABWParser.opens reader then d + 1 else d)
    (fun d => d - (if ABWParser.closes reader then 1 else 0)) p _ _ ?_ fun p1 => ?_
  · cases ABWParser.opens reader with
    | true => exact eff_readFrame env reader p
    | false => exact eff_ok p
  · cases ABWParser.closes reader with
    | true => exact eff_readCloseFrame env p1
    | false => exact eff_ok p1

theorem frameStep_of_ne (depth : Nat) (node : XmlNode) (h : node.token ≠ .XML_FRAME) :
    frameStep depth node = depth := by
  simp [frameStep, h]

theorem eff_keep (reader : Reader) (p : ABWParser) (r : Res ABWParser)
    (htok : reader.node.token ≠ .XML_FRAME) (h : Eff id p r) :
    Eff (fun d => frameStep d reader.node) p (parserOf (ABWParser.keepReader reader r)) := by
  rw [parserOf_keepReader]
  exact eff_congr id _ p r (fun d => (frameStep_of_ne d _ htok).symm) h

theorem eff_triple (reader : Reader) (ret : Int) (reader1 : Reader) (p p1 : ABWParser)
    (htok : reader.node.token ≠ .XML_FRAME) (h : Eff id p (.ok p1)) :
    Eff (fun d => frameStep d reader.node) p (parserOf (.ok (ret, reader1, p1))) :=
  eff_congr id _ p _ (fun d => (frameStep_of_ne d _ htok).symm) h

theorem eff_skip (reader : Reader) (a b : Int × Reader) (p : ABWParser)
    (htok : reader.node.token ≠ .XML_FRAME) :
    Eff (fun d => frameStep d reader.node) p
      (parserOf (if ABWParser.opens reader then .ok (a.1, a.2, p) else .ok (b.1, b.2, p))) := by
  split
  · exact eff_triple reader _ _ p p htok (eff_ok p)
  · exact eff_triple reader _ _ p p htok (eff_ok p)

/-- The effect of the `switch` of `processXmlNode`. -/
theorem eff_dispatchToken (env : Env) (reader : Reader) (p : ABWParser)
    (hws : reader.node.nodeType ≠ .XML_READER_TYPE_SIGNIFICANT_WHITESPACE) :
    Eff (fun d => frameStep d reader.node) p
      (parserOf (ABWParser.dispatchToken env reader p)) := by
  unfold ABWParser.dispatchToken
  cases htok : reader.node.token with
  | XML_FRAME =>
    simp only []
    rw [parserOf_keepReader]
    refine eff_congr _ _ _ _ ?_ (eff_dispatchFrame env reader p)
    intro d
    simp [frameStep, htok, hws, ABWParser.opens, ABWParser.closes]
  | XML_ABIWORD =>
    exact eff_keep reader p _ (by simp [htok])
      (eff_ite _ _ _ _ _ (eff_callCollectorIf env _ p) (eff_ok p))
  | XML_METADATA =>
    refine eff_triple reader _ _ p _ (by simp [htok]) (eff_of_same id p _ ?_ ?_ ?_ (fun _ => rfl))
    · unfold ABWParser.dispatchMetadata; simp only []; split <;> split <;> rfl
    · unfold ABWParser.dispatchMetadata; simp only []; split <;> split <;> rfl
    · unfold ABWParser.dispatchMetadata; simp only []; split <;> split <;> rfl
  | XML_M =>
    refine eff_triple reader _ _ p _ (by simp [htok]) (eff_of_same id p _ ?_ ?_ ?_ (fun _ => rfl))
    · split
      · unfold ABWParser.readM; split <;> rfl
      · rfl
    · split
      · unfold ABWParser.readM; split <;> rfl
      · rfl
    · split
      · unfold ABWParser.readM; split <;> rfl
      · rfl
  | XML_HISTORY => exact eff_skip reader (ABWParser.readHistory reader) (1, reader) p (by simp [htok])
  | XML_REVISIONS =>
    exact eff_skip reader (ABWParser.readRevisions reader) (1, reader) p (by simp [htok])
  | XML_IGNOREDWORDS =>
    exact eff_skip reader (ABWParser.readIgnoredWords reader) (1, reader) p (by simp [htok])
  | XML_S =>
    exact eff_keep reader p _ (by simp [htok]) (eff_ite _ _ _ _ _ (eff_readS env reader p) (eff_ok p))
  | XML_L =>
    exact eff_keep reader p _ (by simp [htok])
      (eff_ite _ _ _ _ _ (eff_callCollectorIf env _ p) (eff_ok p))
  | XML_PAGESIZE =>
    exact eff_keep reader p _ (by simp [htok])
      (eff_ite _ _ _ _ _ (eff_callCollectorIf env _ p) (eff_ok p))
  | XML_SECTION =>
    exact eff_keep reader p _ (by simp [htok])
      (eff_openClose env reader p _ _ _ (fun q => eff_readSection env reader q))
  | XML_D =>
    simp only []
    split
    · exact eff_congr id _ p _ (fun d => (frameStep_of_ne d _ (by simp [htok])).symm)
        (eff_readDLoop env _ _ _ reader.pending reader p)
    · exact eff_triple reader _ _ p p (by simp [htok]) (eff_ok p)
  | XML_P =>
    exact eff_keep reader p _ (by simp [htok])
      (eff_openClose env reader p _ _ _ (fun q => eff_callCollectorIf env _ q))
  | XML_C =>
    exact eff_keep reader p _ (by simp [htok])
      (eff_openClose env reader p _ _ _ (fun q => eff_callCollectorIf env _ q))
  | XML_CBR =>
    exact eff_keep reader p _ (by simp [htok])
      (eff_ite _ _ _ _ _ (eff_callCollector env _ p) (eff_ok p))
  | XML_PBR =>
    exact eff_keep reader p _ (by simp [htok])
      (eff_ite _ _ _ _ _ (eff_callCollector env _ p) (eff_ok p))
  | XML_BR =>
    exact eff_keep reader p _ (by simp [htok])
      (eff_ite _ _ _ _ _ (eff_callCollector env _ p) (eff_ok p))
  | XML_A =>
    exact eff_keep reader p _ (by simp [htok])
      (eff_openClose env reader p _ _ _ (fun q => eff_callCollectorIf env _ q))
  | XML_FOOT =>
    exact eff_keep reader p _ (by simp [htok])
      (eff_openClose env reader p _ _ _ (fun q => eff_callCollectorIf env _ q))
  | XML_ENDNOTE =>
    exact eff_keep reader p _ (by simp [htok])
      (eff_openClose env reader p _ _ _ (fun q => eff_callCollectorIf env _ q))
  | XML_FIELD =>
    exact eff_keep reader p _ (by simp [htok])
      (eff_openClose env reader p _ _ _ (fun q => eff_callCollectorIf env _ q))
  | XML_TABLE =>
    exact eff_keep reader p _ (by simp [htok])
      (eff_openClose env reader p _ _ _ (fun q => eff_callCollectorIf env _ q))
  | XML_CELL =>
    exact eff_keep reader p _ (by simp [htok])
      (eff_openClose env reader p _ _ _ (fun q => eff_callCollectorIf env _ q))
  | XML_IMAGE =>
    exact eff_keep reader p _ (by simp [htok])
      (eff_ite _ _ _ _ _ (eff_callCollectorIf env _ p) (eff_ok p))
  | XML_TOKEN_INVALID => exact eff_triple reader _ _ p p (by simp [htok]) (eff_ok p)
  | otherToken => exact eff_triple reader _ _ p p (by simp [htok]) (eff_ok p)

theorem parserOf_bind (r : Res ABWParser) (g : ABWParser → Res (Int × Reader × ABWParser)) :
    parserOf (r.bind g) = r.bind fun p1 => parserOf (g p1) := by
  cases r <;> rfl

/-- The effect of `processXmlNode` on the parser: the collector stack changes its
height as `frameStep` says, and with content collectors only a failure is an
exception. -/
theorem eff_processXmlNode (env : Env) (reader : Reader) (p : ABWParser) :
    Eff (fun d => frameStep d reader.node) p
      (parserOf (ABWParser.processXmlNode env reader p)) := by
  unfold ABWParser.processXmlNode
  by_cases hws : reader.node.nodeType = .XML_READER_TYPE_SIGNIFICANT_WHITESPACE
  · rw [if_pos hws]
    have hk : ∀ d, id d = frameStep d reader.node := fun d => by simp [frameStep, hws]
    have hform : ∀ r : Res ABWParser,
        parserOf (r.bind fun p1 => (.ok (1, reader, p1) : Res (Int × Reader × ABWParser))) = r :=
      fun r => by cases r <;> rfl
    rw [hform]
    exact eff_congr id _ p _ hk (eff_ite _ _ _ _ _ (eff_callCollector env _ p) (eff_ok p))
  · rw [if_neg hws, parserOf_bind]
    exact eff_bind id (fun d => frameStep d reader.node) p _ _
      (eff_ite _ _ _ _ _ (eff_dispatchText env reader p) (eff_ok p))
      (fun p1 => eff_dispatchToken env reader p1 hws)

/-! ## The loop of `processXmlDocument` -/

theorem processLoop_exit (env : Env) (fuel : Nat) (ret : Int) (reader : Reader) (p : ABWParser)
    (h : ¬(1 = ret ∧ reader.stuck = false)) :
    ABWParser.processLoop env (fuel + 1) ret reader p = .ok (ret, reader, p) := by
  simp only [ABWParser.processLoop, if_neg h]

theorem processLoop_step (env : Env) (fuel : Nat) (reader : Reader) (p : ABWParser)
    (hs : reader.stuck = false) :
    ABWParser.processLoop env (fuel + 1) 1 reader p =
      match ABWParser.processXmlNode env reader p with
      | .fail f => .fail f
      | .ok x => ABWParser.processLoop env fuel (nextRead reader).1 (nextRead reader).2 x.2.2 := by
  simp only [ABWParser.processLoop, hs, and_self, if_true]
  cases hnode : ABWParser.processXmlNode env reader p with
  | fail f => rfl
  | ok x =>
    have hadv := processXmlNode_reader env reader p x hnode
    obtain ⟨ret1, reader1, p1⟩ := x
    simp only [] at hadv ⊢
    unfold nextRead
    rw [← hadv]
    by_cases h1 : ret1 = 1
    · simp only [h1, if_true]
    · simp only [h1, if_false]

/-- Induction over the turns of the loop of `processXmlDocument`: the bound
`fuel` suffices when it is the number of reads to come plus two. -/
theorem processLoop_induction (env : Env)
    (Q : Int → Reader → ABWParser → Res (Int × Reader × ABWParser) → Prop)
    (hexit : ∀ ret reader p, ¬(1 = ret ∧ reader.stuck = false) →
      Q ret reader p (.ok (ret, reader, p)))
    (hfail : ∀ reader p f, reader.stuck = false →
      ABWParser.processXmlNode env reader p = .fail f → Q 1 reader p (.fail f))
    (hstep : ∀ reader p x r, reader.stuck = false →
      ABWParser.processXmlNode env reader p = .ok x →
      Q (nextRead reader).1 (nextRead reader).2 x.2.2 r → Q 1 reader p r) :
    ∀ (fuel : Nat) (ret : Int) (reader : Reader) (p : ABWParser),
      (if ret = 1 then reader.pending.length + 2 else 1) ≤ fuel →
      Q ret reader p (ABWParser.processLoop env fuel ret reader p) := by
  intro fuel
  induction fuel with
  | zero =>
    intro ret reader p h
    exfalso
    split at h <;> omega
  | succ fuel ih =>
    intro ret reader p h
    by_cases hc : 1 = ret ∧ reader.stuck = false
    · obtain ⟨hret, hs⟩ := hc
      subst hret
      rw [processLoop_step env fuel reader p hs]
      cases hnode : ABWParser.processXmlNode env reader p with
      | fail f => exact hfail reader p f hs hnode
      | ok x =>
        refine hstep reader p x _ hs hnode (ih _ _ _ ?_)
        simp only [if_true] at h
        by_cases hn : (nextRead reader).1 = 1
        · have := ((nextRead_spec reader).2.1 hn).1
          rw [if_pos hn]
          omega
        · rw [if_neg hn]
          omega
    · rw [processLoop_exit env fuel ret reader p hc]
      exact hexit ret reader p hc

theorem processXmlNode_fault (env : Env) (reader : Reader) (p : ABWParser) (f : Fault)
    (h : ABWParser.processXmlNode env reader p = .fail f) :
    (f = .exception ∨ f = .undefinedBehaviour) ∧ (AllContent p → f = .exception) := by
  have := eff_processXmlNode env reader p
  rw [h] at this
  exact this

/-- The loop of `processXmlDocument` ends within its bound. -/
theorem processLoop_fuel (env : Env) (fuel : Nat) (ret : Int) (reader : Reader) (p : ABWParser)
    (h : (if ret = 1 then reader.pending.length + 2 else 1) ≤ fuel) :
    ABWParser.processLoop env fuel ret reader p ≠ .fail .outOfFuel := by
  refine processLoop_induction env (fun _ _ _ r => r ≠ .fail .outOfFuel) ?_ ?_ ?_ fuel ret reader p h
  · intro _ _ _ _ h; cases h
  · intro reader p f _ hnode h
    cases h
    rcases (processXmlNode_fault env reader p _ hnode).1 with h | h <;> cases h
  · intro _ _ _ _ _ _ h; exact h

/-- The height of the collector stack when the loop of `processXmlDocument` has
come to the end of the document outside the styles pass: every dispatched
node has changed it as `frameStep` says. -/
theorem processLoop_stack (env : Env) (fuel : Nat) (ret : Int) (reader : Reader) (p : ABWParser)
    (h : (if ret = 1 then reader.pending.length + 2 else 1) ≤ fuel)
    (hs : p.m_state.m_inStyleParsing = false) (hc : p.m_collector ≠ none)
    (x : Int × Reader × ABWParser) (hx : ABWParser.processLoop env fuel ret reader p = .ok x)
    (h0 : x.1 = 0) :
    x.2.2.m_state.m_collectorStack.length =
      (if ret = 1 then dispatchedAux none (reader.node :: reader.pending.map fun ev => ev.node)
        else []).foldl frameStep p.m_state.m_collectorStack.length ∧
    x.2.2.m_state.m_inStyleParsing = false ∧ x.2.2.m_collector ≠ none := by
  refine processLoop_induction env
    (fun ret reader p r => p.m_state.m_inStyleParsing = false → p.m_collector ≠ none →
      ∀ x, r = .ok x → x.1 = 0 →
      x.2.2.m_state.m_collectorStack.length =
        (if ret = 1 then dispatchedAux none (reader.node :: reader.pending.map fun ev => ev.node)
          else []).foldl frameStep p.m_state.m_collectorStack.length ∧
      x.2.2.m_state.m_inStyleParsing = false ∧ x.2.2.m_collector ≠ none)
    ?_ ?_ ?_ fuel ret reader p h hs hc x hx h0
  · intro ret reader p hne hs hc x hx h0
    cases hx
    simp only at h0
    subst h0
    exact ⟨rfl, hs, hc⟩
  · intro reader p f _ _ _ _ x hx
    cases hx
  · intro reader p y r _ hnode hq hs hc x hx h0
    have heff := eff_processXmlNode env reader p
    rw [hnode] at heff
    obtain ⟨e1, e2, _, _, e5⟩ := heff
    simp only [Res.bind] at e1 e2 e5
    have hs1 : y.2.2.m_state.m_inStyleParsing = false := by rw [e1, hs]
    obtain ⟨q1, q2, q3⟩ := hq hs1 (e2 hc) x hx h0
    refine ⟨?_, q2, q3⟩
    rw [q1, e5 hs hc]
    simp only [if_true]
    by_cases hn : (nextRead reader).1 = 1
    · rw [if_pos hn, ((nextRead_spec reader).2.1 hn).2, List.foldl_cons]
    · rw [if_neg hn, ((nextRead_spec reader).2.2.1 hn).2]
      rfl

/-- With content collectors only, a stream without stuck reports and a reader that
ends with 0, the loop of `processXmlDocument` is ended by an exception or
comes to the end of the document. -/
theorem processLoop_progress (env : Env) (fuel : Nat) (ret : Int) (reader : Reader)
    (p : ABWParser) (h : (if ret = 1 then reader.pending.length + 2 else 1) ≤ fuel)
    (hall : AllContent p) (hf : reader.failed = false) (hs : reader.stuck = false)
    (hp : ∀ ev ∈ reader.pending, ev.stuck = false) (hret : ret = 1 ∨ ret = 0) :
    ABWParser.processLoop env fuel ret reader p = .fail .exception ∨
    ∃ x, ABWParser.processLoop env fuel ret reader p = .ok x ∧ x.1 = 0 ∧
      x.2.1.stuck = false ∧ AllContent x.2.2 := by
  refine processLoop_induction env
    (fun ret reader p r => AllContent p → reader.failed = false → reader.stuck = false →
      (∀ ev ∈ reader.pending, ev.stuck = false) → (ret = 1 ∨ ret = 0) →
      r = .fail .exception ∨
      ∃ x, r = .ok x ∧ x.1 = 0 ∧ x.2.1.stuck = false ∧ AllContent x.2.2)
    ?_ ?_ ?_ fuel ret reader p h hall hf hs hp hret
  · intro ret reader p hne hall _ hs _ hret
    right
    refine ⟨_, rfl, ?_, hs, hall⟩
    rcases hret with h | h
    · exact absurd ⟨h.symm, hs⟩ hne
    · exact h
  · intro reader p f _ hnode hall _ _ _ _
    left
    rw [(processXmlNode_fault env reader p f hnode).2 hall]
  · intro reader p y r _ hnode hq hall hf hs hp _
    have heff := eff_processXmlNode env reader p
    rw [hnode] at heff
    obtain ⟨_, _, e3, _, _⟩ := heff
    obtain ⟨n1, n2, n3, n4⟩ := nextRead_spec reader
    refine hq (e3 hall) (by rw [n1, hf]) (n4 hs hp).1 (n4 hs hp).2 ?_
    by_cases hn : (nextRead reader).1 = 1
    · exact Or.inl hn
    · right
      rw [(n3 hn).1, hf]
      rfl

/-! ## `processXmlDocument` and `parse` -/

theorem first_read_fuel (stream : Input) :
    (if (xmlTextReaderRead (ABWParser.readerFor stream)).1 = 1 then
      (xmlTextReaderRead (ABWParser.readerFor stream)).2.pending.length + 2 else 1) ≤
      stream.events.length + 1 := by
  cases hev : stream.events with
  | nil =>
    rw [xmlTextReaderRead_nil _ (by simp [ABWParser.readerFor, hev])]
    cases (ABWParser.readerFor stream).failed <;> simp
  | cons ev rest =>
    rw [xmlTextReaderRead_cons _ ev rest (by simp [ABWParser.readerFor, hev])]
    simp

theorem first_read_dispatched (stream : Input) :
    (if (xmlTextReaderRead (ABWParser.readerFor stream)).1 = 1 then
      dispatchedAux none ((xmlTextReaderRead (ABWParser.readerFor stream)).2.node ::
        (xmlTextReaderRead (ABWParser.readerFor stream)).2.pending.map fun ev => ev.node)
      else []) = dispatched stream.events := by
  unfold dispatched
  cases hev : stream.events with
  | nil =>
    rw [xmlTextReaderRead_nil _ (by simp [ABWParser.readerFor, hev])]
    cases (ABWParser.readerFor stream).failed <;> simp [dispatchedAux]
  | cons ev rest =>
    rw [xmlTextReaderRead_cons _ ev rest (by simp [ABWParser.readerFor, hev])]
    simp

/-- The traversal `processXmlDocument` returns within the bound of its loop. -/
theorem processXmlDocument_fuel (env : Env) (input : Option Input) (p : ABWParser) :
    ABWParser.processXmlDocument env input p ≠ .fail .outOfFuel := by
  unfold ABWParser.processXmlDocument
  cases input with
  | none => intro h; cases h
  | some stream =>
    simp only []
    split
    · intro h; cases h
    · have hfuel := processLoop_fuel env _ _ _ p (first_read_fuel stream)
      revert hfuel
      cases ABWParser.processLoop env (stream.events.length + 1)
          (xmlTextReaderRead (ABWParser.readerFor stream)).1
          (xmlTextReaderRead (ABWParser.readerFor stream)).2 p with
      | fail f => intro hfuel h; simp only [] at h; cases h; exact hfuel rfl
      | ok x =>
        intro _ h
        obtain ⟨ret, reader, p1⟩ := x
        simp only [] at h
        have heff := eff_callCollectorIf env .endDocument p1
        revert heff h
        cases ABWParser.callCollectorIf env .endDocument p1 with
        | ok p2 => intro h _; cases h
        | fail f =>
          intro h heff
          cases h
          rcases heff.1 with h | h <;> cases h

/-- The height of the collector stack after a traversal outside the styles pass
that returned true: every dispatched node has changed it as `frameStep`
says. -/
theorem processXmlDocument_stack (env : Env) (stream : Input) (p p2 : ABWParser)
    (hs : p.m_state.m_inStyleParsing = false) (hc : p.m_collector ≠ none)
    (h : ABWParser.processXmlDocument env (some stream) p = .ok (true, p2)) :
    p2.m_state.m_collectorStack.length =
      (dispatched stream.events).foldl frameStep p.m_state.m_collectorStack.length := by
  unfold ABWParser.processXmlDocument at h
  simp only [] at h
  split at h
  · cases h
  · cases hloop : ABWParser.processLoop env (stream.events.length + 1)
        (xmlTextReaderRead (ABWParser.readerFor stream)).1
        (xmlTextReaderRead (ABWParser.readerFor stream)).2 p with
    | fail f => rw [hloop] at h; cases h
    | ok x =>
      rw [hloop] at h
      obtain ⟨ret, reader, p1⟩ := x
      simp only [] at h
      obtain ⟨p3, hend, hres⟩ := bind_ok_inv _ _ _ h
      simp only [Res.ok.injEq, Prod.mk.injEq, Bool.and_eq_true, decide_eq_true_eq] at hres
      obtain ⟨⟨hret, _⟩, hp⟩ := hres
      subst hp
      obtain ⟨q1, q2, q3⟩ := processLoop_stack env _ _ _ p (first_read_fuel stream) hs hc _ hloop hret
      rw [first_read_dispatched] at q1
      have heff := eff_callCollectorIf env .endDocument p1
      rw [hend] at heff
      rw [heff.2.2.2.2 q2 q3]
      exact q1

/-- With content collectors only, a stream without stuck reports and a reader that
ends with 0, the traversal is ended by an exception or returns true. -/
theorem processXmlDocument_progress (env : Env) (stream : Input) (p : ABWParser)
    (hread : stream.readable = true) (hfail : stream.failed = false)
    (hstuck : ∀ ev ∈ stream.events, ev.stuck = false) (hall : AllContent p) :
    ABWParser.processXmlDocument env (some stream) p = .fail .exception ∨
    ∃ p2, ABWParser.processXmlDocument env (some stream) p = .ok (true, p2) := by
  unfold ABWParser.processXmlDocument
  simp only [hread, Bool.true_eq_false, if_false]
  have hfirst : (xmlTextReaderRead (ABWParser.readerFor stream)).2.failed = false ∧
      (xmlTextReaderRead (ABWParser.readerFor stream)).2.stuck = false ∧
      (∀ ev ∈ (xmlTextReaderRead (ABWParser.readerFor stream)).2.pending, ev.stuck = false) ∧
      ((xmlTextReaderRead (ABWParser.readerFor stream)).1 = 1 ∨
        (xmlTextReaderRead (ABWParser.readerFor stream)).1 = 0) := by
    cases hev : stream.events with
    | nil =>
      rw [xmlTextReaderRead_nil _ (by simp [ABWParser.readerFor, hev])]
      simp [ABWParser.readerFor, hfail, hev]
    | cons ev rest =>
      rw [xmlTextReaderRead_cons _ ev rest (by simp [ABWParser.readerFor, hev])]
      rw [hev] at hstuck
      exact ⟨hfail, hstuck ev (List.mem_cons_self _ _),
        fun e he => hstuck e (List.mem_cons_of_mem _ he), Or.inl rfl⟩
  rcases processLoop_progress env _ _ _ p (first_read_fuel stream) hall hfirst.1 hfirst.2.1
    hfirst.2.2.1 hfirst.2.2.2 with h | ⟨x, h, h0, hst, hall1⟩
  · left; rw [h]
  · rw [h]
    obtain ⟨ret, reader, p1⟩ := x
    simp only [] at h0 hst hall1 ⊢
    have heff := eff_callCollectorIf env .endDocument p1
    revert heff
    cases ABWParser.callCollectorIf env .endDocument p1 with
    | fail f =>
      intro heff
      left
      rw [heff.2 hall1]
      rfl
    | ok p2 =>
      intro _
      right
      exact ⟨p2, by simp [Res.bind, h0, hst]⟩

theorem foldl_frameStep_mono (nodes : List XmlNode) :
    ∀ d1 d2 : Nat, d1 ≤ d2 → nodes.foldl frameStep d1 ≤ nodes.foldl frameStep d2 := by
  induction nodes with
  | nil => intro d1 d2 h; exact h
  | cons node rest ih =>
    intro d1 d2 h
    simp only [List.foldl_cons]
    apply ih
    unfold frameStep
    split
    · split <;> split <;> omega
    · exact h

theorem foldl_frameStep_of_wellFormed (nodes : List XmlNode) :
    ∀ d : Nat, wellFormed d nodes = true → nodes.foldl frameStep d = 0 := by
  induction nodes with
  | nil => intro d h; simpa [wellFormed] using h
  | cons node rest ih =>
    intro d h
    simp only [List.foldl_cons]
    unfold wellFormed at h
    unfold frameStep
    by_cases hf : node.token = .XML_FRAME ∧
        node.nodeType ≠ .XML_READER_TYPE_SIGNIFICANT_WHITESPACE
    · rw [if_pos hf] at h ⊢
      by_cases hc : node.nodeType = .XML_READER_TYPE_END_ELEMENT ∨ node.isEmptyElement = true
      · rw [if_pos hc] at h ⊢
        simp only [Bool.and_eq_true, decide_eq_true_eq] at h
        exact ih _ h.2
      · rw [if_neg hc] at h ⊢
        exact ih _ h
    · rw [if_neg hf] at h ⊢
      exact ih _ h

theorem parse_of_input (env : Env) (p : ABWParser) (input : Input)
    (hin : p.m_input = some input) :
    ABWParser.parse env p =
      match ABWParser.processXmlDocument env (some input) (ABWParser.stylesPassStart env p) with
      | .fail .exception => .ok (false, none)
      | .fail f => .fail f
      | .ok (false, p1) => .ok (false, some (ABWParser.syncShared env p1))
      | .ok (true, p1) =>
        match updateListElementIds (ABWParser.syncShared env p1).m_state.m_listElements with
        | none => .fail .outOfFuel
        | some lists =>
          match ABWParser.processXmlDocument env (some input)
              (ABWParser.contentPassStart lists (ABWParser.syncShared env p1)) with
          | .fail .exception => .ok (false, none)
          | .fail f => .fail f
          | .ok (ok2, p2) => .ok (ok2 && p2.m_state.m_collectorStack.isEmpty, some p2) := by
  unfold ABWParser.parse
  rw [hin]

/-- C14: `parse` returns true exactly when the input is non-null, the styles pass
(`processXmlDocument` with the styles collector) returns true, the content
pass, run on the resolved list definitions, returns true, and the collector
stack is empty after it; an exception in a pass makes a pass not return, and
`parse` then gives false. When the styles pass returns false, `parse`
returns false in the state the styles pass has left: the styles collector is
still installed, the list definitions are not resolved, no content pass has
run. With a null input it returns false at once. The model returns within
the bounds of its loops. -/
theorem parse_contract (env : Env) (p : ABWParser) :
    (∀ pf, ABWParser.parse env p = .ok (true, pf) ↔
      ∃ input p1 lists p2, p.m_input = some input ∧
        ABWParser.processXmlDocument env (some input) (ABWParser.stylesPassStart env p) =
          .ok (true, p1) ∧
        updateListElementIds (ABWParser.syncShared env p1).m_state.m_listElements = some lists ∧
        ABWParser.processXmlDocument env (some input)
            (ABWParser.contentPassStart lists (ABWParser.syncShared env p1)) = .ok (true, p2) ∧
        p2.m_state.m_collectorStack = [] ∧ pf = some p2) ∧
    (∀ input p1, p.m_input = some input →
      ABWParser.processXmlDocument env (some input) (ABWParser.stylesPassStart env p) =
        .ok (false, p1) →
      ABWParser.parse env p = .ok (false, some (ABWParser.syncShared env p1))) ∧
    (∀ input, p.m_input = some input →
      ABWParser.processXmlDocument env (some input) (ABWParser.stylesPassStart env p) =
        .fail .exception →
      ABWParser.parse env p = .ok (false, none)) ∧
    (p.m_input = none → ABWParser.parse env p = .ok (false, some p)) ∧
    ABWParser.parse env p ≠ .fail .outOfFuel := by
  cases hin : p.m_input with
  | none =>
    have hp : ABWParser.parse env p = .ok (false, some p) := by
      unfold ABWParser.parse
      rw [hin]
    refine ⟨fun pf => ⟨fun h => ?_, ?_⟩, ?_, ?_, fun _ => hp, ?_⟩
    · rw [hp] at h
      cases h
    · rintro ⟨_, _, _, _, h, _⟩
      cases h
    · intro _ _ h
      cases h
    · intro _ h
      cases h
    · rw [hp]
      intro h
      cases h
  | some input =>
    rw [parse_of_input env p input hin]
    have hfuel1 := processXmlDocument_fuel env (some input) (ABWParser.stylesPassStart env p)
    refine ⟨fun pf => ?_, fun input2 p1 hi h => ?_, fun input2 hi h => ?_, (fun h => by cases h),
      ?_⟩
    · constructor
      · intro h
        refine ⟨input, ?_⟩
        cases h1 : ABWParser.processXmlDocument env (some input)
            (ABWParser.stylesPassStart env p) with
        | fail f => rw [h1] at h; cases f <;> cases h
        | ok r =>
          obtain ⟨b, p1⟩ := r
          rw [h1] at h
          cases b with
          | false => cases h
          | true =>
            simp only [] at h
            obtain ⟨lists, hl⟩ :=
              updateListElementIds_some (ABWParser.syncShared env p1).m_state.m_listElements
            rw [hl] at h
            simp only [] at h
            cases h2 : ABWParser.processXmlDocument env (some input)
                (ABWParser.contentPassStart lists (ABWParser.syncShared env p1)) with
            | fail f => rw [h2] at h; cases f <;> cases h
            | ok r2 =>
              obtain ⟨ok2, p2⟩ := r2
              rw [h2] at h
              simp only [Res.ok.injEq, Prod.mk.injEq, Bool.and_eq_true, List.isEmpty_iff] at h
              obtain ⟨⟨hb, hst⟩, hpf⟩ := h
              subst hb
              exact ⟨p1, lists, p2, rfl, rfl, hl, h2, hst, hpf.symm⟩
      · rintro ⟨input2, p1, lists, p2, hi, h1, hl, h2, hst, hpf⟩
        cases hi
        rw [h1]
        simp only []
        rw [hl]
        simp only []
        rw [h2]
        simp [hst, hpf]
    · cases hi
      rw [h]
    · cases hi
      rw [h]
    · cases h1 : ABWParser.processXmlDocument env (some input)
          (ABWParser.stylesPassStart env p) with
      | fail f =>
        cases f with
        | exception => intro h; cases h
        | undefinedBehaviour => intro h; cases h
        | outOfFuel => exact absurd h1 hfuel1
      | ok r =>
        obtain ⟨b, p1⟩ := r
        cases b with
        | false => intro h; cases h
        | true =>
          simp only []
          obtain ⟨lists, hl⟩ :=
            updateListElementIds_some (ABWParser.syncShared env p1).m_state.m_listElements
          rw [hl]
          simp only []
          have hfuel2 := processXmlDocument_fuel env (some input)
            (ABWParser.contentPassStart lists (ABWParser.syncShared env p1))
          cases h2 : ABWParser.processXmlDocument env (some input)
              (ABWParser.contentPassStart lists (ABWParser.syncShared env p1)) with
          | fail f =>
            cases f with
            | exception => intro h; cases h
            | undefinedBehaviour => intro h; cases h
            | outOfFuel => exact absurd h2 hfuel2
          | ok r2 => intro h; cases h

/-- C14, at an input whose reader fails at once: the styles pass returns false and
so does `parse`, with the styles collector still installed. -/
theorem parse_contract_witness :
    ABWParser.parse quietEnv (newParser (some failedDoc)) =
      .ok (false, some (ABWParser.syncShared quietEnv
        (ABWParser.stylesPassStart quietEnv (newParser (some failedDoc))))) :=
  (parse_contract quietEnv (newParser (some failedDoc))).2.1 failedDoc _ rfl (by decide)

theorem allContent_of_content (p : ABWParser) (cc : ABWContentCollector)
    (hc : p.m_collector = some (.content cc)) (hs : p.m_state.m_collectorStack = []) :
    AllContent p := by
  refine ⟨⟨cc, hc⟩, ?_⟩
  rw [hs]
  intro c h
  cases h

/-- C15 (as amended): the frame start and end elements that count are those that
reach the dispatcher; the nodes read inside a history, revisions,
ignored-words or data region (`dispatched` leaves them out) do not. For a
readable stream without stuck reports whose reader ends with 0, the
content-pass traversal that starts with a content collector and an empty
stack is ended by an exception or returns true with as many collectors on the
stack as dispatched frame start elements have no matching end element; so
the stack is empty when the dispatched frame elements are well-formed. And
when a dispatched frame start element has no matching end element, `parse`
returns false, unless it runs into undefined behaviour. -/
theorem frame_balance_of_dispatched (env : Env) (input : Input) :
    (∀ (p : ABWParser) (cc : ABWContentCollector),
      p.m_collector = some (.content cc) → p.m_state.m_collectorStack = [] →
      p.m_state.m_inStyleParsing = false → input.readable = true → input.failed = false →
      (∀ ev ∈ input.events, ev.stuck = false) →
      ABWParser.processXmlDocument env (some input) p = .fail .exception ∨
      ∃ p2, ABWParser.processXmlDocument env (some input) p = .ok (true, p2) ∧
        p2.m_state.m_collectorStack.length = frameDepth (dispatched input.events) ∧
        (wellFormed 0 (dispatched input.events) = true → p2.m_state.m_collectorStack = [])) ∧
    (∀ p : ABWParser, p.m_input = some input → frameDepth (dispatched input.events) ≠ 0 →
      ABWParser.parse env p ≠ .fail .undefinedBehaviour →
      ∃ x, ABWParser.parse env p = .ok (false, x)) := by
  constructor
  · intro p cc hc hst hs hread hfail hstuck
    rcases processXmlDocument_progress env input p hread hfail hstuck
      (allContent_of_content p cc hc hst) with h | ⟨p2, h⟩
    · exact Or.inl h
    · right
      have hlen := processXmlDocument_stack env input p p2 hs (by rw [hc]; simp) h
      rw [hst] at hlen
      refine ⟨p2, h, hlen, fun hw => ?_⟩
      have h0 := foldl_frameStep_of_wellFormed _ 0 hw
      simp only [List.length_nil] at hlen
      rw [h0] at hlen
      exact List.length_eq_zero.mp hlen
  · intro p hin hdepth hub
    have hfuel := (processXmlDocument_fuel env (some input) (ABWParser.stylesPassStart env p))
    rw [parse_of_input env p input hin] at hub ⊢
    cases h1 : ABWParser.processXmlDocument env (some input)
        (ABWParser.stylesPassStart env p) with
    | fail f =>
      rw [h1] at hub
      cases f with
      | exception => exact ⟨none, rfl⟩
      | undefinedBehaviour => exact absurd rfl hub
      | outOfFuel => exact absurd h1 hfuel
    | ok r =>
      obtain ⟨b, p1⟩ := r
      rw [h1] at hub
      cases b with
      | false => exact ⟨_, rfl⟩
      | true =>
        simp only [] at hub ⊢
        obtain ⟨lists, hl⟩ :=
          updateListElementIds_some (ABWParser.syncShared env p1).m_state.m_listElements
        rw [hl] at hub ⊢
        simp only [] at hub ⊢
        have hfuel2 := processXmlDocument_fuel env (some input)
          (ABWParser.contentPassStart lists (ABWParser.syncShared env p1))
        cases h2 : ABWParser.processXmlDocument env (some input)
            (ABWParser.contentPassStart lists (ABWParser.syncShared env p1)) with
        | fail f =>
          rw [h2] at hub
          cases f with
          | exception => exact ⟨none, rfl⟩
          | undefinedBehaviour => exact absurd rfl hub
          | outOfFuel => exact absurd h2 hfuel2
        | ok r2 =>
          obtain ⟨ok2, p2⟩ := r2
          cases ok2 with
          | false => exact ⟨_, rfl⟩
          | true =>
            have hlen := processXmlDocument_stack env input _ p2 rfl
              (by simp [ABWParser.contentPassStart]) h2
            have hmono := foldl_frameStep_mono (dispatched input.events) 0
              (ABWParser.contentPassStart lists
                (ABWParser.syncShared env p1)).m_state.m_collectorStack.length (Nat.zero_le _)
            have hpos : p2.m_state.m_collectorStack.length ≠ 0 := by
              rw [hlen]
              unfold frameDepth at hdepth
              omega
            have hne : p2.m_state.m_collectorStack.isEmpty = false := by
              cases hs2 : p2.m_state.m_collectorStack with
              | nil => rw [hs2] at hpos; exact absurd rfl hpos
              | cons _ _ => rfl
            refine ⟨some p2, ?_⟩
            simp only [hne, Bool.and_false]

/-- C15, at the document `<frame>x<frame/></frame>`, whose content pass leaves an
empty stack, and at a stream with a dangling frame start, for which `parse`
returns false. -/
theorem frame_balance_of_dispatched_witness :
    (ABWParser.processXmlDocument quietEnv (some balancedDoc)
        (ABWParser.contentPassStart [] (newParser (some balancedDoc))) = .fail .exception ∨
      ∃ p2, ABWParser.processXmlDocument quietEnv (some balancedDoc)
          (ABWParser.contentPassStart [] (newParser (some balancedDoc))) = .ok (true, p2) ∧
        p2.m_state.m_collectorStack = []) ∧
    ∃ x, ABWParser.parse quietEnv (newParser (some danglingDoc)) = .ok (false, x) :=
  ⟨((frame_balance_of_dispatched quietEnv balancedDoc).1
      (ABWParser.contentPassStart [] (newParser (some balancedDoc))) { calls := [] }
      rfl rfl rfl rfl rfl (by decide)).imp id
      (fun ⟨p2, h, _, hw⟩ => ⟨p2, h, hw (by decide)⟩),
    (frame_balance_of_dispatched quietEnv danglingDoc).2 (newParser (some danglingDoc)) rfl
      (by decide) (by decide)⟩

/-- C15 (counterexample): in `<frame><history/></frame>` every frame start element
is matched by one frame end element and the reader ends with 0, but the loop
of the empty history element reads the frame end element away: the content
pass returns true with one collector left on the stack, and `parse` returns
false. In the stream of `swallowedStartDoc` a frame start element has no end
element, but it is read away in the same manner, and `parse` returns true. -/
theorem swallowed_frame_counterexample :
    (wellFormed 0 (swallowedEndDoc.events.map fun ev => ev.node) = true ∧
      swallowedEndDoc.failed = false ∧
      (ABWParser.processXmlDocument quietEnv (some swallowedEndDoc)
          (ABWParser.contentPassStart [] (newParser (some swallowedEndDoc)))).bind
          (fun r => .ok (r.1, r.2.m_state.m_collectorStack.length)) = .ok (true, 1) ∧
      (ABWParser.parse quietEnv (newParser (some swallowedEndDoc))).bind
          (fun r => .ok r.1) = .ok false) ∧
    (frameDepth (swallowedStartDoc.events.map fun ev => ev.node) = 1 ∧
      (ABWParser.parse quietEnv (newParser (some swallowedStartDoc))).bind
          (fun r => .ok r.1) = .ok true) := by
  decide

/-- C26: `collectList` does not look at its second and fourth argument, the
list-decimal and the parent attribute: two calls that differ only in them
leave the same collector, and so the same list-definition map; the same holds
for the call as the dispatcher makes it on the styles collector. The element
stored under the id has the parent id 0 whatever the parent attribute is. -/
theorem collectList_ignores_decimal_and_parent (id listDelim startValue type : Option Str)
    (decimalAttr1 parentAttr1 decimalAttr2 parentAttr2 : Option Str) (c : ABWStylesCollector) :
    collectList id decimalAttr1 listDelim parentAttr1 startValue type c =
      collectList id decimalAttr2 listDelim parentAttr2 startValue type c ∧
    stylesCall (.collectList id decimalAttr1 listDelim parentAttr1 startValue type) c =
      stylesCall (.collectList id decimalAttr2 listDelim parentAttr2 startValue type) c ∧
    ∀ key e, id = some key →
      mapFind (collectList id decimalAttr1 listDelim parentAttr1 startValue type c).m_listElements
        key = some (some e) → e.m_parentId = 0 := by
  refine ⟨rfl, rfl, ?_⟩
  intro key e hid h
  subst hid
  simp only [collectList] at h
  split at h
  · simp only [mapFind_mapSet_self, Option.some.injEq] at h
    rw [← h]
  · simp only [mapFind_mapSet_self, Option.some.injEq] at h
    rw [← h]

/-- C26, at a numbered list with two different parent attributes. -/
theorem collectList_ignores_decimal_and_parent_witness :
    collectList (some "7".toList) (some "NULL".toList) (some "%L.".toList) (some "3".toList)
        (some "1".toList) (some "0".toList) emptyCollector =
      collectList (some "7".toList) none (some "%L.".toList) (some "99".toList)
        (some "1".toList) (some "0".toList) emptyCollector :=
  (collectList_ignores_decimal_and_parent (some "7".toList) (some "%L.".toList)
    (some "1".toList) (some "0".toList) (some "NULL".toList) (some "3".toList) none
    (some "99".toList) emptyCollector).1

/-- The row counter after `openCell` is the larger of the row counter before and
the row the cell asks for. -/
theorem openCellState_row (props : Option Str) (ts : ABWStylesTableState) :
    ts.m_currentTableRow ≤ (openCellState props ts).m_currentTableRow := by
  simp only [openCellState]
  rw [advanceRow_eq _ _ _ le_rfl]
  exact le_max_left _ _

theorem openCellState_width (props : Option Str) (ts : ABWStylesTableState)
    (h : 0 < ts.m_currentTableRow) :
    (openCellState props ts).m_currentTableWidth = ts.m_currentTableWidth := by
  have hrow := openCellState_row props ts
  have hne : (openCellState props ts).m_currentTableRow ≠ 0 := by omega
  simp only [openCellState] at hne ⊢
  rw [if_neg hne]

/-- C27: on an open table (the table state on top of the stack), `openCell` leaves
the row counter at least what it was and `closeCell` leaves it as it was; and
when the row counter is greater than 0 before `openCell`, the accumulated
width is the same after the call, whatever the properties of the cell are.
Both calls return, and they touch nothing but the top table state. -/
theorem row_monotone_width_frozen (props : Option Str) (c : ABWStylesCollector)
    (ts : ABWStylesTableState) (rest : List ABWStylesTableState)
    (hts : c.m_tableStates = ts :: rest) :
    (openCell props c = some { c with m_tableStates := openCellState props ts :: rest } ∧
      ts.m_currentTableRow ≤ (openCellState props ts).m_currentTableRow ∧
      (0 < ts.m_currentTableRow →
        (openCellState props ts).m_currentTableWidth = ts.m_currentTableWidth)) ∧
    (closeCell c =
        some { c with m_tableStates := { ts with m_currentCellProperties := [] } :: rest } ∧
      ({ ts with m_currentCellProperties := [] } : ABWStylesTableState).m_currentTableRow =
        ts.m_currentTableRow ∧
      ({ ts with m_currentCellProperties := [] } : ABWStylesTableState).m_currentTableWidth =
        ts.m_currentTableWidth) := by
  refine ⟨⟨?_, openCellState_row props ts, openCellState_width props ts⟩, ?_, rfl, rfl⟩
  · simp only [openCell, hts]
  · simp only [closeCell, hts]

/-- C27, at a table in row 2 with width 5 and a cell that asks for row 0 and has
both attach values: the row stays 2 and the width stays 5. -/
theorem row_monotone_width_frozen_witness :
    (openCellState (some "top-attach:0; left-attach:0; right-attach:3".toList)
        { m_currentCellProperties := [], m_currentTableWidth := 5, m_currentTableRow := 2,
          m_currentTableId := 0 }).m_currentTableWidth = 5 ∧
    (2 : Int) ≤ (openCellState (some "top-attach:0; left-attach:0; right-attach:3".toList)
        { m_currentCellProperties := [], m_currentTableWidth := 5, m_currentTableRow := 2,
          m_currentTableId := 0 }).m_currentTableRow :=
  have h := row_monotone_width_frozen
    (some "top-attach:0; left-attach:0; right-attach:3".toList)
    { emptyCollector with m_tableStates :=
        [{ m_currentCellProperties := [], m_currentTableWidth := 5, m_currentTableRow := 2,
           m_currentTableId := 0 }] }
    { m_currentCellProperties := [], m_currentTableWidth := 5, m_currentTableRow := 2,
      m_currentTableId := 0 } [] rfl
  ⟨h.1.2.2 (by decide), h.1.2.1⟩

/-- A node that is neither a start element nor an end or empty element passes the
`switch` of `processXmlNode` without effect, whatever its token is. -/
theorem dispatchToken_idle (env : Env) (reader : Reader) (p : ABWParser)
    (hopen : ABWParser.opens reader = false) (hclose : ABWParser.closes reader = false) :
    ABWParser.dispatchToken env reader p = .ok (1, reader, p) := by
  unfold ABWParser.dispatchToken
  cases reader.node.token <;>
    simp [hopen, hclose, ABWParser.keepReader, ABWParser.openClose, ABWParser.dispatchFrame,
      ABWParser.dispatchMetadata, Res.bind]

theorem callCollector_some (env : Env) (call : Call) (p : ABWParser) (c : ABWCollector)
    (hc : p.m_collector = some c) :
    ABWParser.callCollector env call p =
      (collectorCall env call c).bind fun c1 => .ok { p with m_collector := some c1 } := by
  unfold ABWParser.callCollector
  rw [hc]

theorem collectorCall_content_eq (env : Env) (call : Call) (cc : ABWContentCollector) :
    collectorCall env call (.content cc) =
      if env.throws cc.calls call = true then .fail .exception
      else .ok (.content { calls := cc.calls ++ [call] }) := rfl

/-- C21: the dispatch of a text node (which is no empty element) with a collector
`c` installed. With the in-metadata flag set and a non-empty pending key, the
one call `addMetadataEntry(key, text)` goes to the collector and then the
pending key is emptied; with the flag set and an empty key nothing is called
and the state is as before; with the flag not set the one call
`insertText(text)` goes to the collector and the rest of the state, the
pending key included, is as before. A call on a content collector adds
exactly that call to what the collector has received, unless it throws. -/
theorem text_node_dispatch (env : Env) (reader : Reader) (p : ABWParser) (c : ABWCollector)
    (htype : reader.node.nodeType = .XML_READER_TYPE_TEXT)
    (hempty : reader.node.isEmptyElement = false) (hc : p.m_collector = some c) :
    (p.m_state.m_inMetadata = true → p.m_state.m_currentMetadataKey ≠ [] →
      ABWParser.processXmlNode env reader p =
        (collectorCall env
          (.addMetadataEntry p.m_state.m_currentMetadataKey reader.node.value) c).bind
          fun c1 => .ok (1, reader,
            { p with m_collector := some c1
                     m_state := { p.m_state with m_currentMetadataKey := [] } })) ∧
    (p.m_state.m_inMetadata = true → p.m_state.m_currentMetadataKey = [] →
      ABWParser.processXmlNode env reader p = .ok (1, reader, p)) ∧
    (p.m_state.m_inMetadata = false →
      ABWParser.processXmlNode env reader p =
        (collectorCall env (.insertText reader.node.value) c).bind
          fun c1 => .ok (1, reader, { p with m_collector := some c1 })) ∧
    (∀ (call : Call) (cc : ABWContentCollector), c = .content cc →
      collectorCall env call c =
        if env.throws cc.calls call = true then .fail .exception
        else .ok (.content { calls := cc.calls ++ [call] })) := by
  have hopen : ABWParser.opens reader = false := by simp [ABWParser.opens, htype]
  have hclose : ABWParser.closes reader = false := by simp [ABWParser.closes, htype, hempty]
  have hws : reader.node.nodeType ≠ .XML_READER_TYPE_SIGNIFICANT_WHITESPACE := by
    rw [htype]; decide
  have hnode : ABWParser.processXmlNode env reader p =
      (ABWParser.dispatchText env reader p).bind fun p1 => .ok (1, reader, p1) := by
    simp only [ABWParser.processXmlNode, if_neg hws, htype, if_true]
    cases ABWParser.dispatchText env reader p with
    | fail f => rfl
    | ok p1 => exact dispatchToken_idle env reader p1 hopen hclose
  refine ⟨?_, ?_, ?_, ?_⟩
  · intro hm hk
    have hdt : ABWParser.dispatchText env reader p =
        (ABWParser.callCollector env
          (.addMetadataEntry p.m_state.m_currentMetadataKey reader.node.value) p).bind
          fun p1 => .ok { p1 with m_state := { p1.m_state with m_currentMetadataKey := [] } } := by
      unfold ABWParser.dispatchText
      rw [if_pos hm, if_neg hk]
    rw [hnode, hdt, callCollector_some env _ p c hc]
    cases collectorCall env _ c <;> rfl
  · intro hm hk
    have hdt : ABWParser.dispatchText env reader p = .ok p := by
      unfold ABWParser.dispatchText
      rw [if_pos hm, if_pos hk]
    rw [hnode, hdt]
    rfl
  · intro hm
    have hdt : ABWParser.dispatchText env reader p =
        ABWParser.callCollector env (.insertText reader.node.value) p := by
      unfold ABWParser.dispatchText
      rw [if_neg (by rw [hm]; decide)]
    rw [hnode, hdt, callCollector_some env _ p c hc]
    cases collectorCall env _ c <;> rfl
  · intro call cc hcc
    rw [hcc]
    rfl

/-- C21, at the text "v" in a metadata region with the pending key "k". -/
theorem text_node_dispatch_witness :
    ABWParser.processXmlNode quietEnv
        (readerAt (event .XML_TOKEN_INVALID .XML_READER_TYPE_TEXT false [] (some "v".toList)).node
          [])
        { ABWParser.contentPassStart [] (newParser none) with
          m_state := { (newParser none).m_state with
            m_inMetadata := true, m_currentMetadataKey := "k".toList } } =
      .ok (1,
        readerAt (event .XML_TOKEN_INVALID .XML_READER_TYPE_TEXT false [] (some "v".toList)).node
          [],
        { ABWParser.contentPassStart [] (newParser none) with
          m_collector := some (.content { calls :=
            [.addMetadataEntry "k".toList (some "v".toList)] })
          m_state := { (newParser none).m_state with
            m_inMetadata := true, m_currentMetadataKey := [] } }) :=
  (text_node_dispatch quietEnv
    (readerAt (event .XML_TOKEN_INVALID .XML_READER_TYPE_TEXT false [] (some "v".toList)).node [])
    { ABWParser.contentPassStart [] (newParser none) with
      m_state := { (newParser none).m_state with
        m_inMetadata := true, m_currentMetadataKey := "k".toList } }
    (.content { calls := [] }) rfl rfl rfl).1 rfl (by decide)

/-- C22: outside the styles pass, the dispatch of a frame end element while the
collector stack is empty calls `closeFrame` on the active collector and
nothing else: the state, with the empty stack, is as before, the same
collector is active, and no `addFrameElements` goes to any collector. It
fails only when the collector's `closeFrame` itself throws. -/
theorem frame_close_on_empty_stack (env : Env) (reader : Reader) (p : ABWParser)
    (c : ABWCollector) (htok : reader.node.token = .XML_FRAME)
    (htype : reader.node.nodeType = .XML_READER_TYPE_END_ELEMENT)
    (hc : p.m_collector = some c) (hstyle : p.m_state.m_inStyleParsing = false)
    (hstack : p.m_state.m_collectorStack = []) :
    ABWParser.processXmlNode env reader p =
        (collectorCall env .closeFrame c).bind
          (fun c1 => .ok (1, reader, { p with m_collector := some c1 })) ∧
    (collectorCall env .closeFrame c = .fail .exception ∨
      ∃ c1, collectorCall env .closeFrame c = .ok c1) ∧
    (∀ cc : ABWContentCollector, c = .content cc → env.throws cc.calls .closeFrame = false →
      ABWParser.processXmlNode env reader p =
        .ok (1, reader,
          { p with m_collector := some (.content { calls := cc.calls ++ [.closeFrame] }) })) := by
  have hd : ABWParser.dispatchFrame env reader p = ABWParser.readCloseFrame env p := by
    simp [ABWParser.dispatchFrame, ABWParser.opens, ABWParser.closes, htype]
  have hnode : ABWParser.processXmlNode env reader p =
      (collectorCall env .closeFrame c).bind
        (fun c1 => .ok (1, reader, { p with m_collector := some c1 })) := by
    rw [processXmlNode_frame env reader p htok (Or.inr htype), hd]
    simp only [ABWParser.readCloseFrame, hc, hstyle, hstack]
    cases collectorCall env .closeFrame c <;> rfl
  refine ⟨hnode, collectorCall_frame env .closeFrame c (Or.inr (Or.inl rfl)), ?_⟩
  intro cc hcc hthrow
  rw [hnode, hcc, collectorCall_content_eq, hthrow]
  rfl

/-- C22, at a frame end element dispatched at the start of the content pass. -/
theorem frame_close_on_empty_stack_witness :
    ABWParser.processXmlNode quietEnv (readerAt frameEnd [])
        (ABWParser.contentPassStart [] (newParser none)) =
      .ok (1, readerAt frameEnd [],
        { ABWParser.contentPassStart [] (newParser none) with
          m_collector := some (.content { calls := [] ++ [.closeFrame] }) }) :=
  (frame_close_on_empty_stack quietEnv (readerAt frameEnd [])
    (ABWParser.contentPassStart [] (newParser none)) (.content { calls := [] })
    rfl rfl rfl rfl rfl).2.2 { calls := [] } rfl rfl

/-- When the loop of a region returns 1, the reader stands on the first end element
of the region's token among the reads to come, and the reads after it are
still to come. -/
theorem skipLoop_found (tok : Token) :
    ∀ (pending : List ReadEvent) (reader : Reader),
      (ABWParser.skipLoop tok reader pending).1 = 1 →
      ∃ pre ev rest, pending = pre ++ ev :: rest ∧
        (∀ e ∈ pre, ¬ isRegionEnd tok e.node) ∧ isRegionEnd tok ev.node ∧
        ABWParser.skipLoop tok reader pending =
          (1, { node := ev.node, stuck := ev.stuck, pending := rest, failed := reader.failed }) := by
  intro pending
  induction pending with
  | nil =>
    intro reader h
    simp only [ABWParser.skipLoop, xmlTextReaderRead] at h
    split at h <;> simp at h
  | cons ev rest ih =>
    intro reader h
    simp only [ABWParser.skipLoop, xmlTextReaderRead] at h ⊢
    by_cases hgo : tok ≠ ev.node.token ∨ NodeType.XML_READER_TYPE_END_ELEMENT ≠ ev.node.nodeType
    · simp only [hgo, true_and, if_true] at h ⊢
      obtain ⟨pre, ev2, rest2, h1, h2, h3, h4⟩ :=
        ih { node := ev.node, stuck := ev.stuck, pending := rest, failed := reader.failed } h
      refine ⟨ev :: pre, ev2, rest2, by rw [h1]; rfl, ?_, h3, h4⟩
      intro e he
      simp only [List.mem_cons] at he
      rcases he with he | he
      · rw [he]
        rintro ⟨ht, hn⟩
        rcases hgo with hg | hg
        · exact hg ht.symm
        · exact hg hn.symm
      · exact h2 e he
    · simp only [hgo, false_and, if_false] at h ⊢
      refine ⟨[], ev, rest, rfl, (fun e he => by cases he), ?_, rfl⟩
      simp only [not_or, not_not] at hgo
      exact ⟨hgo.1.symm, hgo.2.symm⟩

/-- When no end element of the region's token is to come, the loop of the region
reads everything and returns what the read after the last node returns. -/
theorem skipLoop_not_found (tok : Token) (pending : List ReadEvent) (reader : Reader)
    (h : ∀ e ∈ pending, ¬ isRegionEnd tok e.node) :
    (ABWParser.skipLoop tok reader pending).1 = (if reader.failed then -1 else 0) ∧
    (ABWParser.skipLoop tok reader pending).2.pending = [] := by
  have hne : (ABWParser.skipLoop tok reader pending).1 ≠ 1 := by
    intro h1
    obtain ⟨pre, ev, rest, hp, _, hev, _⟩ := skipLoop_found tok pending reader h1
    exact h ev (by rw [hp]; simp) hev
  obtain ⟨_, _, _, h4, _⟩ := skipLoop_spec tok pending reader
  exact ⟨(h4 hne).1, (h4 hne).2.1⟩

/-- The dispatch of the start element of a history, revisions or ignored-words
region is the loop of the region and leaves the parser alone. -/
theorem processXmlNode_skip (env : Env) (reader : Reader) (p : ABWParser)
    (htype : reader.node.nodeType = .XML_READER_TYPE_ELEMENT)
    (htok : reader.node.token = .XML_HISTORY ∨ reader.node.token = .XML_REVISIONS ∨
      reader.node.token = .XML_IGNOREDWORDS) :
    ABWParser.processXmlNode env reader p =
      .ok ((ABWParser.skipLoop reader.node.token reader reader.pending).1,
        (ABWParser.skipLoop reader.node.token reader reader.pending).2, p) := by
  have hws : reader.node.nodeType ≠ .XML_READER_TYPE_SIGNIFICANT_WHITESPACE := by
    rw [htype]; decide
  have htx : reader.node.nodeType ≠ .XML_READER_TYPE_TEXT := by
    rw [htype]; decide
  have hopen : ABWParser.opens reader = true := by simp [ABWParser.opens, htype]
  simp only [ABWParser.processXmlNode, if_neg hws, if_neg htx, Res.bind, ABWParser.dispatchToken]
  rcases htok with h | h | h <;> rw [h] <;> simp only [hopen, if_true] <;> rfl

/-- C24: `readHistory`, `readRevisions` and `readIgnoredWords` work on the reader
alone, and the dispatch of the region's start element returns their result
with the parser, and so the collectors and the whole dispatcher state, as it
was. When one of them returns 1, the reader stands on an end element with the
region's own token: the first such among the reads that were to come, the
reads before it are consumed and those after it are still to come. When it
returns something else, every read has been consumed and the result is the
reader's final status. -/
theorem skip_region_traversal (reader : Reader) (tok : Token)
    (f : Reader → Int × Reader)
    (hf : (tok, f) ∈ [(Token.XML_HISTORY, ABWParser.readHistory),
      (Token.XML_REVISIONS, ABWParser.readRevisions),
      (Token.XML_IGNOREDWORDS, ABWParser.readIgnoredWords)]) :
    (∀ (env : Env) (p : ABWParser), reader.node.token = tok →
      reader.node.nodeType = .XML_READER_TYPE_ELEMENT →
      ABWParser.processXmlNode env reader p = .ok ((f reader).1, (f reader).2, p)) ∧
    ((f reader).1 = 1 →
      ∃ pre ev rest, reader.pending = pre ++ ev :: rest ∧
        (∀ e ∈ pre, ¬ isRegionEnd tok e.node) ∧ isRegionEnd tok ev.node ∧
        f reader =
          (1, { node := ev.node, stuck := ev.stuck, pending := rest, failed := reader.failed })) ∧
    ((f reader).1 ≠ 1 →
      (f reader).1 = (if reader.failed then -1 else 0) ∧ (f reader).2.pending = []) := by
  have hfeq : f reader = ABWParser.skipLoop tok reader reader.pending ∧
      (tok = .XML_HISTORY ∨ tok = .XML_REVISIONS ∨ tok = .XML_IGNOREDWORDS) := by
    simp only [List.mem_cons, Prod.mk.injEq, List.mem_singleton, List.not_mem_nil, or_false] at hf
    rcases hf with ⟨h1, h2⟩ | ⟨h1, h2⟩ | ⟨h1, h2⟩ <;> subst h1 <;> subst h2
    · exact ⟨rfl, Or.inl rfl⟩
    · exact ⟨rfl, Or.inr (Or.inl rfl)⟩
    · exact ⟨rfl, Or.inr (Or.inr rfl)⟩
  obtain ⟨hfr, htok⟩ := hfeq
  rw [hfr]
  refine ⟨?_, skipLoop_found tok reader.pending reader, ?_⟩
  · intro env p ht htype
    rw [← ht]
    exact processXmlNode_skip env reader p htype (by rw [ht]; exact htok)
  · intro hne
    obtain ⟨_, _, _, h4, _⟩ := skipLoop_spec tok reader.pending reader
    exact ⟨(h4 hne).1, (h4 hne).2.1⟩

/-- C24, at `<history><p/></history><br/>`: the loop returns 1 on the history end
element with the `br` element still to come. -/
theorem skip_region_traversal_witness :
    ∃ pre ev rest, historyRegion.pending = pre ++ ev :: rest ∧
      (∀ e ∈ pre, ¬ isRegionEnd .XML_HISTORY e.node) ∧ isRegionEnd .XML_HISTORY ev.node ∧
      ABWParser.readHistory historyRegion =
        (1, { node := ev.node, stuck := ev.stuck, pending := rest,
              failed := historyRegion.failed }) :=
  (skip_region_traversal historyRegion .XML_HISTORY ABWParser.readHistory
    (List.mem_cons_self _ _)).2.1 (by decide)

theorem isSkipStart_iff (node : XmlNode) :
    isSkipStart node = true ↔
      node.nodeType = .XML_READER_TYPE_ELEMENT ∧
      (node.token = .XML_HISTORY ∨ node.token = .XML_REVISIONS ∨
        node.token = .XML_IGNOREDWORDS ∨ node.token = .XML_D) := by
  simp [isSkipStart, or_assoc]

/-- The dispatch of the start element of a data element is `readD`. -/
theorem processXmlNode_data (env : Env) (reader : Reader) (p : ABWParser)
    (htype : reader.node.nodeType = .XML_READER_TYPE_ELEMENT)
    (htok : reader.node.token = .XML_D) :
    ABWParser.processXmlNode env reader p = ABWParser.readD env reader p := by
  have hws : reader.node.nodeType ≠ .XML_READER_TYPE_SIGNIFICANT_WHITESPACE := by
    rw [htype]; decide
  have htx : reader.node.nodeType ≠ .XML_READER_TYPE_TEXT := by
    rw [htype]; decide
  have hopen : ABWParser.opens reader = true := by simp [ABWParser.opens, htype]
  simp only [ABWParser.processXmlNode, if_neg hws, if_neg htx, Res.bind, ABWParser.dispatchToken,
    htok, hopen, if_true]

theorem nextRead_of_not_one (reader : Reader) (h : (advance reader).1 ≠ 1) :
    nextRead reader = advance reader := by
  unfold nextRead
  rw [if_neg h]

/-- C25: when the start element of a history, revisions, ignored-words or data
region is dispatched (an empty element is a start element without end
element, and the dispatcher does not tell it from another start element) and
no end element with the same token is to come, the loop of the region reads
every remaining event, none of which reaches `processXmlNode`, and returns
the reader's final status; the loop of `processXmlDocument` then ends without
another dispatch: for history, revisions and ignored words with the parser as
it was, for data with the parser as `readD` has left it. When the reader
ends with 0 and the watcher is not stuck, the traversal returns true: the
flag `ret == 0 && !isStuck()` is true, and a document that starts with such a
history, revisions or ignored-words element gives true once `endDocument` has
returned. -/
theorem region_start_swallows_rest (env : Env) (reader : Reader) (p : ABWParser) (fuel : Nat)
    (hfuel : 2 ≤ fuel) (hstuck : reader.stuck = false) (hstart : isSkipStart reader.node = true)
    (hnoend : ∀ ev ∈ reader.pending, ¬ isRegionEnd reader.node.token ev.node) :
    (ABWParser.skipLoop reader.node.token reader reader.pending).1 =
        (if reader.failed then -1 else 0) ∧
    (ABWParser.skipLoop reader.node.token reader reader.pending).2.pending = [] ∧
    (reader.node.token ≠ .XML_D →
      ABWParser.processLoop env fuel 1 reader p =
        .ok ((ABWParser.skipLoop reader.node.token reader reader.pending).1,
          (ABWParser.skipLoop reader.node.token reader reader.pending).2, p)) ∧
    (reader.node.token = .XML_D →
      ABWParser.processLoop env fuel 1 reader p = ABWParser.readD env reader p ∧
      ∀ x, ABWParser.readD env reader p = .ok x →
        (x.1, x.2.1) = ABWParser.skipLoop reader.node.token reader reader.pending) ∧
    (reader.failed = false → (∀ ev ∈ reader.pending, ev.stuck = false) →
      (decide ((ABWParser.skipLoop reader.node.token reader reader.pending).1 = 0) &&
        !(ABWParser.skipLoop reader.node.token reader reader.pending).2.stuck) = true ∧
      (reader.node.token ≠ .XML_D →
        ABWParser.processXmlDocument env
            (some { readable := true,
                    events := { node := reader.node, stuck := reader.stuck } :: reader.pending,
                    failed := reader.failed }) p =
          (ABWParser.callCollectorIf env .endDocument p).bind fun p2 => .ok (true, p2))) := by
  obtain ⟨htype, htok⟩ := (isSkipStart_iff reader.node).mp hstart
  obtain ⟨hret, hpend⟩ := skipLoop_not_found reader.node.token reader.pending reader hnoend
  have hadv : advance reader = ABWParser.skipLoop reader.node.token reader reader.pending :=
    advance_of_skip reader hstart
  have hne : (advance reader).1 ≠ 1 := by
    rw [hadv, hret]
    split <;> decide
  have hnext : nextRead reader = ABWParser.skipLoop reader.node.token reader reader.pending := by
    rw [nextRead_of_not_one reader hne, hadv]
  have hne2 : ¬(1 = (ABWParser.skipLoop reader.node.token reader reader.pending).1 ∧
      (ABWParser.skipLoop reader.node.token reader reader.pending).2.stuck = false) := by
    rw [← hadv]
    exact fun h => hne h.1.symm
  have hloop : ∀ f : Nat, reader.node.token ≠ .XML_D →
      ABWParser.processLoop env (f + 2) 1 reader p =
        .ok ((ABWParser.skipLoop reader.node.token reader reader.pending).1,
          (ABWParser.skipLoop reader.node.token reader reader.pending).2, p) := by
    intro f hd
    have htok3 : reader.node.token = .XML_HISTORY ∨ reader.node.token = .XML_REVISIONS ∨
        reader.node.token = .XML_IGNOREDWORDS := by
      rcases htok with h | h | h | h
      · exact Or.inl h
      · exact Or.inr (Or.inl h)
      · exact Or.inr (Or.inr h)
      · exact absurd h hd
    rw [processLoop_step env (f + 1) reader p hstuck,
      processXmlNode_skip env reader p htype htok3]
    simp only []
    rw [hnext]
    exact processLoop_exit env f _ _ p hne2
  obtain ⟨f, rfl⟩ : ∃ f, fuel = f + 2 := ⟨fuel - 2, by omega⟩
  refine ⟨hret, hpend, hloop f, ?_, ?_⟩
  · intro hd
    refine ⟨?_, ?_⟩
    · rw [processLoop_step env (f + 1) reader p hstuck, processXmlNode_data env reader p htype hd]
      cases hx : ABWParser.readD env reader p with
      | fail e => rfl
      | ok x =>
        simp only []
        have hrd : (x.1, x.2.1) = ABWParser.skipLoop .XML_D reader reader.pending :=
          readDLoop_reader env _ _ _ reader.pending reader p x hx
        rw [hd] at hnext hne2
        rw [hnext, ← hrd]
        rw [← hrd] at hne2
        exact processLoop_exit env f _ _ _ hne2
    · intro x hx
      rw [hd]
      exact readDLoop_reader env _ _ _ reader.pending reader p x hx
  · intro hfail hall
    obtain ⟨_, _, _, _, h5⟩ := skipLoop_spec reader.node.token reader.pending reader
    have hflag : (decide ((ABWParser.skipLoop reader.node.token reader reader.pending).1 = 0) &&
        !(ABWParser.skipLoop reader.node.token reader reader.pending).2.stuck) = true := by
      rw [hret, hfail, (h5 hstuck hall).1]
      rfl
    refine ⟨hflag, ?_⟩
    intro hd
    have hfirst : xmlTextReaderRead (ABWParser.readerFor
        { readable := true,
          events := { node := reader.node, stuck := reader.stuck } :: reader.pending,
          failed := reader.failed }) = (1, reader) := by
      rw [xmlTextReaderRead_cons _ { node := reader.node, stuck := reader.stuck } reader.pending rfl]
      rfl
    unfold ABWParser.processXmlDocument
    simp only [Bool.true_eq_false, if_false, List.length_cons]
    rw [hfirst]
    simp only []
    rw [hloop reader.pending.length hd]
    simp only []
    rw [hflag]

/-- C25, at `<history/><p/><br/>`: the loop of the empty history element reads the
two elements that follow, and the loop of `processXmlDocument` ends with 0 and
the parser as it was. -/
theorem region_start_swallows_rest_witness :
    ABWParser.processLoop quietEnv 2 1 emptyHistory
        (ABWParser.contentPassStart [] (newParser none)) =
      .ok (0, { node := noNode, stuck := false, pending := [], failed := false },
        ABWParser.contentPassStart [] (newParser none)) := by
  rw [(region_start_swallows_rest quietEnv emptyHistory
    (ABWParser.contentPassStart [] (newParser none)) 2 (le_refl 2) rfl rfl
    (by decide)).2.2.1 (by decide)]
  decide

/-! ## The styles pass: no stack activity -/

theorem reaches_trans (env : Env) (a b c : Option ABWCollector) (h1 : Reaches env a b)
    (h2 : Reaches env b c) : Reaches env a c := by
  induction h2 with
  | same => exact h1
  | call c1 c2 call _ hcall ih => exact Reaches.call _ c1 c2 call ih hcall

theorem kept_of_same (env : Env) (p p1 : ABWParser) (hc : p1.m_collector = p.m_collector)
    (hs : p1.m_state.m_inStyleParsing = p.m_state.m_inStyleParsing)
    (hst : p1.m_state.m_collectorStack = p.m_state.m_collectorStack) : Kept env p (.ok p1) := by
  intro h
  refine ⟨by rw [hs, h], hst, ?_⟩
  rw [hc]
  exact Reaches.same _

theorem kept_ok (env : Env) (p : ABWParser) : Kept env p (.ok p) :=
  kept_of_same env p p rfl rfl rfl

theorem kept_trans (env : Env) (p p1 : ABWParser) (r : Res ABWParser)
    (h1 : Kept env p (.ok p1)) (h2 : Kept env p1 r) : Kept env p r := by
  cases r with
  | fail f => trivial
  | ok p2 =>
    intro h
    obtain ⟨a1, a2, a3⟩ := h1 h
    obtain ⟨b1, b2, b3⟩ := h2 a1
    exact ⟨b1, by rw [b2, a2], reaches_trans env _ _ _ a3 b3⟩

theorem kept_bind (env : Env) (p : ABWParser) (r : Res ABWParser)
    (g : ABWParser → Res ABWParser) (h1 : Kept env p r) (h2 : ∀ p1, Kept env p1 (g p1)) :
    Kept env p (r.bind g) := by
  cases r with
  | fail f => trivial
  | ok p1 => exact kept_trans env p p1 _ h1 (h2 p1)

theorem kept_ite (env : Env) (p : ABWParser) (c : Prop) [Decidable c] (a b : Res ABWParser)
    (ha : Kept env p a) (hb : Kept env p b) : Kept env p (if c then a else b) := by
  split
  · exact ha
  · exact hb

/-- A call on the collector leaves flag and stack and makes the collector one that
has received one call more. -/
theorem kept_callCollector (env : Env) (call : Call) (p : ABWParser) :
    Kept env p (ABWParser.callCollector env call p) := by
  unfold ABWParser.callCollector
  cases hc : p.m_collector with
  | none => trivial
  | some c =>
    simp only []
    cases hcall : collectorCall env call c with
    | fail f => trivial
    | ok c1 =>
      intro h
      refine ⟨h, rfl, ?_⟩
      rw [hc]
      exact Reaches.call _ c c1 call (Reaches.same _) hcall

theorem kept_callCollectorIf (env : Env) (call : Call) (p : ABWParser) :
    Kept env p (ABWParser.callCollectorIf env call p) := by
  unfold ABWParser.callCollectorIf
  split
  · exact kept_ok env p
  · exact kept_callCollector env call p

theorem kept_readSection (env : Env) (reader : Reader) (p : ABWParser) :
    Kept env p (ABWParser.readSection env reader p) := by
  unfold ABWParser.readSection
  simp only []
  split
  · exact kept_callCollectorIf env _ p
  · exact kept_callCollectorIf env _ p

theorem kept_readS (env : Env) (reader : Reader) (p : ABWParser) :
    Kept env p (ABWParser.readS env reader p) := by
  unfold ABWParser.readS
  split
  · exact kept_ok env p
  · split
    · exact kept_callCollectorIf env _ p
    · exact kept_ok env p

theorem kept_openClose (env : Env) (reader : Reader) (p : ABWParser)
    (openIt : ABWParser → Res ABWParser) (closeCall : Call) (checked : Bool)
    (hopen : ∀ q, Kept env q (openIt q)) :
    Kept env p (ABWParser.openClose env reader p openIt closeCall checked) := by
  have hform : ABWParser.openClose env reader p openIt closeCall checked =
      (if ABWParser.opens reader then openIt p else .ok p).bind fun p1 =>
        if ABWParser.closes reader then
          if checked then ABWParser.callCollectorIf env closeCall p1
          else ABWParser.callCollector env closeCall p1
        else .ok p1 := by
    unfold ABWParser.openClose
    cases (if ABWParser.opens reader then openIt p else .ok p) <;> rfl
  rw [hform]
  refine kept_bind env p _ _ (kept_ite _ _ _ _ _ (hopen p) (kept_ok env p)) fun p1 => ?_
  refine kept_ite _ _ _ _ _ (kept_ite _ _ _ _ _ ?_ ?_) (kept_ok env p1)
  · exact kept_callCollectorIf env _ p1
  · exact kept_callCollector env _ p1

theorem kept_dispatchText (env : Env) (reader : Reader) (p : ABWParser) :
    Kept env p (ABWParser.dispatchText env reader p) := by
  unfold ABWParser.dispatchText
  refine kept_ite _ _ _ _ _ (kept_ite _ _ _ _ _ (kept_ok env p) ?_) (kept_callCollector env _ p)
  exact kept_bind env p _ _ (kept_callCollector env _ p)
    fun p1 => kept_of_same env p1 _ rfl rfl rfl

theorem kept_readDLoop (env : Env) (name mimeType : Option Str) (base64 : Bool) :
    ∀ (pending : List ReadEvent) (reader : Reader) (p : ABWParser),
      Kept env p (parserOf (ABWParser.readDLoop env name mimeType base64 reader pending p)) := by
  intro pending
  induction pending with
  | nil => intro reader p; exact kept_ok env p
  | cons ev rest ih =>
    intro reader p
    simp only [ABWParser.readDLoop]
    have hcol : Kept env p
        (if (xmlTextReaderRead { reader with pending := ev :: rest }).2.node.nodeType =
              .XML_READER_TYPE_TEXT ∨
            (xmlTextReaderRead { reader with pending := ev :: rest }).2.node.nodeType =
              .XML_READER_TYPE_CDATA then
          match (xmlTextReaderRead { reader with pending := ev :: rest }).2.node.value with
          | some data =>
            ABWParser.callCollectorIf env
              (.collectData name mimeType (ABWParser.binaryData env base64 data)) p
          | none => .ok p
        else .ok p) := by
      refine kept_ite _ _ _ _ _ ?_ (kept_ok env p)
      split
      · exact kept_callCollectorIf env _ p
      · exact kept_ok env p
    revert hcol
    generalize (if (xmlTextReaderRead { reader with pending := ev :: rest }).2.node.nodeType =
              .XML_READER_TYPE_TEXT ∨
            (xmlTextReaderRead { reader with pending := ev :: rest }).2.node.nodeType =
              .XML_READER_TYPE_CDATA then
          match (xmlTextReaderRead { reader with pending := ev :: rest }).2.node.value with
          | some data =>
            ABWParser.callCollectorIf env
              (.collectData name mimeType (ABWParser.binaryData env base64 data)) p
          | none => .ok p
        else .ok p) = collected
    intro hcol
    cases collected with
    | fail f => trivial
    | ok p1 =>
      simp only []
      split
      · exact kept_trans env p p1 _ hcol (ih _ p1)
      · exact hcol

/-- In the styles pass `readFrame` only calls `openFrame`. -/
theorem kept_readFrame (env : Env) (reader : Reader) (p : ABWParser) :
    Kept env p (ABWParser.readFrame env reader p) := by
  cases hc : p.m_collector with
  | none =>
    have : ABWParser.readFrame env reader p = .ok p := by
      unfold ABWParser.readFrame
      rw [hc]
    rw [this]
    exact kept_ok env p
  | some c =>
    cases hs : p.m_state.m_inStyleParsing with
    | true =>
      have : ABWParser.readFrame env reader p =
          ABWParser.callCollector env (.openFrame (getAttribute reader "props")
            (getAttribute reader "strux-image-dataid") (getAttribute reader "title")
            (getAttribute reader "alt")) p := by
        unfold ABWParser.readFrame
        rw [hc]
        simp only [hs, if_true]
      rw [this]
      have h := kept_callCollector env (.openFrame (getAttribute reader "props")
            (getAttribute reader "strux-image-dataid") (getAttribute reader "title")
            (getAttribute reader "alt")) p
      revert h
      cases ABWParser.callCollector env _ p with
      | fail f => exact fun _ => trivial
      | ok p1 =>
        intro h _
        exact h hs
    | false =>
      cases ABWParser.readFrame env reader p with
      | fail f => trivial
      | ok p1 => intro h; exact absurd h (by simp [hs])

/-- In the styles pass `readCloseFrame` only calls `closeFrame`. -/
theorem kept_readCloseFrame (env : Env) (p : ABWParser) :
    Kept env p (ABWParser.readCloseFrame env p) := by
  cases hs : p.m_state.m_inStyleParsing with
  | false =>
    cases ABWParser.readCloseFrame env p with
    | fail f => trivial
    | ok p1 => intro h; exact absurd h (by simp [hs])
  | true =>
    unfold ABWParser.readCloseFrame
    cases hc : p.m_collector with
    | none =>
      simp only []
      intro _
      exact ⟨hs, rfl, by rw [hc]; exact Reaches.same _⟩
    | some c =>
      simp only []
      cases hcall : collectorCall env .closeFrame c with
      | fail f => trivial
      | ok c1 =>
        simp only [hs, if_true]
        intro _
        exact ⟨hs, rfl, Reaches.call _ c c1 .closeFrame (by rw [hc]; exact Reaches.same _) hcall⟩

theorem kept_dispatchFrame (env : Env) (reader : Reader) (p : ABWParser) :
    Kept env p (ABWParser.dispatchFrame env reader p) := by
  have hform : ABWParser.dispatchFrame env reader p =
      (if ABWParser.opens reader then ABWParser.readFrame env reader p else .ok p).bind fun p1 =>
        if ABWParser.closes reader then ABWParser.readCloseFrame env p1 else .ok p1 := by
    unfold ABWParser.dispatchFrame
    cases (if ABWParser.opens reader then ABWParser.readFrame env reader p else .ok p) <;> rfl
  rw [hform]
  exact kept_bind env p _ _ (kept_ite _ _ _ _ _ (kept_readFrame env reader p) (kept_ok env p))
    fun p1 => kept_ite _ _ _ _ _ (kept_readCloseFrame env p1) (kept_ok env p1)

theorem kept_keep (env : Env) (reader : Reader) (p : ABWParser) (r : Res ABWParser)
    (h : Kept env p r) : Kept env p (parserOf (ABWParser.keepReader reader r)) := by
  rw [parserOf_keepReader]
  exact h

theorem kept_skip (env : Env) (reader : Reader) (a b : Int × Reader) (p : ABWParser) :
    Kept env p
      (parserOf (if ABWParser.opens reader then .ok (a.1, a.2, p) else .ok (b.1, b.2, p))) := by
  split
  · exact kept_ok env p
  · exact kept_ok env p

/-- In the styles pass the `switch` of `processXmlNode` leaves the stack alone and
only calls the collector. -/
theorem kept_dispatchToken (env : Env) (reader : Reader) (p : ABWParser) :
    Kept env p (parserOf (ABWParser.dispatchToken env reader p)) := by
  unfold ABWParser.dispatchToken
  cases reader.node.token with
  | XML_FRAME => exact kept_keep env reader p _ (kept_dispatchFrame env reader p)
  | XML_ABIWORD =>
    exact kept_keep env reader p _
      (kept_ite _ _ _ _ _ (kept_callCollectorIf env _ p) (kept_ok env p))
  | XML_METADATA =>
    refine kept_of_same env p _ ?_ ?_ ?_
    · unfold ABWParser.dispatchMetadata; simp only []; split <;> split <;> rfl
    · unfold ABWParser.dispatchMetadata; simp only []; split <;> split <;> rfl
    · unfold ABWParser.dispatchMetadata; simp only []; split <;> split <;> rfl
  | XML_M =>
    refine kept_of_same env p _ ?_ ?_ ?_
    · split
      · unfold ABWParser.readM; split <;> rfl
      · rfl
    · split
      · unfold ABWParser.readM; split <;> rfl
      · rfl
    · split
      · unfold ABWParser.readM; split <;> rfl
      · rfl
  | XML_HISTORY => exact kept_skip env reader (ABWParser.readHistory reader) (1, reader) p
  | XML_REVISIONS => exact kept_skip env reader (ABWParser.readRevisions reader) (1, reader) p
  | XML_IGNOREDWORDS =>
    exact kept_skip env reader (ABWParser.readIgnoredWords reader) (1, reader) p
  | XML_S =>
    exact kept_keep env reader p _ (kept_ite _ _ _ _ _ (kept_readS env reader p) (kept_ok env p))
  | XML_L =>
    exact kept_keep env reader p _
      (kept_ite _ _ _ _ _ (kept_callCollectorIf env _ p) (kept_ok env p))
  | XML_PAGESIZE =>
    exact kept_keep env reader p _
      (kept_ite _ _ _ _ _ (kept_callCollectorIf env _ p) (kept_ok env p))
  | XML_SECTION =>
    exact kept_keep env reader p _
      (kept_openClose env reader p _ _ _ (fun q => kept_readSection env reader q))
  | XML_D =>
    simp only []
    split
    · exact kept_readDLoop env _ _ _ reader.pending reader p
    · exact kept_ok env p
  | XML_P =>
    exact kept_keep env reader p _
      (kept_openClose env reader p _ _ _ (fun q => kept_callCollectorIf env _ q))
  | XML_C =>
    exact kept_keep env reader p _
      (kept_openClose env reader p _ _ _ (fun q => kept_callCollectorIf env _ q))
  | XML_CBR =>
    exact kept_keep env reader p _
      (kept_ite _ _ _ _ _ (kept_callCollector env _ p) (kept_ok env p))
  | XML_PBR =>
    exact kept_keep env reader p _
      (kept_ite _ _ _ _ _ (kept_callCollector env _ p) (kept_ok env p))
  | XML_BR =>
    exact kept_keep env reader p _
      (kept_ite _ _ _ _ _ (kept_callCollector env _ p) (kept_ok env p))
  | XML_A =>
    exact kept_keep env reader p _
      (kept_openClose env reader p _ _ _ (fun q => kept_callCollectorIf env _ q))
  | XML_FOOT =>
    exact kept_keep env reader p _
      (kept_openClose env reader p _ _ _ (fun q => kept_callCollectorIf env _ q))
  | XML_ENDNOTE =>
    exact kept_keep env reader p _
      (kept_openClose env reader p _ _ _ (fun q => kept_callCollectorIf env _ q))
  | XML_FIELD =>
    exact kept_keep env reader p _
      (kept_openClose env reader p _ _ _ (fun q => kept_callCollectorIf env _ q))
  | XML_TABLE =>
    exact kept_keep env reader p _
      (kept_openClose env reader p _ _ _ (fun q => kept_callCollectorIf env _ q))
  | XML_CELL =>
    exact kept_keep env reader p _
      (kept_openClose env reader p _ _ _ (fun q => kept_callCollectorIf env _ q))
  | XML_IMAGE =>
    exact kept_keep env reader p _
      (kept_ite _ _ _ _ _ (kept_callCollectorIf env _ p) (kept_ok env p))
  | XML_TOKEN_INVALID => exact kept_ok env p
  | otherToken => exact kept_ok env p

/-- In the styles pass `processXmlNode` leaves the flag and the collector stack as
they are, and the collector is the one before after the calls it received. -/
theorem kept_processXmlNode (env : Env) (reader : Reader) (p : ABWParser) :
    Kept env p (parserOf (ABWParser.processXmlNode env reader p)) := by
  unfold ABWParser.processXmlNode
  by_cases hws : reader.node.nodeType = .XML_READER_TYPE_SIGNIFICANT_WHITESPACE
  · rw [if_pos hws]
    have hform : ∀ r : Res ABWParser,
        parserOf (r.bind fun p1 => (.ok (1, reader, p1) : Res (Int × Reader × ABWParser))) = r :=
      fun r => by cases r <;> rfl
    rw [hform]
    exact kept_ite _ _ _ _ _ (kept_callCollector env _ p) (kept_ok env p)
  · rw [if_neg hws, parserOf_bind]
    exact kept_bind env p _ _
      (kept_ite _ _ _ _ _ (kept_dispatchText env reader p) (kept_ok env p))
      (fun p1 => kept_dispatchToken env reader p1)

theorem kept_of_node (env : Env) (reader : Reader) (p : ABWParser)
    (x : Int × Reader × ABWParser) (h : ABWParser.processXmlNode env reader p = .ok x) :
    Kept env p (.ok x.2.2) := by
  have hk := kept_processXmlNode env reader p
  rw [h] at hk
  exact hk

/-- In the styles pass the loop of `processXmlDocument` leaves the flag and the
collector stack as they are and only calls the collector. -/
theorem processLoop_kept (env : Env) (fuel : Nat) (ret : Int) (reader : Reader) (p : ABWParser)
    (h : (if ret = 1 then reader.pending.length + 2 else 1) ≤ fuel)
    (x : Int × Reader × ABWParser) (hx : ABWParser.processLoop env fuel ret reader p = .ok x) :
    Kept env p (.ok x.2.2) := by
  refine processLoop_induction env
    (fun _ _ p r => ∀ x, r = .ok x → Kept env p (.ok x.2.2)) ?_ ?_ ?_ fuel ret reader p h x hx
  · intro ret reader p _ x hx
    cases hx
    exact kept_ok env p
  · intro reader p f _ _ x hx
    cases hx
  · intro reader p y r _ hnode hq x hx
    exact kept_trans env p y.2.2 _ (kept_of_node env reader p y hnode) (hq x hx)

/-- In the styles pass a traversal leaves the flag and the collector stack as they
are and only calls the collector. -/
theorem processXmlDocument_kept (env : Env) (input : Option Input) (p : ABWParser) (b : Bool)
    (p2 : ABWParser) (h : ABWParser.processXmlDocument env input p = .ok (b, p2)) :
    Kept env p (.ok p2) := by
  unfold ABWParser.processXmlDocument at h
  cases input with
  | none => cases h; exact kept_ok env p
  | some stream =>
    simp only [] at h
    split at h
    · cases h; exact kept_ok env p
    · cases hloop : ABWParser.processLoop env (stream.events.length + 1)
          (xmlTextReaderRead (ABWParser.readerFor stream)).1
          (xmlTextReaderRead (ABWParser.readerFor stream)).2 p with
      | fail f => rw [hloop] at h; cases h
      | ok x =>
        rw [hloop] at h
        obtain ⟨ret, reader, p1⟩ := x
        simp only [] at h
        obtain ⟨p3, hend, hres⟩ := bind_ok_inv _ _ _ h
        cases hres
        have h1 := processLoop_kept env _ _ _ p (first_read_fuel stream) _ hloop
        have h2 := kept_callCollectorIf env .endDocument p1
        rw [hend] at h2
        exact kept_trans env p p1 _ h1 h2

theorem dispatchAll_kept (env : Env) (nodes : List XmlNode) :
    ∀ (p p1 : ABWParser), dispatchAll env nodes p = .ok p1 → Kept env p (.ok p1) := by
  induction nodes with
  | nil =>
    intro p p1 h
    cases h
    exact kept_ok env p
  | cons node rest ih =>
    intro p p1 h
    simp only [dispatchAll] at h
    cases hnode : ABWParser.processXmlNode env (readerAt node []) p with
    | fail f => rw [hnode] at h; cases h
    | ok x =>
      rw [hnode] at h
      exact kept_trans env p x.2.2 _ (kept_of_node env _ p x hnode) (ih _ _ h)

/-- C23: while the style-parsing flag is set, every sequence of dispatched nodes,
frame start and end elements included, balanced or not, leaves the flag set
and the collector stack exactly as it was (empty if it was empty), and the
active collector is the one that was active before, after the calls of the
collector interface that it received: it is never replaced by a new
collector nor exchanged for one from the stack. This holds for a
traversal by `processXmlDocument`, which returns within the bound of its
loop, and for any list of nodes dispatched one after the other. -/
theorem styles_pass_keeps_stack (env : Env) (p : ABWParser)
    (hstyle : p.m_state.m_inStyleParsing = true) :
    (∀ (input : Option Input) (b : Bool) (p2 : ABWParser),
      ABWParser.processXmlDocument env input p = .ok (b, p2) →
      p2.m_state.m_inStyleParsing = true ∧
      p2.m_state.m_collectorStack = p.m_state.m_collectorStack ∧
      Reaches env p.m_collector p2.m_collector) ∧
    (∀ input : Option Input, ABWParser.processXmlDocument env input p ≠ .fail .outOfFuel) ∧
    (∀ (nodes : List XmlNode) (p1 : ABWParser), dispatchAll env nodes p = .ok p1 →
      p1.m_state.m_inStyleParsing = true ∧
      p1.m_state.m_collectorStack = p.m_state.m_collectorStack ∧
      Reaches env p.m_collector p1.m_collector) :=
  ⟨fun input b p2 h => processXmlDocument_kept env input p b p2 h hstyle,
    fun input => processXmlDocument_fuel env input p,
    fun nodes p1 h => dispatchAll_kept env nodes p p1 h hstyle⟩

/-- C23, at a styles pass over unbalanced frame elements that starts with an empty
stack: the traversal returns true with an empty stack. -/
theorem styles_pass_keeps_stack_witness :
    ∃ p2, ABWParser.processXmlDocument quietEnv (some unbalancedDoc)
        (ABWParser.stylesPassStart quietEnv (newParser (some unbalancedDoc))) = .ok (true, p2) ∧
      p2.m_state.m_collectorStack = [] := by
  have h : ∃ p2, ABWParser.processXmlDocument quietEnv (some unbalancedDoc)
      (ABWParser.stylesPassStart quietEnv (newParser (some unbalancedDoc))) = .ok (true, p2) := by
    have hb : (ABWParser.processXmlDocument quietEnv (some unbalancedDoc)
        (ABWParser.stylesPassStart quietEnv (newParser (some unbalancedDoc)))).bind
        (fun r => .ok r.1) = .ok true := by decide
    cases hr : ABWParser.processXmlDocument quietEnv (some unbalancedDoc)
        (ABWParser.stylesPassStart quietEnv (newParser (some unbalancedDoc))) with
    | fail f => rw [hr] at hb; cases hb
    | ok r =>
      obtain ⟨b, p2⟩ := r
      rw [hr] at hb
      cases hb
      exact ⟨p2, rfl⟩
  obtain ⟨p2, h2⟩ := h
  exact ⟨p2, h2, ((styles_pass_keeps_stack quietEnv
    (ABWParser.stylesPassStart quietEnv (newParser (some unbalancedDoc))) rfl).1 _ _ _ h2).2.1⟩

end Abw
